import Mathlib

/-! hactool: the sectioned virtual file reader of `nca.c`, and the hash-table checks.

A shallow embedding of the section reader (`nca_section_fseek`, `nca_section_fread`,
`nca_bktr_section_physical_fread`), the counter updates (`nca_update_ctr`,
`nca_update_bktr_ctr`), the per-section setup of `nca_process`, and the hash-table
checks of `nca.c` and `utils.c`.

Conventions.
* A byte is a `Nat`; a file is the `List Nat` of its bytes; a caller's buffer is a
  function `Nat → Nat` from byte index to byte, so that `buffer + k` is an index shift.
* `uint64_t` arithmetic is written with `u64`, `sub64` and `and_not`; `uint32_t`
  arithmetic with `u32` and `sub32`.
* Pointers into the relocation and subsection tables are indices into the entry lists.
* The recursion of the reader is bounded by a fuel argument; running out of fuel is the
  result `Fault.fuel`, a call of `exit(EXIT_FAILURE)` is `Fault.exit_failure`, and a
  dereference the C code leaves undefined is `Fault.undefined`.
-/

namespace Hactool

/-! ## Machine arithmetic -/

/-- Value of an expression of type `uint64_t`. -/
def u64 (n : Nat) : Nat := n % 2 ^ 64

/-- Value of an expression of type `uint32_t`. -/
def u32 (n : Nat) : Nat := n % 2 ^ 32

/-- The difference `a - b` computed in `uint64_t`. -/
def sub64 (a b : Nat) : Nat := (u64 a + (2 ^ 64 - u64 b)) % 2 ^ 64

/-- The difference `a - b` computed in `uint32_t`. -/
def sub32 (a b : Nat) : Nat := (u32 a + (2 ^ 32 - u32 b)) % 2 ^ 32

/-- The C expression `x & ~m` for a `uint64_t` value `x` and an `int` constant `m`
(the complement is sign-extended to 64 bits). -/
def and_not (x m : Nat) : Nat := x &&& (2 ^ 64 - 1 - m)

/-! ## Files and buffers -/

/-- The bytes `fread(_, 1, count, f)` delivers when the position of `f` is `pos`:
at most `count` bytes, fewer at the end of the file. -/
def fread (file : List Nat) (pos count : Nat) : List Nat := (file.drop pos).take count

/-- The effect of `memcpy(buffer + dst, src, src.length)` on a buffer. -/
def memcpy (buffer : Nat → Nat) (dst : Nat) (src : List Nat) : Nat → Nat :=
  fun i => if dst ≤ i ∧ i < dst + src.length then src.getD (i - dst) 0 else buffer i

/-- The `count` bytes found at byte offset `start` from the beginning of a local array:
the array's own bytes inside it, and whatever the stack holds (`stack`) beyond it. -/
def local_bytes (arr : List Nat) (stack : Nat → Nat) (start count : Nat) : List Nat :=
  (List.range count).map (fun i => if start + i < arr.length then arr.getD (start + i) 0
    else stack (start + i))

/-- The first `count` bytes of a buffer starting at index `start`, as a list. -/
def buffer_bytes (buffer : Nat → Nat) (start count : Nat) : List Nat :=
  (List.range count).map (fun i => buffer (start + i))

/-! ## Counter updates (`nca.c`, lines 15-34) -/

/-- The function `nca_update_ctr`: `ofs >>= 4`, then for `j < 8` store the low byte of `ofs`
at `ctr[0x10-j-1]` and shift `ofs` right by 8. -/
def nca_update_ctr (ctr : List Nat) (ofs : Nat) : List Nat :=
  ((List.range 0x8).foldl
    (fun (s : List Nat × Nat) j => (s.1.set (0x10 - j - 1) (s.2 &&& 0xFF), s.2 >>> 8))
    (ctr, u64 ofs >>> 4)).1

/-- The function `nca_update_bktr_ctr`: the loop of `nca_update_ctr`, then for `j < 4` store
the low byte of `ctr_val` at `ctr[0x8-j-1]` and shift `ctr_val` right by 8. -/
def nca_update_bktr_ctr (ctr : List Nat) (ctr_val : Nat) (ofs : Nat) : List Nat :=
  let ctr1 := ((List.range 0x8).foldl
    (fun (s : List Nat × Nat) j => (s.1.set (0x10 - j - 1) (s.2 &&& 0xFF), s.2 >>> 8))
    (ctr, u64 ofs >>> 4)).1
  ((List.range 4).foldl
    (fun (s : List Nat × Nat) j => (s.1.set (0x8 - j - 1) (s.2 &&& 0xFF), s.2 >>> 8))
    (ctr1, u32 ctr_val)).1

/-- The `n` bytes of `v` in big-endian order (most significant byte first). -/
def be_bytes (n v : Nat) : List Nat :=
  (List.range n).map (fun i => (v >>> (8 * (n - 1 - i))) % 256)

/-- The number a list of bytes denotes in big-endian order. -/
def be_val (bytes : List Nat) : Nat := bytes.foldl (fun acc b => acc * 256 + b) 0

/-! ## Cipher primitives -/

/-- The key-dependent part of a section's cipher context `ctx->aes`: `block` is the
encryption of one 16-byte block under the section key (the keystream generator of
AES-CTR), `xts` the AES-XTS decryption of one sector under a sector index. -/
structure aes_ctx_t where
  block : List Nat → List Nat
  xts : Nat → List Nat → List Nat

/-- Modelled from the spec: `aes.c` is not part of the sources. AES-CTR with a settable
IV (`aes_setiv` followed by `aes_decrypt`): byte `i` of the data is combined by exclusive
or with byte `i mod 16` of the encryption of the counter block `iv + i / 16`, the IV being
a 128-bit big-endian number. -/
def aes_ctr_crypt (aes : aes_ctx_t) (iv : List Nat) (data : List Nat) : List Nat :=
  (List.range data.length).map (fun i =>
    data.getD i 0 ^^^ (aes.block (be_bytes 16 ((be_val iv + i / 16) % 2 ^ 128))).getD (i % 16) 0)

/-- Modelled from the spec: `aes.c` is not part of the sources.
`aes_xts_decrypt(ctx, dst, src, l, sector, sector_size)` decrypts the `k`-th run of
`sector_size` bytes with the tweak derived from `sector + k`. -/
def aes_xts_decrypt (aes : aes_ctx_t) (data : List Nat) (sector sector_size : Nat) : List Nat :=
  (List.range (data.length / sector_size)).flatMap (fun k =>
    aes.xts (sector + k) ((data.drop (k * sector_size)).take sector_size))

/-! ## Section contexts -/

/-- Modelled from the spec: `nca.h` is not part of the sources. The values of
`section_crypt_type_t`; the spec lists the four modes NONE, XTS, CTR, BKTR. -/
abbrev CRYPT_NONE : Nat := 1

/-- Modelled from the spec: see `CRYPT_NONE`. -/
abbrev CRYPT_XTS : Nat := 2

/-- Modelled from the spec: see `CRYPT_NONE`. -/
abbrev CRYPT_CTR : Nat := 3

/-- Modelled from the spec: see `CRYPT_NONE`. -/
abbrev CRYPT_BKTR : Nat := 4

/-- Modelled from the spec: `nca.h` is not part of the sources. The partition types of an
fs-header. -/
abbrev PARTITION_ROMFS : Nat := 0

/-- Modelled from the spec: see `PARTITION_ROMFS`. -/
abbrev PARTITION_PFS0 : Nat := 1

/-- Modelled from the spec: `nca.h` is not part of the sources. The fs types of an
fs-header. -/
abbrev FS_TYPE_PFS0 : Nat := 2

/-- Modelled from the spec: see `FS_TYPE_PFS0`. -/
abbrev FS_TYPE_ROMFS : Nat := 3

/-- The kinds of section, `enum nca_section_type`. -/
inductive nca_section_type
  | PFS0
  | ROMFS
  | BKTR
  | INVALID
  deriving DecidableEq, Repr

/-- The fields of `nca_fs_header_t` the reader consults. `section_ctr` is the 8-byte
section counter as stored in the header. -/
structure nca_fs_header_t where
  partition_type : Nat
  fs_type : Nat
  crypt_type : Nat
  section_ctr : List Nat

/-- A relocation entry of a BKTR section. -/
structure bktr_relocation_entry_t where
  virt_offset : Nat
  phys_offset : Nat
  is_patch : Nat
  deriving DecidableEq, Repr, Inhabited

/-- The relocation block: `entries` holds the `num_entries` entries followed by the
appended sentinel. -/
structure bktr_relocation_block_t where
  patch_romfs_size : Nat
  num_entries : Nat
  entries : List bktr_relocation_entry_t

/-- A subsection entry of a BKTR section. -/
structure bktr_subsection_entry_t where
  offset : Nat
  ctr_val : Nat
  deriving DecidableEq, Repr, Inhabited

/-- The subsection block: `entries` holds the `num_entries` entries followed by the
appended sentinel. -/
structure bktr_subsection_block_t where
  num_entries : Nat
  entries : List bktr_subsection_entry_t

/-- Modelled from the spec: `bktr.c` is not part of the sources. `get_relocation(v)` returns
the largest entry with `virt_offset ≤ v`; the result is the index of that entry among the
`num_entries` entries of the table, and there is none when every entry lies above `v`. -/
def bktr_get_relocation (block : bktr_relocation_block_t) (offset : Nat) : Option Nat :=
  ((List.range block.num_entries).filter
    (fun i => decide ((block.entries.getD i default).virt_offset ≤ offset))).getLast?

/-- Modelled from the spec: `bktr.c` is not part of the sources. `get_subsection(p)` returns
the largest entry with `offset ≤ p`, as an index among the `num_entries` entries. -/
def bktr_get_subsection (block : bktr_subsection_block_t) (offset : Nat) : Option Nat :=
  ((List.range block.num_entries).filter
    (fun i => decide ((block.entries.getD i default).offset ≤ offset))).getLast?

/-- The cursor fields of `bktr_ctx_t`; a table that is not loaded is `none` (a NULL
pointer). -/
structure bktr_ctx_t where
  relocation_block : Option bktr_relocation_block_t
  subsection_block : Option bktr_subsection_block_t
  virtual_seek : Nat
  bktr_seek : Nat
  base_seek : Nat

/-- The fields of `nca_section_ctx_t` the reader uses, without the base of the tool
context. `file` is the content of `ctx->file` and `file_pos` its position; `stack` stands
for the bytes that lie beyond the reader's local arrays. -/
structure SectionCore where
  is_present : Bool
  is_decrypted : Bool
  type : nca_section_type
  file : List Nat
  file_pos : Nat
  offset : Nat
  size : Nat
  section_num : Nat
  header : nca_fs_header_t
  aes : aes_ctx_t
  ctr : List Nat
  cur_seek : Nat
  sector_num : Nat
  sector_ofs : Nat
  physical_reads : Nat
  bktr_ctx : bktr_ctx_t
  stack : Nat → Nat

/-- The base of the tool context: `tool_ctx->base_file` is NULL (`absent`), a raw RomFS
file (`BASEFILE_ROMFS`), or a base NCA (`BASEFILE_NCA`) with its four section contexts.
The tool context of a base NCA has no base of its own (`main.c`, line 121). -/
inductive base_file_t
  | absent
  | romfs (data : List Nat)
  | nca (section_contexts : List SectionCore)

/-- The test `tool_ctx->base_file == NULL`. -/
def base_file_t.is_null : base_file_t → Bool
  | .absent => true
  | .romfs _ => false
  | .nca _ => false

/-- A section context together with the base of its tool context. -/
structure nca_section_ctx_t extends SectionCore where
  base_file : base_file_t

/-- The ways a call can fail to return. -/
inductive Fault
  | fuel
  | exit_failure
  | undefined
  deriving DecidableEq, Repr

/-- What a read returns: the return value, the buffer and the section context. -/
structure read_result where
  ret : Nat
  buffer : Nat → Nat
  ctx : nca_section_ctx_t

/-! ## Seeking (`nca.c`, lines 37-68) -/

/-- The function `nca_section_fseek`. -/
def nca_section_fseek (ctx : nca_section_ctx_t) (offset : Nat) : Except Fault nca_section_ctx_t :=
  if ctx.is_decrypted then
    .ok { ctx with file_pos := u64 (ctx.offset + offset), cur_seek := u64 (ctx.offset + offset) }
  else if ctx.header.crypt_type = CRYPT_XTS then
    .ok { ctx with
      file_pos := and_not (u64 (ctx.offset + offset)) 0x1FF
      cur_seek := and_not (u64 (ctx.offset + offset)) 0x1FF
      sector_num := offset / 0x200
      sector_ofs := offset &&& 0x1FF }
  else if ctx.type = nca_section_type.BKTR ∧ ctx.bktr_ctx.subsection_block.isSome then
    /- No better way to do this than to make all BKTR seeking virtual. -/
    let ctx1 : nca_section_ctx_t := { ctx with bktr_ctx.virtual_seek := offset }
    if ctx1.base_file.is_null = true ∧ ctx1.physical_reads = 0 then
      /- Without base romfs, reads will be physical. -/
      .ok { ctx1 with bktr_ctx.bktr_seek := offset }
    else
      match ctx1.bktr_ctx.relocation_block with
      | none => .error Fault.undefined
      | some block =>
        match bktr_get_relocation block offset with
        | none => .error Fault.exit_failure
        | some r =>
          let reloc := block.entries.getD r default
          let section_ofs := u64 (sub64 offset reloc.virt_offset + reloc.phys_offset)
          if reloc.is_patch ≠ 0 then
            /- Seeked within the patch romfs. -/
            .ok { ctx1 with bktr_ctx.bktr_seek := section_ofs }
          else
            /- Seeked within the base romfs. -/
            .ok { ctx1 with bktr_ctx.base_seek := section_ofs }
  else if ctx.header.crypt_type ≠ CRYPT_NONE then
    /- CTR, and BKTR until subsections are read. -/
    .ok { ctx with
      file_pos := and_not (u64 (ctx.offset + offset)) 0xF
      cur_seek := and_not (u64 (ctx.offset + offset)) 0xF
      ctr := nca_update_ctr ctx.ctr (ctx.offset + offset)
      sector_ofs := offset &&& 0xF }
  else
    .ok ctx

/-! ## Reading (`nca.c`, lines 70-251) -/

/-- The function `nca_bktr_section_physical_fread`; `section_fread` stands for the calls of
`nca_section_fread` it makes, and `bofs` is the index in the buffer the caller's pointer
designates. -/
def nca_bktr_section_physical_fread
    (section_fread : nca_section_ctx_t → (Nat → Nat) → Nat → Nat → Except Fault read_result)
    (ctx : nca_section_ctx_t) (buffer : Nat → Nat) (bofs count : Nat) :
    Except Fault read_result :=
  if ctx.is_decrypted then
    let data := fread ctx.file (u64 (ctx.offset + ctx.bktr_ctx.bktr_seek)) count
    let ctx1 : nca_section_ctx_t :=
      { ctx with file_pos := u64 (ctx.offset + ctx.bktr_ctx.bktr_seek) + data.length }
    match nca_section_fseek ctx1 (u64 (ctx1.bktr_ctx.virtual_seek + data.length)) with
    | .error e => .error e
    | .ok ctx2 => .ok ⟨data.length, memcpy buffer bofs data, ctx2⟩
  else
    match ctx.bktr_ctx.subsection_block with
    | none => .error Fault.undefined
    | some block =>
      match bktr_get_subsection block ctx.bktr_ctx.bktr_seek with
      | none => .error Fault.exit_failure
      | some subsec =>
        let ctx1 : nca_section_ctx_t :=
          { ctx with
            ctr := nca_update_bktr_ctr ctx.ctr (block.entries.getD subsec default).ctr_val
              (ctx.bktr_ctx.bktr_seek + ctx.offset)
            file_pos := and_not (u64 (ctx.offset + ctx.bktr_ctx.bktr_seek)) 0xF }
        match bktr_get_subsection block (u64 (ctx1.bktr_ctx.bktr_seek + count)) with
        | none => .error Fault.exit_failure
        | some next_subsec =>
          if next_subsec = subsec ∨
              (u64 (ctx1.bktr_ctx.bktr_seek + count) = (block.entries.getD next_subsec default).offset
                ∧ next_subsec = subsec + 1) then
            /- Easy path, reading *only* within the subsection. -/
            let block_ofs := u32 (ctx1.bktr_ctx.bktr_seek &&& 0xF)
            if block_ofs ≠ 0 then
              let raw := fread ctx1.file ctx1.file_pos 0x10
              let ctx2 : nca_section_ctx_t := { ctx1 with file_pos := ctx1.file_pos + raw.length }
              if raw.length ≠ 0x10 then
                .ok ⟨0, buffer, ctx2⟩
              else
                let block_buf := aes_ctr_crypt ctx2.aes ctx2.ctr raw
                if u64 (count + block_ofs) < 0x10 then
                  let buffer1 := memcpy buffer bofs
                    (local_bytes block_buf ctx2.stack ctx2.sector_ofs count)
                  match nca_section_fseek ctx2 (u64 (ctx2.bktr_ctx.virtual_seek + count)) with
                  | .error e => .error e
                  | .ok ctx3 => .ok ⟨count, buffer1, ctx3⟩
                else
                  let buffer1 := memcpy buffer bofs
                    (local_bytes block_buf ctx2.stack block_ofs (sub32 0x10 block_ofs))
                  let read_in_block := sub32 0x10 block_ofs
                  match nca_section_fseek ctx2
                      (u64 (sub64 ctx2.bktr_ctx.virtual_seek block_ofs + 0x10)) with
                  | .error e => .error e
                  | .ok ctx3 =>
                    match section_fread ctx3 buffer1 (bofs + read_in_block)
                        (sub64 count read_in_block) with
                    | .error e => .error e
                    | .ok r => .ok ⟨u64 (read_in_block + r.ret), r.buffer, r.ctx⟩
            else
              let data := fread ctx1.file ctx1.file_pos count
              let ctx2 : nca_section_ctx_t := { ctx1 with file_pos := ctx1.file_pos + data.length }
              let buffer1 := memcpy buffer bofs data
              if data.length ≠ count then
                .ok ⟨0, buffer1, ctx2⟩
              else
                let buffer2 := memcpy buffer1 bofs (aes_ctr_crypt ctx2.aes ctx2.ctr data)
                match nca_section_fseek ctx2 (u64 (ctx2.bktr_ctx.virtual_seek + count)) with
                | .error e => .error e
                | .ok ctx3 => .ok ⟨data.length, buffer2, ctx3⟩
          else
            /- Sad path. -/
            let within_subsection :=
              sub64 (block.entries.getD next_subsec default).offset ctx1.bktr_ctx.bktr_seek
            match section_fread ctx1 buffer bofs within_subsection with
            | .error e => .error e
            | .ok r1 =>
              if r1.ret ≠ within_subsection then
                .ok ⟨0, r1.buffer, r1.ctx⟩
              else
                match section_fread r1.ctx r1.buffer (bofs + within_subsection)
                    (sub64 count within_subsection) with
                | .error e => .error e
                | .ok r2 =>
                  if u64 (r1.ret + r2.ret) ≠ count then
                    .ok ⟨0, r2.buffer, r2.ctx⟩
                  else
                    .ok ⟨u64 (r1.ret + r2.ret), r2.buffer, r2.ctx⟩

/-- The statement `if (remaining) { ... }` ("Read last sector") at the end of the XTS branch
of `nca_section_fread`, followed by the function's `return read`. -/
def xts_last_sector (ctx : nca_section_ctx_t) (buffer : Nat → Nat) (bofs count ofs remaining
    read : Nat) : read_result :=
  if remaining ≠ 0 then
    let raw := fread ctx.file ctx.file_pos 0x200
    let ctx1 : nca_section_ctx_t := { ctx with file_pos := ctx.file_pos + raw.length }
    if raw.length ≠ 0x200 then
      ⟨ofs, buffer, ctx1⟩
    else
      let sector_buf := aes_xts_decrypt ctx1.aes raw ctx1.sector_num 0x200
      ⟨count, memcpy buffer (bofs + ofs) (local_bytes sector_buf ctx1.stack 0 remaining),
        { ctx1 with sector_ofs := u32 remaining }⟩
  else
    ⟨read, buffer, ctx⟩

/-- The loop of `nca_section_fread` that looks for the RomFS section of the base NCA: the
first index below 4 whose section has type ROMFS, and 4 when there is none. -/
def base_romfs_section_num (section_contexts : List SectionCore) : Nat :=
  ((List.range 4).find? (fun i =>
    decide ((section_contexts.get? i).map (fun c => c.type) = some nca_section_type.ROMFS))).getD 4

/-- The statement `nca_section_fseek(ctx, virt_seek + count)` that ends a virtual BKTR read
(line 244), followed by the function's `return read`. -/
def seek_and_return (r : read_result) (offset : Nat) : Except Fault read_result :=
  match nca_section_fseek r.ctx offset with
  | .error e => .error e
  | .ok ctx1 => .ok ⟨r.ret, r.buffer, ctx1⟩

/-- The XTS branch of `nca_section_fread` (lines 136-172) with the function's
`return read`. The source of the two copies out of the sector is written
`&sector_buf + ctx->sector_ofs`: `&sector_buf` points to an array of 0x200 bytes, so the
sum designates the bytes that start `0x200 * sector_ofs` bytes after the start of
`sector_buf`, the sector itself only when `sector_ofs` is 0. -/
def nca_section_fread_xts (ctx : nca_section_ctx_t) (buffer : Nat → Nat) (bofs count : Nat) :
    read_result :=
  /- AES-XTS requires special handling... -/
  let raw := fread ctx.file ctx.file_pos 0x200
  let ctx1 : nca_section_ctx_t := { ctx with file_pos := ctx.file_pos + raw.length }
  if raw.length ≠ 0x200 then
    ⟨0, buffer, ctx1⟩
  else
    let sector_buf := aes_xts_decrypt ctx1.aes raw ctx1.sector_num 0x200
    if count > sub32 0x200 ctx1.sector_ofs then
      /- We're leaving the sector... -/
      let buffer1 := memcpy buffer bofs
        (local_bytes sector_buf ctx1.stack (0x200 * ctx1.sector_ofs)
          (sub32 0x200 ctx1.sector_ofs))
      let ctx2 : nca_section_ctx_t :=
        { ctx1 with sector_num := ctx1.sector_num + 1, sector_ofs := 0 }
      let remaining := sub64 count (sub32 0x200 ctx2.sector_ofs)
      let ofs := sub32 0x200 ctx2.sector_ofs
      if and_not remaining 0x1FF ≠ 0 then
        /- Read intermediate sectors. -/
        let data := fread ctx2.file ctx2.file_pos (and_not remaining 0x1FF)
        let ctx3 : nca_section_ctx_t := { ctx2 with file_pos := ctx2.file_pos + data.length }
        let buffer2 := memcpy buffer1 (bofs + ofs) data
        if data.length ≠ and_not remaining 0x1FF then
          ⟨ofs, buffer2, ctx3⟩
        else
          let buffer3 := memcpy buffer2 (bofs + ofs)
            (aes_xts_decrypt ctx3.aes data ctx3.sector_num 0x200)
          let ctx4 : nca_section_ctx_t :=
            { ctx3 with sector_num := ctx3.sector_num + remaining / 0x200 }
          xts_last_sector ctx4 buffer3 bofs count (ofs + and_not remaining 0x1FF)
            (remaining &&& 0x1FF) data.length
      else
        xts_last_sector ctx2 buffer1 bofs count ofs remaining raw.length
    else
      let buffer1 := memcpy buffer bofs
        (local_bytes sector_buf ctx1.stack (0x200 * ctx1.sector_ofs) count)
      ⟨raw.length, buffer1,
        { ctx1 with
          sector_num := ctx1.sector_num + (ctx1.sector_ofs + count) / 0x200
          sector_ofs := u32 (ctx1.sector_ofs + count) &&& 0x1FF }⟩

/-- The AES-CTR branch of `nca_section_fread` (lines 176-200) with the function's
`return read`; `section_fread` stands for the call of `nca_section_fread` it makes. -/
def nca_section_fread_ctr
    (section_fread : nca_section_ctx_t → (Nat → Nat) → Nat → Nat → Except Fault read_result)
    (ctx : nca_section_ctx_t) (buffer : Nat → Nat) (bofs count : Nat) :
    Except Fault read_result :=
  if ctx.sector_ofs ≠ 0 then
    let raw := fread ctx.file ctx.file_pos 0x10
    let ctx1 : nca_section_ctx_t := { ctx with file_pos := ctx.file_pos + raw.length }
    if raw.length ≠ 0x10 then
      .ok ⟨0, buffer, ctx1⟩
    else
      let block_buf := aes_ctr_crypt ctx1.aes ctx1.ctr raw
      if u64 (count + ctx1.sector_ofs) < 0x10 then
        let buffer1 := memcpy buffer bofs
          (local_bytes block_buf ctx1.stack ctx1.sector_ofs count)
        let ctx2 : nca_section_ctx_t := { ctx1 with sector_ofs := u32 (ctx1.sector_ofs + count) }
        match nca_section_fseek ctx2 (sub64 ctx2.cur_seek ctx2.offset) with
        | .error e => .error e
        | .ok ctx3 => .ok ⟨count, buffer1, ctx3⟩
      else
        let buffer1 := memcpy buffer bofs
          (local_bytes block_buf ctx1.stack ctx1.sector_ofs (sub32 0x10 ctx1.sector_ofs))
        let read_in_block := sub32 0x10 ctx1.sector_ofs
        match nca_section_fseek ctx1 (u64 (sub64 ctx1.cur_seek ctx1.offset + 0x10)) with
        | .error e => .error e
        | .ok ctx2 =>
          match section_fread ctx2 buffer1 (bofs + read_in_block)
              (sub64 count read_in_block) with
          | .error e => .error e
          | .ok r => .ok ⟨u64 (read_in_block + r.ret), r.buffer, r.ctx⟩
  else
    let data := fread ctx.file ctx.file_pos count
    let ctx1 : nca_section_ctx_t := { ctx with file_pos := ctx.file_pos + data.length }
    let buffer1 := memcpy buffer bofs data
    if data.length ≠ count then
      .ok ⟨0, buffer1, ctx1⟩
    else
      let buffer2 := memcpy buffer1 bofs (aes_ctr_crypt ctx1.aes ctx1.ctr data)
      match nca_section_fseek ctx1 (u64 (sub64 ctx1.cur_seek ctx1.offset + count)) with
      | .error e => .error e
      | .ok ctx2 => .ok ⟨data.length, buffer2, ctx2⟩

/-- The read from the base (lines 213-231) of a virtual BKTR read, up to the seek that ends
the read; `section_fread` stands for the call of `nca_section_fread` on the section of the
base NCA. -/
def nca_section_fread_base
    (section_fread : nca_section_ctx_t → (Nat → Nat) → Nat → Nat → Except Fault read_result)
    (ctx : nca_section_ctx_t) (buffer : Nat → Nat) (bofs count : Nat) :
    Except Fault read_result :=
  /- Nice and easy read from the base rom. -/
  match ctx.base_file with
  | .absent => .error Fault.undefined
  | .romfs base =>
    let data := fread base ctx.bktr_ctx.base_seek count
    if data.length ≠ count then
      .ok ⟨0, memcpy buffer bofs data, ctx⟩
    else
      seek_and_return ⟨data.length, memcpy buffer bofs data, ctx⟩
        (u64 (ctx.bktr_ctx.virtual_seek + count))
  | .nca section_contexts =>
    let romfs_section_num := base_romfs_section_num section_contexts
    match section_contexts.get? romfs_section_num with
    | none => .error Fault.undefined
    | some core =>
      match nca_section_fseek { toSectionCore := core, base_file := .absent }
          ctx.bktr_ctx.base_seek with
      | .error e => .error e
      | .ok base1 =>
        match section_fread base1 buffer bofs count with
        | .error e => .error e
        | .ok r =>
          if r.ret ≠ count then
            .error Fault.exit_failure
          else
            seek_and_return ⟨r.ret, r.buffer,
              { ctx with base_file := (.nca
                  (section_contexts.set romfs_section_num r.ctx.toSectionCore)) }⟩
              (u64 (ctx.bktr_ctx.virtual_seek + count))

/-- The virtual read of a BKTR section (lines 204-244) with the function's `return read`;
`section_fread` stands for the calls of `nca_section_fread` it makes. -/
def nca_section_fread_virtual
    (section_fread : nca_section_ctx_t → (Nat → Nat) → Nat → Nat → Except Fault read_result)
    (ctx : nca_section_ctx_t) (buffer : Nat → Nat) (bofs count : Nat) :
    Except Fault read_result :=
  match ctx.bktr_ctx.relocation_block with
  | none => .error Fault.undefined
  | some block =>
    match bktr_get_relocation block ctx.bktr_ctx.virtual_seek with
    | none => .error Fault.exit_failure
    | some reloc =>
      match block.entries.get? (reloc + 1) with
      | none => .error Fault.undefined
      | some next_reloc =>
        let virt_seek := ctx.bktr_ctx.virtual_seek
        if u64 (ctx.bktr_ctx.virtual_seek + count) ≤ next_reloc.virt_offset then
          /- Easy path: We're reading *only* within the current relocation. -/
          if (block.entries.getD reloc default).is_patch ≠ 0 then
            match nca_bktr_section_physical_fread section_fread ctx buffer bofs count with
            | .error e => .error e
            | .ok r => seek_and_return r (u64 (virt_seek + count))
          else
            nca_section_fread_base section_fread ctx buffer bofs count
        else
          let within_relocation := sub64 next_reloc.virt_offset ctx.bktr_ctx.virtual_seek
          match section_fread ctx buffer bofs within_relocation with
          | .error e => .error e
          | .ok r1 =>
            if r1.ret ≠ within_relocation then
              .ok ⟨0, r1.buffer, r1.ctx⟩
            else
              match nca_section_fseek r1.ctx (u64 (virt_seek + within_relocation)) with
              | .error e => .error e
              | .ok ctx2 =>
                match section_fread ctx2 r1.buffer (bofs + within_relocation)
                    (sub64 count within_relocation) with
                | .error e => .error e
                | .ok r2 =>
                  if u64 (r1.ret + r2.ret) ≠ count then
                    .ok ⟨0, r2.buffer, r2.ctx⟩
                  else
                    seek_and_return ⟨u64 (r1.ret + r2.ret), r2.buffer, r2.ctx⟩
                      (u64 (virt_seek + count))

/-- The function `nca_section_fread`; the first argument bounds the depth of the calls, and
`bofs` is the index in the buffer the caller's pointer designates. The branches are
`nca_section_fread_xts`, `nca_section_fread_ctr`, `nca_section_fread_virtual` and
`nca_bktr_section_physical_fread`. -/
def nca_section_fread : Nat → nca_section_ctx_t → (Nat → Nat) → Nat → Nat →
    Except Fault read_result
  | 0, _, _, _, _ => .error Fault.fuel
  | fuel + 1, ctx, buffer, bofs, count =>
    if ctx.is_decrypted = true ∧ ctx.type ≠ nca_section_type.BKTR then
      let data := fread ctx.file ctx.file_pos count
      .ok ⟨data.length, memcpy buffer bofs data,
        { ctx with file_pos := ctx.file_pos + data.length }⟩
    else if ctx.header.crypt_type = CRYPT_XTS then
      .ok (nca_section_fread_xts ctx buffer bofs count)
    else if ctx.header.crypt_type = CRYPT_CTR ∨
        (ctx.header.crypt_type = CRYPT_BKTR ∧ ctx.bktr_ctx.subsection_block.isNone) then
      /- AES-CTR. -/
      nca_section_fread_ctr (nca_section_fread fuel) ctx buffer bofs count
    else if ctx.header.crypt_type = CRYPT_BKTR then
      /- Spooky BKTR AES-CTR. Are we doing virtual reads, or physical reads? -/
      if ctx.base_file.is_null = false ∧ ctx.physical_reads = 0 then
        nca_section_fread_virtual (nca_section_fread fuel) ctx buffer bofs count
      else
        nca_bktr_section_physical_fread (nca_section_fread fuel) ctx buffer bofs count
    else
      .ok ⟨0, buffer, ctx⟩

/-! ## Section setup in `nca_process` (`nca.c`, lines 407-442) -/

/-- Modelled from the spec: the conversion `media_to_real` of `nca.h` is not part of the sources;
one media unit is 512 bytes. -/
def media_to_real (media_offset : Nat) : Nat := u64 (media_offset * 0x200)

/-- A section entry of the NCA header, in media units. -/
structure nca_section_entry_t where
  media_start_offset : Nat
  media_end_offset : Nat

/-- The section kind `nca_process` assigns (lines 417-430). -/
def nca_process_section_type (header : nca_fs_header_t) : nca_section_type :=
  if header.partition_type = PARTITION_PFS0 ∧ header.fs_type = FS_TYPE_PFS0 then
    nca_section_type.PFS0
  else if header.partition_type = PARTITION_ROMFS ∧ header.fs_type = FS_TYPE_ROMFS then
    if header.crypt_type = CRYPT_BKTR then nca_section_type.BKTR else nca_section_type.ROMFS
  else
    nca_section_type.INVALID

/-- The counter `nca_process` builds (lines 431-436): for `j < 8`, `ctr[j]` is byte
`0x8-j-1` of the header's section counter and `ctr[0x10-j-1]` the low byte of `ofs`, which
starts as `offset >> 4` and is shifted right by 8 each round. The array starts zeroed
(`nca_init`). -/
def nca_process_ctr (section_ctr : List Nat) (offset : Nat) : List Nat :=
  ((List.range 0x8).foldl
    (fun (s : List Nat × Nat) j =>
      ((s.1.set j (section_ctr.getD (0x8 - j - 1) 0)).set (0x10 - j - 1) (s.2 &&& 0xFF),
        s.2 >>> 8))
    (List.replicate 0x10 0, u64 offset >>> 4)).1

/-- The context `nca_process` sets up for a section whose media start is not zero (lines
408-456), from the zeroed context of `nca_init`. `nca_is_decrypted` is the flag of the NCA
header, `aes` the cipher context lines 444-456 choose, `base_file` the base of the tool
context, `stack` the bytes beyond the reader's local arrays. -/
def nca_process_section (nca_is_decrypted : Bool) (file : List Nat) (i : Nat)
    (entry : nca_section_entry_t) (header : nca_fs_header_t) (aes : aes_ctx_t)
    (base_file : base_file_t) (stack : Nat → Nat) : nca_section_ctx_t :=
  { is_present := true
    is_decrypted := nca_is_decrypted || decide (header.crypt_type = CRYPT_NONE)
    type := nca_process_section_type header
    file := file
    file_pos := 0
    offset := media_to_real entry.media_start_offset
    size := sub64 (media_to_real entry.media_end_offset) (media_to_real entry.media_start_offset)
    section_num := i
    header := header
    aes := aes
    ctr := nca_process_ctr header.section_ctr (media_to_real entry.media_start_offset)
    cur_seek := 0
    sector_num := 0
    sector_ofs := 0
    physical_reads := 0
    bktr_ctx := { relocation_block := none, subsection_block := none, virtual_seek := 0,
                  bktr_seek := 0, base_seek := 0 }
    stack := stack
    base_file := base_file }

/-! ## Hash-table checks (`nca.c`, lines 691-732; `utils.c`, lines 94-132) -/

/-- The type `validity_t`. -/
inductive validity_t
  | VALIDITY_UNCHECKED
  | VALIDITY_INVALID
  | VALIDITY_VALID
  deriving DecidableEq, Repr

/-- The loop shared by `nca_section_check_external_hash_table` and `check_memory_hash_table`,
which differ only in how they seek and read: `seek_read s ofs block n` seeks the reader
`s` to `ofs` and reads `n` bytes into `block`, giving the number of bytes read, the block
and the reader. The arguments after the fuel are the reader, the block, `ofs`,
`read_size` and the index of `cur_hash_table_entry` in the hash table. A failed read ends
the process (`exit(EXIT_FAILURE)`). -/
def hash_table_loop {σ : Type} (sha256 : List Nat → List Nat)
    (seek_read : σ → Nat → (Nat → Nat) → Nat → Except Fault (Nat × (Nat → Nat) × σ))
    (hash_table : Nat → Nat) (data_ofs data_len block_size full_block : Nat) :
    Nat → σ → (Nat → Nat) → Nat → Nat → Nat → Except Fault (validity_t × σ)
  | 0, _, _, _, _, _ => .error Fault.fuel
  | fuel + 1, s, block, ofs, read_size, cur_hash_table_entry =>
    if ofs < data_len then
      /- Last block... -/
      let block1 := if u64 (ofs + read_size) > data_len
        then memcpy block 0 (List.replicate read_size 0) else block
      let read_size1 := if u64 (ofs + read_size) > data_len
        then sub64 data_len ofs else read_size
      match seek_read s (u64 (ofs + data_ofs)) block1 read_size1 with
      | .error e => .error e
      | .ok (r, block2, s1) =>
        if r ≠ read_size1 then
          .error Fault.exit_failure
        else
          let cur_hash := sha256 (buffer_bytes block2 0
            (if full_block ≠ 0 then block_size else read_size1))
          if cur_hash ≠ buffer_bytes hash_table cur_hash_table_entry 0x20 then
            .ok (validity_t.VALIDITY_INVALID, s1)
          else
            hash_table_loop sha256 seek_read hash_table data_ofs data_len block_size full_block
              fuel s1 block2 (u64 (ofs + read_size1)) read_size1 (cur_hash_table_entry + 0x20)
    else
      .ok (validity_t.VALIDITY_VALID, s)

/-- The seek and read of `nca_section_check_external_hash_table`:
`nca_section_fseek(ctx, ofs)` then `nca_section_fread(ctx, block, n)`. -/
def section_seek_read (fuel : Nat) (ctx : nca_section_ctx_t) (ofs : Nat) (block : Nat → Nat)
    (n : Nat) : Except Fault (Nat × (Nat → Nat) × nca_section_ctx_t) :=
  match nca_section_fseek ctx ofs with
  | .error e => .error e
  | .ok ctx1 =>
    match nca_section_fread fuel ctx1 block 0 n with
    | .error e => .error e
    | .ok r => .ok (r.ret, r.buffer, r.ctx)

/-- The seek and read of `check_memory_hash_table`: `fseeko64(f_in, ofs, SEEK_SET)` then
`fread(block, 1, n, f_in)`. The reader is the content of `f_in`. -/
def file_seek_read (f_in : List Nat) (ofs : Nat) (block : Nat → Nat) (n : Nat) :
    Except Fault (Nat × (Nat → Nat) × List Nat) :=
  .ok ((fread f_in ofs n).length, memcpy block 0 (fread f_in ofs n), f_in)

/-- The function `nca_section_check_external_hash_table`. `fuel` bounds the rounds of the
loop, `rfuel` the depth of each read, and `block` is the content of the block `malloc`
returns. -/
def nca_section_check_external_hash_table (sha256 : List Nat → List Nat) (fuel rfuel : Nat)
    (block : Nat → Nat) (ctx : nca_section_ctx_t) (hash_table : Nat → Nat)
    (data_ofs data_len block_size full_block : Nat) :
    Except Fault (validity_t × nca_section_ctx_t) :=
  if block_size = 0 then
    /- Block size of 0 is always invalid. -/
    .ok (validity_t.VALIDITY_INVALID, ctx)
  else
    hash_table_loop sha256 (section_seek_read rfuel) hash_table data_ofs data_len block_size
      full_block fuel ctx block 0 block_size 0

/-- The function `check_memory_hash_table`. -/
def check_memory_hash_table (sha256 : List Nat → List Nat) (fuel : Nat) (block : Nat → Nat)
    (f_in : List Nat) (hash_table : Nat → Nat)
    (data_ofs data_len block_size full_block : Nat) : Except Fault (validity_t × List Nat) :=
  if block_size = 0 then
    /- Block size of 0 is always invalid. -/
    .ok (validity_t.VALIDITY_INVALID, f_in)
  else
    hash_table_loop sha256 file_seek_read hash_table data_ofs data_len block_size
      full_block fuel f_in block 0 block_size 0

/-! ## A seek followed by a read -/

/-- The call `nca_section_fseek(ctx, offset)` followed by
`nca_section_fread(ctx, buffer, count)`. -/
def seek_then_read (fuel : Nat) (ctx : nca_section_ctx_t) (offset : Nat) (buffer : Nat → Nat)
    (count : Nat) : Except Fault read_result :=
  match nca_section_fseek ctx offset with
  | .error e => .error e
  | .ok ctx1 => nca_section_fread fuel ctx1 buffer 0 count

/-- The return value of a call, when it returns. -/
def ret_of (r : Except Fault read_result) : Option Nat :=
  match r with
  | .error _ => none
  | .ok x => some x.ret

/-- The first `n` bytes of the buffer after a call, when it returns. -/
def bytes_of (r : Except Fault read_result) (n : Nat) : Option (List Nat) :=
  match r with
  | .error _ => none
  | .ok x => some (buffer_bytes x.buffer 0 n)

/-- The `n` bytes of the buffer from index `start` after a call, when it returns. -/
def bytes_at (r : Except Fault read_result) (start n : Nat) : Option (List Nat) :=
  match r with
  | .error _ => none
  | .ok x => some (buffer_bytes x.buffer start n)

/-- The context after a call, when it returns. -/
def ctx_of (r : Except Fault read_result) : Option nca_section_ctx_t :=
  match r with
  | .error _ => none
  | .ok x => some x.ctx

/-- The fault of a call that does not return. -/
def fault_of (r : Except Fault read_result) : Option Fault :=
  match r with
  | .error e => some e
  | .ok _ => none

/-! ## Example data -/

/-- A stand-in cipher for the examples: the block function and the sector function are
simple byte maps (the theorems hold for every cipher). -/
def example_aes : aes_ctx_t :=
  { block := fun iv => iv.map (fun b => (b * 7 + 3) % 256)
    xts := fun k s => s.map (fun b => (b + k + 1) % 256) }

/-- A file of `n` bytes whose content varies with the position. -/
def example_file (n : Nat) : List Nat := (List.range n).map (fun i => (i * 13 + i / 256) % 256)

/-- An fs-header of a RomFS section with the given crypt type and counter high word
`0xDEADBEEF`. -/
def example_header (crypt_type : Nat) : nca_fs_header_t :=
  { partition_type := PARTITION_ROMFS, fs_type := FS_TYPE_ROMFS, crypt_type := crypt_type,
    section_ctr := [0, 0, 0, 0, 0xEF, 0xBE, 0xAD, 0xDE] }

/-- The CTR section of the spec's scenario 2: offset `0x1000` (media unit 8), counter high
`0xDEADBEEF`, in a file of `0x1200` bytes. -/
def example_ctr_ctx : nca_section_ctx_t :=
  nca_process_section false (example_file 0x1200) 0 ⟨8, 9⟩ (example_header CRYPT_CTR)
    example_aes base_file_t.absent (fun _ => 0xAA)

/-- The XTS section of the spec's scenario 3: offset `0x400` (media unit 2), size `0x800`,
in a file of `0xC00` bytes. -/
def example_xts_ctx : nca_section_ctx_t :=
  nca_process_section false (example_file 0xC00) 0 ⟨2, 6⟩ (example_header CRYPT_XTS)
    example_aes base_file_t.absent (fun _ => 0xAA)

/-- The plaintext of an XTS section: its bytes decrypted sector by sector, sector `k` of
the section under sector index `k`. -/
def xts_plaintext (ctx : nca_section_ctx_t) : List Nat :=
  aes_xts_decrypt ctx.aes (fread ctx.file ctx.offset ctx.size) 0 0x200

/-- The relocation table of the spec's scenario 4, `[(0,0,patch), (0x1000,0x2000,base)]`,
followed by the sentinel at `patch_romfs_size = 0x3000`. -/
def example_relocation_block : bktr_relocation_block_t :=
  { patch_romfs_size := 0x3000, num_entries := 2,
    entries := [⟨0, 0, 1⟩, ⟨0x1000, 0x2000, 0⟩, ⟨0x3000, 0, 0⟩] }

/-- A subsection table with three subsections starting at `0`, `0x100` and `0x200`,
followed by the sentinel at the relocation header's offset `0x2000`. -/
def example_subsection_block : bktr_subsection_block_t :=
  { num_entries := 3, entries := [⟨0, 1⟩, ⟨0x100, 2⟩, ⟨0x200, 3⟩, ⟨0x2000, 0⟩] }

/-- An encrypted BKTR section at offset `0x1000` (media unit 8) of a file of `0x3400` bytes,
with both tables loaded, as `nca_process_bktr_section` leaves it (`sector_ofs = 0`), for a
given base and value of `physical_reads`. -/
def example_bktr_ctx (base_file : base_file_t) (physical_reads : Nat) : nca_section_ctx_t :=
  { nca_process_section false (example_file 0x3400) 1 ⟨8, 26⟩ (example_header CRYPT_BKTR)
      example_aes base_file (fun _ => 0xAA) with
    physical_reads := physical_reads
    bktr_ctx := { relocation_block := some example_relocation_block
                  subsection_block := some example_subsection_block
                  virtual_seek := 0, bktr_seek := 0, base_seek := 0 } }

/-- A base RomFS file of `0x3000` bytes. -/
def example_base : List Nat := (List.range 0x3000).map (fun i => (i * 7 + 1) % 256)

/-- The 16-byte block of the patch that contains patch offset `p`, decrypted under the
counter of the subsection with counter value `ctr_val`. -/
def bktr_plain_block (ctx : nca_section_ctx_t) (ctr_val p : Nat) : List Nat :=
  aes_ctr_crypt ctx.aes (nca_update_bktr_ctr ctx.ctr ctr_val (p + ctx.offset))
    (fread ctx.file ((ctx.offset + p) / 16 * 16) 16)

/-- The plaintext of a CTR section: the bytes of the section decrypted in one pass of
AES-CTR under the IV of the section start, which is the section counter (the first 8 bytes
of `ctr`) followed by the 8-byte big-endian value of `offset >> 4`. -/
def ctr_plaintext (ctx : nca_section_ctx_t) : List Nat :=
  aes_ctr_crypt ctx.aes (ctx.ctr.take 8 ++ be_bytes 8 (ctx.offset >>> 4))
    (fread ctx.file ctx.offset ctx.size)

/-- The byte of the AES-CTR keystream of a section at the absolute file position `pos`:
byte `pos mod 16` of the encryption of the counter block made of the section counter `hi`
(8 bytes) followed by the 64-bit big-endian value `pos / 16`. -/
def keystream_byte (aes : aes_ctx_t) (hi : List Nat) (pos : Nat) : Nat :=
  (aes.block (be_bytes 16 ((be_val hi * 2 ^ 64 + pos / 16) % 2 ^ 128))).getD (pos % 16) 0

/-- The state of an encrypted CTR section positioned on the 16-byte block at file offset `A`
with `sector_ofs = so`: what `nca_section_fseek` establishes. `hi` is the section counter. -/
structure ctr_state (ctx : nca_section_ctx_t) (hi : List Nat) (A so : Nat) : Prop where
  dec : ctx.is_decrypted = false
  crypt : ctx.header.crypt_type = CRYPT_CTR
  type_ne : ctx.type ≠ nca_section_type.BKTR
  pos : ctx.file_pos = A
  cur : ctx.cur_seek = A
  ctr : ctx.ctr = hi ++ be_bytes 8 (A >>> 4)
  hi_len : hi.length = 8
  sofs : ctx.sector_ofs = so
  aligned : A % 16 = 0
  off_aligned : ctx.offset % 16 = 0
  off_le : ctx.offset ≤ A
  small : ctx.file.length < 2 ^ 64

/-- The bytes hashed for block `i` of a data range: bytes `[i * block_size,
(i+1) * block_size)` of the range, cut at its end; a short last block is padded with zeros
to `block_size` bytes when `full_block` is set. -/
def hash_block_input (data : List Nat) (block_size full_block i : Nat) : List Nat :=
  let d := (data.drop (i * block_size)).take block_size
  if full_block ≠ 0 then d ++ List.replicate (block_size - d.length) 0 else d

/-- The hash table holds the digest of every block of the data range: slot `i` (32 bytes)
is the SHA-256 of block `i`, for every `i` below the number of blocks
`ceil(data_len / block_size)`. -/
def hash_table_matches (sha256 : List Nat → List Nat) (hash_table : Nat → Nat)
    (data : List Nat) (block_size full_block : Nat) : Prop :=
  ∀ i, i < (data.length + block_size - 1) / block_size →
    buffer_bytes hash_table (0x20 * i) 0x20 = sha256 (hash_block_input data block_size full_block i)

/-- A section of a decrypted NCA (plaintext header), at offset `0x1000` of a file of `0x1200`
bytes: its reads are plain file reads. -/
def example_plain_ctx : nca_section_ctx_t :=
  nca_process_section true (example_file 0x1200) 0 ⟨8, 9⟩ (example_header CRYPT_CTR)
    example_aes base_file_t.absent (fun _ => 0xAA)

/-- A stand-in digest for the examples: 32 bytes that depend on the sum and the number of the
bytes hashed (the theorems hold for every digest function). -/
def example_sha (l : List Nat) : List Nat :=
  (List.range 0x20).map (fun k => (l.foldl (fun a b => a + b) 0 + k * l.length) % 256)

/-- The hash table of the example: slot `i` is the stand-in digest of block `i` of the file
range `[0x1010, 0x1060)` with block size 0x20, the short last block zero-padded. -/
def example_hash_table : Nat → Nat :=
  fun k => (example_sha (hash_block_input (fread (example_file 0x1200) 0x1010 0x50) 0x20 1
    (k / 0x20))).getD (k % 0x20) 0

/-- The state of a reader whose reads are plain reads of the file `file` at section offset
`offset`: a decrypted section that is not a BKTR section. -/
def plain_state (file : List Nat) (offset : Nat) (ctx : nca_section_ctx_t) : Prop :=
  ctx.is_decrypted = true ∧ ctx.type ≠ nca_section_type.BKTR ∧ ctx.file = file
    ∧ ctx.offset = offset

/-- The state of an encrypted BKTR section with both tables loaded that is read virtually:
the base is a raw RomFS file and `physical_reads` is off. -/
structure bktr_virtual_state (ctx : nca_section_ctx_t) (rb : bktr_relocation_block_t)
    (sb : bktr_subsection_block_t) (base : List Nat) : Prop where
  dec : ctx.is_decrypted = false
  crypt : ctx.header.crypt_type = CRYPT_BKTR
  type_eq : ctx.type = nca_section_type.BKTR
  reloc : ctx.bktr_ctx.relocation_block = some rb
  sub : ctx.bktr_ctx.subsection_block = some sb
  base_eq : ctx.base_file = base_file_t.romfs base
  phys : ctx.physical_reads = 0

/-- The fields of a context that decide the path of a patch read at patch offset 0x80 in
the example section. -/
structure stuck_ctx (ctx : nca_section_ctx_t) : Prop where
  dec : ctx.is_decrypted = false
  crypt : ctx.header.crypt_type = CRYPT_BKTR
  sub : ctx.bktr_ctx.subsection_block = some example_subsection_block
  base : ctx.base_file = base_file_t.absent
  seek : ctx.bktr_ctx.bktr_seek = 0x80

/-! ## Hash-table checks that read the table (`nca.c`, lines 734-759; `utils.c`, lines 134-159) -/

/-- The size `hash_table_size` both table-reading checks compute: `data_len / block_size`,
one more when `data_len % block_size` is not zero, times 0x20 (64-bit arithmetic). -/
def hash_table_size (data_len block_size : Nat) : Nat :=
  u64 ((if data_len % block_size ≠ 0 then u64 (data_len / block_size + 1)
    else data_len / block_size) * 0x20)

/-- The function `nca_section_check_hash_table`. `table` is the content of the table
`malloc` returns, `block` that of the block the delegate allocates. -/
def nca_section_check_hash_table (sha256 : List Nat → List Nat) (fuel rfuel : Nat)
    (block table : Nat → Nat) (ctx : nca_section_ctx_t)
    (hash_ofs data_ofs data_len block_size full_block : Nat) :
    Except Fault (validity_t × nca_section_ctx_t) :=
  if block_size = 0 then
    /- Block size of 0 is always invalid. -/
    .ok (validity_t.VALIDITY_INVALID, ctx)
  else
    match section_seek_read rfuel ctx hash_ofs table (hash_table_size data_len block_size) with
    | .error e => .error e
    | .ok (r, hash_table, ctx1) =>
      if r ≠ hash_table_size data_len block_size then
        .error Fault.exit_failure
      else
        nca_section_check_external_hash_table sha256 fuel rfuel block ctx1 hash_table
          data_ofs data_len block_size full_block

/-- The function `check_file_hash_table`. -/
def check_file_hash_table (sha256 : List Nat → List Nat) (fuel : Nat)
    (block table : Nat → Nat) (f_in : List Nat)
    (hash_ofs data_ofs data_len block_size full_block : Nat) :
    Except Fault (validity_t × List Nat) :=
  if block_size = 0 then
    /- Block size of 0 is always invalid. -/
    .ok (validity_t.VALIDITY_INVALID, f_in)
  else
    match file_seek_read f_in hash_ofs table (hash_table_size data_len block_size) with
    | .error e => .error e
    | .ok (r, hash_table, f1) =>
      if r ≠ hash_table_size data_len block_size then
        .error Fault.exit_failure
      else
        check_memory_hash_table sha256 fuel block f1 hash_table
          data_ofs data_len block_size full_block

/-! ## The IVFC level pass (`nca.c`, lines 845-867 and 946-966) -/

/-- The type `ivfc_level_ctx_t`: the fields the level pass writes. -/
structure ivfc_level_ctx_t where
  data_offset : Nat
  data_size : Nat
  hash_offset : Nat
  hash_block_size : Nat
  hash_validity : validity_t

/-- Modelled from the spec: the constant `IVFC_MAX_LEVEL` (`ivfc.h` is not part of the
sources at hand; "up to six levels"). -/
abbrev IVFC_MAX_LEVEL : Nat := 6

/-- The outcome `v` of a check that was run and that holds exactly when `P` does. -/
def is_check_of (v : validity_t) (P : Prop) : Prop :=
  (v = validity_t.VALIDITY_VALID ∨ v = validity_t.VALIDITY_INVALID)
    ∧ (v = validity_t.VALIDITY_VALID ↔ P)

/-- The section reader delivers the bytes of the section image `img` from every state that
satisfies `Inv`: a seek to `ofs` and a read of `n` bytes inside the image returns `n`, puts
the `n` bytes of the image at `ofs` in the buffer, and leaves a state that satisfies `Inv`
again. -/
def reads_image (rfuel : Nat) (Inv : nca_section_ctx_t → Prop) (img : List Nat) : Prop :=
  ∀ (c : nca_section_ctx_t) (blk : Nat → Nat) (ofs n : Nat), Inv c → ofs + n ≤ img.length →
    ∃ c1, Inv c1 ∧ section_seek_read rfuel c ofs blk n
      = .ok (n, memcpy blk 0 (fread img ofs n), c1)

/-- Modelled from the spec: the modes of `aes.h`, which is not part of the sources. -/
inductive aes_mode_t
  | AES_MODE_ECB
  | AES_MODE_CTR
  | AES_MODE_XTS
  deriving DecidableEq, Repr

/-- Modelled from the spec: what a context made by `new_aes_ctx` is fixed by, its key bytes
and its mode. -/
structure aes_key_ctx_t where
  key : List Nat
  mode : aes_mode_t
  deriving DecidableEq, Repr

/-- Modelled from the spec: `new_aes_ctx(key, len, mode)` takes the `len` bytes at `key`. -/
def new_aes_ctx (key : List Nat) (len : Nat) (mode : aes_mode_t) : aes_key_ctx_t :=
  { key := key.take len, mode := mode }

/-- Modelled from the spec: the AES primitive, a parameter of the development.
`encrypt_block key b` and `decrypt_block key b` are the encryption and the decryption of
one 16-byte block, `xts_sector key k s` is the XTS decryption of the sector `s` under the
sector index `k`, and `iv` is the IV of a context on which `aes_setiv` was not called. -/
structure aes_primitive_t where
  encrypt_block : List Nat → List Nat → List Nat
  decrypt_block : List Nat → List Nat → List Nat
  xts_sector : List Nat → Nat → List Nat → List Nat
  iv : List Nat

/-- The key-dependent part of the context `k` (see `aes_ctx_t`). -/
def aes_ctx_of (prim : aes_primitive_t) (k : aes_key_ctx_t) : aes_ctx_t :=
  { block := prim.encrypt_block k.key, xts := prim.xts_sector k.key }

/-- The first `n` 16-byte blocks of `src`, each mapped by `f`. -/
def ecb_blocks (f : List Nat → List Nat) : Nat → List Nat → List Nat
  | 0, _ => []
  | n + 1, src => f (src.take 0x10) ++ ecb_blocks f n (src.drop 0x10)

/-- Modelled from the spec: `aes_decrypt(ctx, dst, src, l)` gives the `l` bytes written to
`dst`. An ECB context decrypts block by block; a CTR context combines the data with the
keystream that starts at the IV of the context. The code modelled makes no such call on an
XTS context, for which the bytes are returned as they are. -/
def aes_decrypt (prim : aes_primitive_t) (k : aes_key_ctx_t) (src : List Nat) (l : Nat) :
    List Nat :=
  match k.mode with
  | aes_mode_t.AES_MODE_ECB => ecb_blocks (prim.decrypt_block k.key) (l / 0x10) src
  | aes_mode_t.AES_MODE_CTR => aes_ctr_crypt (aes_ctx_of prim k) prim.iv (src.take l)
  | aes_mode_t.AES_MODE_XTS => src.take l

/-- AES-ECB encryption of the `l` bytes of `src` under the 16-byte key `key`: the
counterpart of an ECB `aes_decrypt`, used to state round trips. -/
def aes_ecb_encrypt (prim : aes_primitive_t) (key : List Nat) (src : List Nat) (l : Nat) :
    List Nat :=
  ecb_blocks (prim.encrypt_block key) (l / 0x10) src

/-- AES-ECB decryption of the `l` bytes of `src` under the 16-byte key `key`. -/
def aes_ecb_decrypt (prim : aes_primitive_t) (key : List Nat) (src : List Nat) (l : Nat) :
    List Nat :=
  ecb_blocks (prim.decrypt_block key) (l / 0x10) src

/-! ## The NCA context (`nca.c`, lines 365-526) -/

/-- The keys of the keyset that `nca_process` uses; `key_area_keys g i` is
`key_area_keys[g][i]` and `titlekeks g` is `titlekeks[g]`. -/
structure nca_keyset_t where
  header_key : List Nat
  key_area_keys : Nat → Nat → List Nat
  titlekeks : Nat → List Nat
  nca_hdr_fixed_key_modulus : List Nat

/-- The settings of the tool context that `nca_process` uses. -/
structure hactool_settings_t where
  keyset : nca_keyset_t
  has_titlekey : Bool
  titlekey : List Nat
  dec_titlekey : List Nat
  has_contentkey : Bool
  contentkey : List Nat

/-- The tool context: the settings and the base file. -/
structure hactool_ctx_t where
  settings : hactool_settings_t
  base_file : base_file_t

/-- The fields of the 0xC00-byte header that `nca_process` reads through the struct
`nca_header_t`, other than the magic and the padding at 0x340. The struct is declared in
`nca.h`, which is not part of the sources: the map from the header bytes to these fields
is the parameter `layout` of the functions below. -/
structure nca_header_t where
  fixed_key_sig : List Nat
  crypto_type : Nat
  kaek_ind : Nat
  crypto_type2 : Nat
  rights_id : List Nat
  section_entries : Nat → nca_section_entry_t
  fs_headers : Nat → nca_fs_header_t
  encrypted_keys : List Nat

/-- The type `nca_ctx_t`: the fields `nca_process` reads and writes. `header` holds the
0xC00 bytes of the header, `decrypted_keys` the 0x40 bytes of the four key slots,
`section_contexts i` is `none` for a section that is not marked present, and
`section_aes i` is the context `section_contexts[i].aes` points to (`none` for NULL). -/
structure nca_ctx_t where
  file : List Nat
  is_decrypted : Bool
  header : List Nat
  fixed_sig_validity : validity_t
  npdm_sig_validity : validity_t
  crypto_type : Nat
  has_rights_id : Bool
  decrypted_keys : List Nat
  section_contexts : Nat → Option nca_section_ctx_t
  section_aes : Nat → Option aes_key_ctx_t
  tool_ctx : hactool_ctx_t

/-- Modelled from the spec: the constant `MAGIC_NCA3`, as the four bytes "NCA3" of the
little-endian word. -/
abbrev MAGIC_NCA3 : List Nat := [0x4E, 0x43, 0x41, 0x33]

/-- Modelled from the spec: the field `magic` of the header, the four bytes at 0x200. -/
def header_magic (header : List Nat) : List Nat := (header.drop 0x200).take 4

/-- Modelled from the spec: the field `_0x340` of the header, the 0xC0 bytes at 0x340. -/
def header_0x340 (header : List Nat) : List Nat := (header.drop 0x340).take 0xC0

/-- The test of lines 506-507: the magic is `MAGIC_NCA3`, `_0x340[0] == 0`, and
`memcmp(_0x340, _0x340 + 1, 0xBF)` finds the two runs of 0xBF bytes equal. -/
def is_plaintext_header (header : List Nat) : Bool :=
  decide (header_magic header = MAGIC_NCA3)
    && (decide ((header_0x340 header).getD 0 0 = 0)
      && decide ((header_0x340 header).take 0xBF = ((header_0x340 header).drop 1).take 0xBF))

/-- The function `nca_decrypt_header`: the return value and the context. -/
def nca_decrypt_header (prim : aes_primitive_t) (ctx : nca_ctx_t) : Nat × nca_ctx_t :=
  let data := fread ctx.file 0 0xC00
  let ctx1 := { ctx with header := (data ++ ctx.header.drop data.length).take 0xC00 }
  if data.length ≠ 0xC00 then
    (0, ctx1)
  else if is_plaintext_header ctx1.header then
    /- Try to support decrypted NCA headers. -/
    (1, { ctx1 with is_decrypted := true })
  else
    let header1 := aes_xts_decrypt
      (aes_ctx_of prim
        (new_aes_ctx ctx.tool_ctx.settings.keyset.header_key 32 aes_mode_t.AES_MODE_XTS))
      ctx1.header 0 0x200
    (if header_magic header1 = MAGIC_NCA3 then 1 else 0,
      { ctx1 with is_decrypted := false, header := header1 })

/-- The function `nca_decrypt_key_area`. -/
def nca_decrypt_key_area (prim : aes_primitive_t) (layout : List Nat → nca_header_t)
    (ctx : nca_ctx_t) : nca_ctx_t :=
  { ctx with
    decrypted_keys := aes_decrypt prim
      (new_aes_ctx
        (ctx.tool_ctx.settings.keyset.key_area_keys ctx.crypto_type (layout ctx.header).kaek_ind)
        16 aes_mode_t.AES_MODE_ECB)
      (layout ctx.header).encrypted_keys 0x40 }

/-- The crypto type `nca_process` keeps (lines 379-384), in 8-bit arithmetic: the larger of
the two header bytes, decremented when it is not zero. -/
def nca_process_crypto_type (crypto_type crypto_type2 : Nat) : Nat :=
  let c := if crypto_type2 > crypto_type then crypto_type2 else crypto_type
  if c ≠ 0 then (c + 0xFF) % 0x100 else c

/-- The loop over the rights id (lines 387-392): the flag is set when one of the 0x10 bytes
is not zero, and is left as it was otherwise. -/
def nca_process_rights_id (rights_id : List Nat) (has_rights_id : Bool) : Bool :=
  if (rights_id.take 0x10).any (fun b => b ≠ 0) then true else has_rights_id

/-- The key step of `nca_process` (lines 394-404): the key area is decrypted when there is
no rights id; otherwise the title key, when one is supplied, is decrypted into
`dec_titlekey`. -/
def nca_process_keys (prim : aes_primitive_t) (layout : List Nat → nca_header_t)
    (ctx : nca_ctx_t) : nca_ctx_t :=
  if !ctx.has_rights_id then
    /- Decrypt key area if required. -/
    nca_decrypt_key_area prim layout ctx
  else if ctx.tool_ctx.settings.has_titlekey then
    /- Decrypt title key. -/
    let dec := aes_decrypt prim
      (new_aes_ctx (ctx.tool_ctx.settings.keyset.titlekeks ctx.crypto_type) 16
        aes_mode_t.AES_MODE_CTR)
      ctx.tool_ctx.settings.titlekey 0x10
    { ctx with
      tool_ctx := { ctx.tool_ctx with
        settings := { ctx.tool_ctx.settings with dec_titlekey := dec } } }
  else
    ctx

/-- The cipher context `nca_process` creates for a section with the given crypt type
(lines 444-456); `none` when no branch creates one. `decrypted_keys[2]` is the 16 bytes of
the key area at 0x20, and the 32 bytes at `decrypted_keys[0]` are its slots 0 and 1. -/
def nca_process_section_aes (ctx : nca_ctx_t) (crypt_type : Nat) : Option aes_key_ctx_t :=
  if ctx.tool_ctx.settings.has_contentkey then
    some (new_aes_ctx ctx.tool_ctx.settings.contentkey 16 aes_mode_t.AES_MODE_CTR)
  else if ctx.has_rights_id then
    some (new_aes_ctx ctx.tool_ctx.settings.dec_titlekey 16 aes_mode_t.AES_MODE_CTR)
  else if crypt_type = CRYPT_CTR ∨ crypt_type = CRYPT_BKTR then
    some (new_aes_ctx (ctx.decrypted_keys.drop 0x20) 16 aes_mode_t.AES_MODE_CTR)
  else if crypt_type = CRYPT_XTS then
    some (new_aes_ctx ctx.decrypted_keys 32 aes_mode_t.AES_MODE_XTS)
  else
    none

/-- The key-dependent part of a section's context pointer; a NULL pointer has none. -/
def section_aes_ctx (prim : aes_primitive_t) (aes : Option aes_key_ctx_t) : aes_ctx_t :=
  match aes with
  | some k => aes_ctx_of prim k
  | none => { block := fun _ => [], xts := fun _ _ => [] }

/-- The set-up of section `i` in the loop of `nca_process` (lines 408-456): a section whose
media start is not zero is marked present and gets its fields and its cipher context; a
section for which no context is created keeps the pointer it had. -/
def nca_process_section_step (prim : aes_primitive_t) (layout : List Nat → nca_header_t)
    (stack : Nat → Nat) (ctx : nca_ctx_t) (i : Nat) : nca_ctx_t :=
  if ((layout ctx.header).section_entries i).media_start_offset ≠ 0 then
    /- Section exists. -/
    let aes : Option aes_key_ctx_t :=
      match nca_process_section_aes ctx ((layout ctx.header).fs_headers i).crypt_type with
      | some k => some k
      | none => ctx.section_aes i
    { ctx with
      section_contexts := Function.update ctx.section_contexts i
        (some (nca_process_section ctx.is_decrypted ctx.file i
          ((layout ctx.header).section_entries i) ((layout ctx.header).fs_headers i)
          (section_aes_ctx prim aes) ctx.tool_ctx.base_file stack))
      section_aes := Function.update ctx.section_aes i aes }
  else
    ctx

/-- The set-up of the four sections. -/
def nca_process_sections (prim : aes_primitive_t) (layout : List Nat → nca_header_t)
    (stack : Nat → Nat) (ctx : nca_ctx_t) : nca_ctx_t :=
  (List.range 4).foldl (fun c i => nca_process_section_step prim layout stack c i) ctx

/-- The steps of `nca_process` between the header decryption and the loop over the sections
(lines 372-404). `rsa data sig modulus` is `rsa2048_pss_verify`, run on the 0x200 bytes of
the header from the magic. -/
def nca_process_header (prim : aes_primitive_t) (layout : List Nat → nca_header_t)
    (rsa : List Nat → List Nat → List Nat → Bool) (ctx : nca_ctx_t) : nca_ctx_t :=
  let ctx1 := { ctx with
    fixed_sig_validity :=
      if rsa (fread ctx.header 0x200 0x200) (layout ctx.header).fixed_key_sig
          ctx.tool_ctx.settings.keyset.nca_hdr_fixed_key_modulus then
        validity_t.VALIDITY_VALID
      else
        validity_t.VALIDITY_INVALID }
  /- Sort out crypto type. -/
  let ctx2 := { ctx1 with
    crypto_type := nca_process_crypto_type (layout ctx.header).crypto_type
      (layout ctx.header).crypto_type2 }
  /- Rights ID. -/
  let ctx3 := { ctx2 with
    has_rights_id := nca_process_rights_id (layout ctx.header).rights_id ctx2.has_rights_id }
  nca_process_keys prim layout ctx3

/-- What a run of `nca_process` leaves: the context, the bytes printed to stdout and the
files saved (path and content). -/
structure nca_run_t where
  ctx : nca_ctx_t
  stdout : List Nat
  saved : List (List Nat × List Nat)

/-- The function `nca_process`. When `nca_decrypt_header` fails the function returns at
once (its message goes to stderr). The part that works on the sections once they are set
up, and prints and saves (lines 458-494), is the parameter `rest`; in the source the
processing of a section precedes the set-up of the next one, which reads fields the
processing does not write. -/
def nca_process (prim : aes_primitive_t) (layout : List Nat → nca_header_t)
    (rsa : List Nat → List Nat → List Nat → Bool) (stack : Nat → Nat)
    (rest : nca_ctx_t → Except Fault nca_run_t) (ctx : nca_ctx_t) : Except Fault nca_run_t :=
  /- First things first, decrypt header. -/
  if (nca_decrypt_header prim ctx).1 = 0 then
    .ok { ctx := (nca_decrypt_header prim ctx).2, stdout := [], saved := [] }
  else
    rest (nca_process_sections prim layout stack
      (nca_process_header prim layout rsa (nca_decrypt_header prim ctx).2))

/-- The function `nca_init` followed by the assignments of `main`: a zeroed context with
its file and its tool context. -/
def nca_init (file : List Nat) (tool_ctx : hactool_ctx_t) : nca_ctx_t :=
  { file := file
    is_decrypted := false
    header := List.replicate 0xC00 0
    fixed_sig_validity := validity_t.VALIDITY_UNCHECKED
    npdm_sig_validity := validity_t.VALIDITY_UNCHECKED
    crypto_type := 0
    has_rights_id := false
    decrypted_keys := List.replicate 0x40 0
    section_contexts := fun _ => none
    section_aes := fun _ => none
    tool_ctx := tool_ctx }

/-! ## Example data for the NCA context -/

/-- A stand-in primitive for the examples: a block is reversed and combined with the first
key byte, a sector is combined with a byte made of the key and the sector index; a fresh
context has a zero IV. -/
def example_prim : aes_primitive_t :=
  { encrypt_block := fun k b => b.reverse.map (fun x => x ^^^ k.getD 0 0)
    decrypt_block := fun k b => (b.map (fun x => x ^^^ k.getD 0 0)).reverse
    xts_sector := fun k i s => s.map (fun x => x ^^^ ((k.getD 0 0 + i + 1) % 256))
    iv := List.replicate 16 0 }

/-- An example layout: the fields at the offsets of the NCA3 header format. -/
def example_layout (h : List Nat) : nca_header_t :=
  { fixed_key_sig := h.take 0x100
    crypto_type := h.getD 0x206 0
    kaek_ind := h.getD 0x207 0
    crypto_type2 := h.getD 0x220 0
    rights_id := fread h 0x230 0x10
    section_entries := fun i => ⟨h.getD (0x240 + 0x10 * i) 0, h.getD (0x244 + 0x10 * i) 0⟩
    fs_headers := fun i =>
      { partition_type := h.getD (0x402 + 0x200 * i) 0
        fs_type := h.getD (0x403 + 0x200 * i) 0
        crypt_type := h.getD (0x404 + 0x200 * i) 0
        section_ctr := fread h (0x540 + 0x200 * i) 8 }
    encrypted_keys := fread h 0x300 0x40 }

/-- An example keyset: key `[g][i]` of the key area keys starts with the byte
`0x10 * g + i + 1`. -/
def example_keyset : nca_keyset_t :=
  { header_key := (List.range 32).map (fun j => j + 0x40)
    key_area_keys := fun g i => (List.range 16).map (fun j => (0x10 * g + i + 1 + j) % 256)
    titlekeks := fun g => (List.range 16).map (fun j => (0x21 * (g + 1) + j) % 256)
    nca_hdr_fixed_key_modulus := List.replicate 0x100 1 }

/-- An example tool context: no base, and a title key when `has_titlekey` is set. -/
def example_tool_ctx (has_titlekey has_contentkey : Bool) : hactool_ctx_t :=
  { settings :=
      { keyset := example_keyset
        has_titlekey := has_titlekey
        titlekey := (List.range 16).map (fun j => 3 * j + 1)
        dec_titlekey := List.replicate 16 0
        has_contentkey := has_contentkey
        contentkey := (List.range 16).map (fun j => 5 * j + 2) }
    base_file := base_file_t.absent }

/-- The four plaintext key slots of the example. -/
def example_key_slots : List Nat := (List.range 0x40).map (fun j => (j * 11 + 5) % 256)

/-- A plaintext NCA3 header for the examples: crypto types 2 and 3 (generation 2), key
index 1, first byte of the rights id `rights`, section 0 at media units 8 to 9 with a
RomFS fs-header of crypt type CTR, and a key area that is the ECB encryption of the example
slots under key `[2][1]`. -/
def example_nca_header (rights : Nat) : List Nat :=
  (List.range 0xC00).map (fun i =>
    if 0x200 ≤ i ∧ i < 0x204 then MAGIC_NCA3.getD (i - 0x200) 0
    else if i = 0x206 then 2
    else if i = 0x207 then 1
    else if i = 0x220 then 3
    else if i = 0x230 then rights
    else if i = 0x240 then 8
    else if i = 0x244 then 9
    else if 0x300 ≤ i ∧ i < 0x340 then
      (aes_ecb_encrypt example_prim (example_keyset.key_area_keys 2 1) example_key_slots
        0x40).getD (i - 0x300) 0
    else if i = 0x403 then FS_TYPE_ROMFS
    else if i = 0x404 then CRYPT_CTR
    else 0)

/-- An example NCA file of 0x1200 bytes with a plaintext header. -/
def example_nca_file (rights : Nat) : List Nat :=
  example_nca_header rights ++ fread (example_file 0x1200) 0xC00 0x600

/-- The context of the example file after `nca_decrypt_header` (the header is a plaintext
one). -/
def example_nca_ctx (rights : Nat) (has_titlekey has_contentkey : Bool) : nca_ctx_t :=
  (nca_decrypt_header example_prim
    (nca_init (example_nca_file rights) (example_tool_ctx has_titlekey has_contentkey))).2

/-- A stand-in signature check for the examples. -/
def example_rsa (_data sig _modulus : List Nat) : Bool := sig.getD 0 0 == 0

/-- The example context after the header steps of `nca_process`, before the loop over the
sections: no rights id, and a content key when `has_contentkey` is set. -/
def example_processed_ctx (has_contentkey : Bool) : nca_ctx_t :=
  nca_process_header example_prim example_layout example_rsa
    (example_nca_ctx 0 false has_contentkey)

/-! ## Two reads in a row -/

/-- The call `nca_section_fseek(ctx, offset)` followed by `nca_section_fread(ctx, buffer, a)`
and `nca_section_fread(ctx, buffer + a, b)`: the result of the second read, whose buffer
holds the bytes of both. -/
def seek_read_read (fuel : Nat) (ctx : nca_section_ctx_t) (offset : Nat) (buffer : Nat → Nat)
    (a b : Nat) : Except Fault read_result :=
  match seek_then_read fuel ctx offset buffer a with
  | .error e => .error e
  | .ok r1 => nca_section_fread fuel r1.ctx r1.buffer a b

/-- The value of `sector_ofs` after a call, when it returns. -/
def sector_ofs_of (r : Except Fault read_result) : Option Nat :=
  match r with
  | .error _ => none
  | .ok x => some x.ctx.sector_ofs

/-! ## Key options (`main.c`, lines 73-109 and 237-244)

A C string is the list of the codes of its characters before the terminating NUL. -/

/-- The function `ishex`: the ranges are `a`-`f`, `A`-`F` and `0`-`9`. -/
def ishex (c : Nat) : Bool :=
  if 0x61 ≤ c ∧ c ≤ 0x66 then true
  else if 0x41 ≤ c ∧ c ≤ 0x46 then true
  else if 0x30 ≤ c ∧ c ≤ 0x39 then true
  else false

/-- The function `hextoi`. -/
def hextoi (c : Nat) : Nat :=
  if 0x61 ≤ c ∧ c ≤ 0x66 then c - 0x61 + 0xA
  else if 0x41 ≤ c ∧ c ≤ 0x46 then c - 0x41 + 0xA
  else if 0x30 ≤ c ∧ c ≤ 0x39 then c - 0x30
  else 0

/-- The `int` a `char` holding the byte `b` is promoted to, as a 32-bit two's complement
word: a byte from 0x80 on is a negative `char` and is sign-extended. -/
def char_to_int (b : Nat) : Nat := if b < 0x80 then b else b + (2 ^ 32 - 0x100)

/-- The body of the second loop of `parse_hex_key` for the index `i`: `val` is the digit,
shifted left by 4 and stored back in a `char` when `i` is even, and `key[i >> 1] |= val`
is computed on the promoted operands and stored in an `unsigned char`. -/
def parse_hex_key_step (hex : List Nat) (key : List Nat) (i : Nat) : List Nat :=
  let val := hextoi (hex.getD i 0)
  let val1 := if i &&& 1 = 0 then (val <<< 4) % 0x100 else val
  key.set (i >>> 1) ((key.getD (i >>> 1) 0 ||| char_to_int val1) % 0x100)

/-- The function `parse_hex_key`: the key written, or the exit of `usage()`, which prints
the usage text and calls `exit(EXIT_FAILURE)`. `memset(key, 0, 16)` clears the 16 bytes
of the key. -/
def parse_hex_key (key hex : List Nat) : Except Fault (List Nat) :=
  if hex.length ≠ 32 then
    .error Fault.exit_failure
  else if (List.range 32).any (fun i => !ishex (hex.getD i 0)) then
    .error Fault.exit_failure
  else
    .ok ((List.range 32).foldl (parse_hex_key_step hex) (List.replicate 16 0 ++ key.drop 16))

/-- The case 12 of the option switch of `main`: `--titlekey`. -/
def main_case_titlekey (settings : hactool_settings_t) (optarg : List Nat) :
    Except Fault hactool_settings_t :=
  match parse_hex_key settings.titlekey optarg with
  | .error e => .error e
  | .ok key => .ok { settings with titlekey := key, has_titlekey := true }

/-- The case 13 of the option switch of `main`: `--contentkey`. -/
def main_case_contentkey (settings : hactool_settings_t) (optarg : List Nat) :
    Except Fault hactool_settings_t :=
  match parse_hex_key settings.contentkey optarg with
  | .error e => .error e
  | .ok key => .ok { settings with contentkey := key, has_contentkey := true }

/-- A hexadecimal digit, in the words of the specification: `0`-`9`, `a`-`f` or `A`-`F`. -/
def is_hex_digit (c : Nat) : Prop :=
  (0x30 ≤ c ∧ c ≤ 0x39) ∨ (0x61 ≤ c ∧ c ≤ 0x66) ∨ (0x41 ≤ c ∧ c ≤ 0x46)

instance is_hex_digit_decidable : DecidablePred is_hex_digit := fun c => by
  unfold is_hex_digit
  infer_instance

/-- The value of a hexadecimal digit, in the words of the specification: `0`-`9` are 0 to
9, and `a`-`f` and `A`-`F` are both 10 to 15. -/
def hex_value (c : Nat) : Nat :=
  if 0x30 ≤ c ∧ c ≤ 0x39 then c - 0x30
  else if 0x61 ≤ c ∧ c ≤ 0x66 then 10 + (c - 0x61)
  else if 0x41 ≤ c ∧ c ≤ 0x46 then 10 + (c - 0x41)
  else 0

/-- The upper-case spelling of a character of a key: `a`-`f` become `A`-`F`. -/
def hex_upper (c : Nat) : Nat := if 0x61 ≤ c ∧ c ≤ 0x66 then c - 0x20 else c

/-- The lower-case spelling of a character of a key: `A`-`F` become `a`-`f`. -/
def hex_lower (c : Nat) : Nat := if 0x41 ≤ c ∧ c ≤ 0x46 then c + 0x20 else c

/-- The 16 bytes a key of 32 digits stands for: byte `i` is 16 times the value of digit
`2i` plus the value of digit `2i + 1`. -/
def key_of_hex (hex : List Nat) : List Nat :=
  (List.range 16).map (fun i => 16 * hex_value (hex.getD (2 * i) 0)
    + hex_value (hex.getD (2 * i + 1) 0))

/-- The key `FEDCBA98765432100123456789abcdef` as a string. -/
def example_hex_key : List Nat :=
  [0x46, 0x45, 0x44, 0x43, 0x42, 0x41, 0x39, 0x38, 0x37, 0x36, 0x35, 0x34, 0x33, 0x32, 0x31,
   0x30, 0x30, 0x31, 0x32, 0x33, 0x34, 0x35, 0x36, 0x37, 0x38, 0x39, 0x61, 0x62, 0x63, 0x64,
   0x65, 0x66]

/-! ## The streaming copy (`utils.c`, lines 61-91; `nca.c`, lines 1078-1111) -/

/-- The loop `while (ofs < end_ofs)` shared by `save_file_section` and
`nca_save_section_file`, which differ in the reader: `transfer s n` reads `n` bytes into the
buffer and writes them to the output, a failed read or write ending the process. The
arguments after the fuel are the state, `ofs`, `read_size` and the sizes of the chunks
transferred so far; the result is the final state with the sizes of all chunks in order. -/
def save_loop {σ : Type} (transfer : σ → Nat → Except Fault σ) (end_ofs : Nat) :
    Nat → σ → Nat → Nat → List Nat → Except Fault (σ × List Nat)
  | 0, _, _, _, _ => .error Fault.fuel
  | fuel + 1, s, ofs, read_size, chunks =>
    if ofs < end_ofs then
      let read_size1 :=
        if u64 (ofs + read_size) ≥ end_ofs then sub64 end_ofs ofs else read_size
      match transfer s read_size1 with
      | .error e => .error e
      | .ok s1 =>
        save_loop transfer end_ofs fuel s1 (u64 (ofs + read_size1)) read_size1
          (chunks ++ [read_size1])
    else
      .ok (s, chunks)

/-- The state of `save_file_section`: the input file with its position, and the bytes
written to the output file. -/
structure file_copy_t where
  f_in : List Nat
  pos : Nat
  out : List Nat

/-- One round of `save_file_section`: `fread(buf, 1, read_size, f_in)`, which must give
`read_size` bytes, then `fwrite(buf, 1, read_size, f_out)`. -/
def file_transfer (s : file_copy_t) (read_size : Nat) : Except Fault file_copy_t :=
  if (fread s.f_in s.pos read_size).length ≠ read_size then
    .error Fault.exit_failure
  else
    .ok { s with pos := s.pos + read_size, out := s.out ++ fread s.f_in s.pos read_size }

/-- The function `save_file_section`, for an output file that could be opened: the state at
the end and the sizes of the chunks. -/
def save_file_section (fuel : Nat) (f_in : List Nat) (ofs total_size : Nat) :
    Except Fault (file_copy_t × List Nat) :=
  save_loop file_transfer (u64 (ofs + total_size)) fuel
    { f_in := f_in, pos := ofs, out := [] } ofs 0x400000 []

/-- The state of `nca_save_section_file`: the section reader, the 4 MB buffer, and the
bytes written to the output file. -/
structure section_copy_t where
  ctx : nca_section_ctx_t
  buf : Nat → Nat
  out : List Nat

/-- One round of `nca_save_section_file`: `nca_section_fread(ctx, buf, read_size)`, which
must return `read_size`, then `fwrite(buf, 1, read_size, f_out)`. -/
def section_transfer (rfuel : Nat) (s : section_copy_t) (read_size : Nat) :
    Except Fault section_copy_t :=
  match nca_section_fread rfuel s.ctx s.buf 0 read_size with
  | .error e => .error e
  | .ok r =>
    if r.ret ≠ read_size then
      .error Fault.exit_failure
    else
      .ok { ctx := r.ctx, buf := r.buffer, out := s.out ++ buffer_bytes r.buffer 0 read_size }

/-- The function `nca_save_section_file`, for an output file that could be opened: the
state at the end and the sizes of the chunks. The buffer starts filled with 0xCC. -/
def nca_save_section_file (fuel rfuel : Nat) (ctx : nca_section_ctx_t) (ofs total_size : Nat) :
    Except Fault (section_copy_t × List Nat) :=
  match nca_section_fseek ctx ofs with
  | .error e => .error e
  | .ok ctx1 =>
    save_loop (section_transfer rfuel) (u64 (ofs + total_size)) fuel
      { ctx := ctx1, buf := fun _ => 0xCC, out := [] } ofs 0x400000 []

/-- The sizes of the chunks of a copy of `total_size` bytes through a buffer of 0x400000
bytes: full chunks, then the rest when there is one. -/
def chunk_sizes (total_size : Nat) : List Nat :=
  List.replicate (total_size / 0x400000) 0x400000
    ++ (if total_size % 0x400000 = 0 then [] else [total_size % 0x400000])

/-- The bytes written by a copy, when it returns. -/
def written_of {σ : Type} (out : σ → List Nat) (r : Except Fault (σ × List Nat)) :
    Option (List Nat) :=
  match r with
  | .error _ => none
  | .ok x => some (out x.1)

/-- The chunk sizes of a copy, when it returns. -/
def chunks_of {σ : Type} (r : Except Fault (σ × List Nat)) : Option (List Nat) :=
  match r with
  | .error _ => none
  | .ok x => some x.2

/-- A plaintext section at offset 0x1000 of a file of 0x1000 + 0x500000 zero bytes. -/
def example_big_plain_ctx : nca_section_ctx_t :=
  nca_process_section true (List.replicate 0x501000 0) 0 ⟨8, 0x2808⟩ (example_header CRYPT_NONE)
    example_aes base_file_t.absent (fun _ => 0xAA)

/-! ## File paths and the calls that save (`filepath.c` is not part of the sources) -/

/-- The fields of `filepath_t` used here: the path as a string and its validity. -/
structure filepath_t where
  char_path : List Nat
  valid : validity_t

/-- Modelled from the spec: `filepath_append` and `filepath_append_n` extend a path by the
separator and a name (the separator of the platform, here `/`); the limit of `MAX_PATH`
characters on the result is not modelled. -/
def filepath_append (path name : List Nat) : List Nat := path ++ 0x2F :: name

/-- What a save function does to the file system and to its output, in order: a directory
made by `os_makedir`, a call `nca_save_section_file(ctx, ofs, total_size, path)` (with the
line "Saving ..." before it), a line `rom:path` of the listing, the line
"Error: section N is corrupted!" on stderr, or the line
"Note: cannot save BKTR section without base romfs." on stderr. -/
inductive save_event_t
  | makedir (path : List Nat)
  | save_file (path : List Nat) (ofs total_size : Nat)
  | list_file (path : List Nat)
  | corrupted (section_num : Nat)
  | note_no_base
  deriving DecidableEq, Repr

/-! ## PFS0 sections (`nca.c`, lines 761-784 and 1171-1191) -/

/-- Modelled from the spec: a file entry of a PFS0 header (`pfs0.h` is not part of the
sources), as `pfs0_get_file_entry` and `pfs0_get_file_name` give it: the data offset, the
size and the name from the string table. -/
structure pfs0_file_entry_t where
  offset : Nat
  size : Nat
  name : List Nat

/-- Modelled from the spec: a loaded PFS0 header by its fields: the magic, the number of
files, the entries by index, and the size `pfs0_get_header_size` gives. -/
structure pfs0_header_t where
  magic : List Nat
  num_files : Nat
  entries : Nat → pfs0_file_entry_t
  header_size : Nat

/-- The fields of the PFS0 superblock of an fs-header. -/
structure pfs0_superblock_t where
  master_hash : Nat → Nat
  block_size : Nat
  hash_table_offset : Nat
  hash_table_size : Nat
  pfs0_offset : Nat
  pfs0_size : Nat

/-- The type `pfs0_ctx_t`: `header` is `none` until the header is loaded, and `npdm` holds
the bytes of the loaded NPDM. -/
structure pfs0_ctx_t where
  superblock : pfs0_superblock_t
  header : Option pfs0_header_t
  is_exefs : Bool
  npdm : List Nat
  hash_table_validity : validity_t

/-- Modelled from the spec: the constant `MAGIC_PFS0`, the bytes "PFS0". -/
abbrev MAGIC_PFS0 : List Nat := [0x50, 0x46, 0x53, 0x30]

/-- The function `nca_save_pfs0_file` up to its last statement: the fatal errors, or the
call of `nca_save_section_file` it ends with. `size` is `ctx->size`, `header` the loaded
header, `max_path` the constant `MAX_PATH`; the lengths are compared as `size_t`. -/
def nca_save_pfs0_file (max_path size : Nat) (sb : pfs0_superblock_t) (header : pfs0_header_t)
    (i : Nat) (dirpath : filepath_t) : Except Fault save_event_t :=
  if i ≥ header.num_files then
    .error Fault.exit_failure
  else if (header.entries i).size ≥ size then
    .error Fault.exit_failure
  else if (header.entries i).name.length
      ≥ sub64 (sub64 max_path dirpath.char_path.length) 1 then
    .error Fault.exit_failure
  else
    .ok (save_event_t.save_file (filepath_append dirpath.char_path (header.entries i).name)
      (u64 (sb.pfs0_offset + header.header_size + (header.entries i).offset))
      (header.entries i).size)

/-- A PFS0 header for the examples: three files, `a` of 0x10 bytes at 0, `main.npdm` of
0x20 bytes at 0x10, and a file of 0x200 bytes with a name of 300 characters. -/
def example_pfs0_header : pfs0_header_t :=
  { magic := MAGIC_PFS0
    num_files := 3
    entries := fun i =>
      if i = 0 then ⟨0, 0x10, [0x61]⟩
      else if i = 1 then ⟨0x10, 0x20, [0x6D, 0x61, 0x69, 0x6E, 0x2E, 0x6E, 0x70, 0x64, 0x6D]⟩
      else ⟨0x30, 0x200, List.replicate 300 0x78⟩
    header_size := 0x60 }

/-- A PFS0 superblock for the examples: the PFS0 starts at 0x40 of the section. -/
def example_pfs0_superblock : pfs0_superblock_t :=
  { master_hash := fun _ => 0, block_size := 0x20, hash_table_offset := 0
    hash_table_size := 0x20, pfs0_offset := 0x40, pfs0_size := 0x1C0 }

/-- A valid directory path `out`. -/
def example_dirpath : filepath_t :=
  { char_path := [0x6F, 0x75, 0x74], valid := validity_t.VALIDITY_VALID }

/-! ## The save calls in order -/

/-- The events of a list, performed in order from the state `s` by `perform`; the first one
that fails ends the process. -/
def perform_all {σ : Type} (perform : σ → save_event_t → Except Fault σ) :
    σ → List save_event_t → Except Fault σ
  | s, [] => .ok s
  | s, ev :: evs =>
    match perform s ev with
    | .error e => .error e
    | .ok s1 => perform_all perform s1 evs

/-- The platform that records the events: nothing fails. -/
def trace_perform (s : List save_event_t) (ev : save_event_t) : Except Fault (List save_event_t) :=
  .ok (s ++ [ev])

/-! ## RomFS tables and their visit (`nca.c`, lines 1194-1267) -/

/-- Modelled from the spec: the constant `ROMFS_ENTRY_EMPTY` (`romfs.h` is not part of the
sources), the value 0xFFFFFFFF that denotes an absent link. -/
abbrev ROMFS_ENTRY_EMPTY : Nat := 0xFFFFFFFF

/-- Modelled from the spec: the fields of a directory entry the visit reads; `name` holds
the `name_size` characters of the name. -/
structure romfs_direntry_t where
  sibling : Nat
  child : Nat
  file : Nat
  name : List Nat

/-- Modelled from the spec: the fields of a file entry the visit reads; `name` holds the
`name_size` characters of the name. -/
structure romfs_fentry_t where
  sibling : Nat
  offset : Nat
  size : Nat
  name : List Nat

/-- The fields of the RomFS header the save functions read. -/
structure romfs_hdr_t where
  header_size : Nat
  data_offset : Nat

/-- The fields of `romfs_ctx_t` the save functions read (for a BKTR section: the fields of
the same names of `bktr_ctx`). The two tables are given by what `romfs_get_direntry` and
`romfs_get_fentry` return for an offset into the table. -/
structure romfs_ctx_t where
  header : romfs_hdr_t
  romfs_offset : Nat
  directories : Nat → romfs_direntry_t
  files : Nat → romfs_fentry_t
  ivfc_levels : Nat → ivfc_level_ctx_t

/-- The function `nca_visit_romfs_file`. `perform` carries out the call that saves or the
line of the listing, `listromfs` is the bit `ACTION_LISTROMFS` of the action, and the fuel
bounds the depth of the recursion. -/
def nca_visit_romfs_file {σ : Type} (perform : σ → save_event_t → Except Fault σ)
    (listromfs : Bool) (romfs : romfs_ctx_t) : Nat → σ → Nat → List Nat → Except Fault σ
  | 0, _, _, _ => .error Fault.fuel
  | fuel + 1, s, file_offset, dir_path =>
    let entry := romfs.files file_offset
    let cur_path :=
      if entry.name.length ≠ 0 then filepath_append dir_path entry.name else dir_path
    /- If we're extracting... -/
    match (if listromfs = false then
        perform s (save_event_t.save_file cur_path
          (u64 (romfs.romfs_offset + romfs.header.data_offset + entry.offset)) entry.size)
      else
        perform s (save_event_t.list_file cur_path)) with
    | .error e => .error e
    | .ok s1 =>
      if entry.sibling ≠ ROMFS_ENTRY_EMPTY then
        nca_visit_romfs_file perform listromfs romfs fuel s1 entry.sibling dir_path
      else
        .ok s1

/-- The function `nca_visit_romfs_dir`; the fuel bounds the depth of the recursion. -/
def nca_visit_romfs_dir {σ : Type} (perform : σ → save_event_t → Except Fault σ)
    (listromfs : Bool) (romfs : romfs_ctx_t) : Nat → σ → Nat → List Nat → Except Fault σ
  | 0, _, _, _ => .error Fault.fuel
  | fuel + 1, s, dir_offset, parent_path =>
    let entry := romfs.directories dir_offset
    let cur_path :=
      if entry.name.length ≠ 0 then filepath_append parent_path entry.name else parent_path
    /- If we're actually extracting the romfs, make directory. -/
    match (if listromfs = false then perform s (save_event_t.makedir cur_path) else .ok s) with
    | .error e => .error e
    | .ok s1 =>
      match (if entry.file ≠ ROMFS_ENTRY_EMPTY then
          nca_visit_romfs_file perform listromfs romfs fuel s1 entry.file cur_path
        else .ok s1) with
      | .error e => .error e
      | .ok s2 =>
        match (if entry.child ≠ ROMFS_ENTRY_EMPTY then
            nca_visit_romfs_dir perform listromfs romfs fuel s2 entry.child cur_path
          else .ok s2) with
        | .error e => .error e
        | .ok s3 =>
          if entry.sibling ≠ ROMFS_ENTRY_EMPTY then
            nca_visit_romfs_dir perform listromfs romfs fuel s3 entry.sibling parent_path
          else
            .ok s3

/-! ## Well-formed RomFS tables -/

/-- A forest of directories in the form of the tables: a link is absent (`empty`), or leads
to the directory entry at `offset` with the offsets of the files of its file chain, the
forest of its children and the forest of its siblings. -/
inductive romfs_tree
  | empty
  | dir (offset : Nat) (files : List Nat) (child sibling : romfs_tree)
  deriving DecidableEq, Repr

/-- The file chain that starts at the link `link` consists of the entries at the offsets
`chain`, each linked to the next by `sibling`, the last one to none. -/
def is_file_chain (romfs : romfs_ctx_t) : Nat → List Nat → Bool
  | link, [] => decide (link = ROMFS_ENTRY_EMPTY)
  | link, o :: os =>
    decide (link = o) && decide (o ≠ ROMFS_ENTRY_EMPTY)
      && is_file_chain romfs (romfs.files o).sibling os

/-- The links of the tables from `link` on form the forest `t`. -/
def is_romfs_tree (romfs : romfs_ctx_t) : Nat → romfs_tree → Bool
  | link, .empty => decide (link = ROMFS_ENTRY_EMPTY)
  | link, .dir o fs c sib =>
    decide (link = o) && decide (o ≠ ROMFS_ENTRY_EMPTY)
      && is_file_chain romfs (romfs.directories o).file fs
      && is_romfs_tree romfs (romfs.directories o).child c
      && is_romfs_tree romfs (romfs.directories o).sibling sib

/-- The number of directories and files of a forest. -/
def romfs_tree.count : romfs_tree → Nat
  | .empty => 0
  | .dir _ fs c sib => 1 + fs.length + c.count + sib.count

/-- The number of files of a forest. -/
def romfs_tree.file_count : romfs_tree → Nat
  | .empty => 0
  | .dir _ fs c sib => fs.length + c.file_count + sib.file_count

/-- The path of an entry named `name` in the directory with path `path`: the path extended
by the separator and the name; an entry without a name (the root directory) has the path
itself. -/
def entry_path (path name : List Nat) : List Nat :=
  if name = [] then path else filepath_append path name

/-- The event of the file entry at `o` in the directory with path `dir_path`: the file is
saved from `romfs_offset + data_offset + offset` for `size` bytes, or listed. -/
def file_event (listromfs : Bool) (romfs : romfs_ctx_t) (dir_path : List Nat) (o : Nat) :
    save_event_t :=
  if listromfs = false then
    save_event_t.save_file (entry_path dir_path (romfs.files o).name)
      (u64 (romfs.romfs_offset + romfs.header.data_offset + (romfs.files o).offset))
      (romfs.files o).size
  else
    save_event_t.list_file (entry_path dir_path (romfs.files o).name)

/-- The events of a forest whose roots lie in the directory with path `parent_path`, in
the order of the specification: the directory itself (made when extracting), the files of
its file chain in order, the forest of its children under its own path, then the forest of
its siblings under the path of the parent. -/
def tree_events (listromfs : Bool) (romfs : romfs_ctx_t) : romfs_tree → List Nat →
    List save_event_t
  | .empty, _ => []
  | .dir o fs c sib, parent_path =>
    (if listromfs = false then
        [save_event_t.makedir (entry_path parent_path (romfs.directories o).name)]
      else [])
      ++ fs.map (file_event listromfs romfs (entry_path parent_path (romfs.directories o).name))
      ++ tree_events listromfs romfs c (entry_path parent_path (romfs.directories o).name)
      ++ tree_events listromfs romfs sib parent_path

/-- RomFS tables for the examples: the root directory at 0 with the files `a` (at 0) and
`b` (at 0x20); its child `d` at 0x18 with the file `c` (at 0x40); and the sibling `e` of `d`
at 0x30, without files. -/
def example_romfs : romfs_ctx_t :=
  { header := { header_size := 0x50, data_offset := 0x200 }
    romfs_offset := 0x100
    directories := fun o =>
      if o = 0 then ⟨ROMFS_ENTRY_EMPTY, 0x18, 0, []⟩
      else if o = 0x18 then ⟨0x30, ROMFS_ENTRY_EMPTY, 0x40, [0x64]⟩
      else ⟨ROMFS_ENTRY_EMPTY, ROMFS_ENTRY_EMPTY, ROMFS_ENTRY_EMPTY, [0x65]⟩
    files := fun o =>
      if o = 0 then ⟨0x20, 0, 0x10, [0x61]⟩
      else if o = 0x20 then ⟨ROMFS_ENTRY_EMPTY, 0x10, 0x8, [0x62]⟩
      else ⟨ROMFS_ENTRY_EMPTY, 0x18, 0x4, [0x63]⟩
    ivfc_levels := fun i => ⟨0x100 * i, 0x100, 0, 0x20, validity_t.VALIDITY_UNCHECKED⟩ }

/-- The forest of the example tables. -/
def example_romfs_tree : romfs_tree :=
  .dir 0 [0, 0x20]
    (.dir 0x18 [0x40] .empty (.dir 0x30 [] .empty .empty))
    .empty

/-! ## Saving a section (`nca.c`, lines 1113-1191 and 1270-1329) -/

/-- A path option of the settings: the path and the flag `enabled`. -/
structure override_filepath_t where
  enabled : Bool
  path : filepath_t

/-- The fields of `hactool_settings_t` and the bits of the action that the save functions
read. -/
structure save_settings_t where
  section_paths : Nat → filepath_t
  section_dir_paths : Nat → filepath_t
  exefs_path : override_filepath_t
  romfs_path : override_filepath_t
  exefs_dir_path : override_filepath_t
  romfs_dir_path : override_filepath_t
  action_raw : Bool
  action_listromfs : Bool

/-- A section context with the fields of its file system: the reader `ctx`, the field
`superblock_hash_validity`, the member `pfs0_ctx`, and in `romfs_ctx` the RomFS fields of the
member `romfs_ctx` (RomFS section) or `bktr_ctx` (BKTR section). -/
structure section_fs_t where
  ctx : nca_section_ctx_t
  superblock_hash_validity : validity_t
  pfs0_ctx : pfs0_ctx_t
  romfs_ctx : romfs_ctx_t

/-- Modelled from the spec: the constant `ROMFS_HEADER_SIZE` (`romfs.h` is not part of the
sources), the size of the RomFS header with its ten 64-bit fields. -/
abbrev ROMFS_HEADER_SIZE : Nat := 0x50

/-- The loop of `nca_save_pfs0_section` over the indices of the files. -/
def nca_save_pfs0_files {σ : Type} (perform : σ → save_event_t → Except Fault σ)
    (max_path size : Nat) (sb : pfs0_superblock_t) (header : pfs0_header_t)
    (dirpath : filepath_t) : List Nat → σ → Except Fault σ
  | [], s => .ok s
  | i :: is, s =>
    match nca_save_pfs0_file max_path size sb header i dirpath with
    | .error e => .error e
    | .ok ev =>
      match perform s ev with
      | .error e => .error e
      | .ok s1 => nca_save_pfs0_files perform max_path size sb header dirpath is s1

/-- The function `nca_save_pfs0_section`. The header is read through the pointer
`pfs0_ctx.header` only when the superblock hash is valid. -/
def nca_save_pfs0_section {σ : Type} (perform : σ → save_event_t → Except Fault σ)
    (max_path : Nat) (settings : save_settings_t) (sec : section_fs_t) (s : σ) :
    Except Fault σ :=
  if sec.superblock_hash_validity = validity_t.VALIDITY_VALID then
    match sec.pfs0_ctx.header with
    | none => .error Fault.undefined
    | some header =>
      if header.magic = MAGIC_PFS0 then
        /- Extract to directory. -/
        let dirpath0 : Option filepath_t :=
          if sec.pfs0_ctx.is_exefs && settings.exefs_dir_path.enabled then
            some settings.exefs_dir_path.path
          else none
        let dirpath : filepath_t :=
          match dirpath0 with
          | none => settings.section_dir_paths sec.ctx.section_num
          | some d =>
            if d.valid ≠ validity_t.VALIDITY_VALID then
              settings.section_dir_paths sec.ctx.section_num
            else d
        if dirpath.valid = validity_t.VALIDITY_VALID then
          match perform s (save_event_t.makedir dirpath.char_path) with
          | .error e => .error e
          | .ok s1 =>
            nca_save_pfs0_files perform max_path sec.ctx.size sec.pfs0_ctx.superblock header
              dirpath (List.range header.num_files) s1
        else
          .ok s
      else
        perform s (save_event_t.corrupted sec.ctx.section_num)
  else
    perform s (save_event_t.corrupted sec.ctx.section_num)

/-- The function `nca_save_ivfc_section`. -/
def nca_save_ivfc_section {σ : Type} (perform : σ → save_event_t → Except Fault σ)
    (fuel : Nat) (settings : save_settings_t) (sec : section_fs_t) (s : σ) : Except Fault σ :=
  if sec.superblock_hash_validity = validity_t.VALIDITY_VALID
      ∧ sec.romfs_ctx.header.header_size = ROMFS_HEADER_SIZE then
    if settings.action_listromfs then
      nca_visit_romfs_dir perform true sec.romfs_ctx fuel s 0 []
    else
      let dirpath0 : Option filepath_t :=
        if settings.romfs_dir_path.enabled then some settings.romfs_dir_path.path else none
      let dirpath : filepath_t :=
        match dirpath0 with
        | none => settings.section_dir_paths sec.ctx.section_num
        | some d =>
          if d.valid ≠ validity_t.VALIDITY_VALID then
            settings.section_dir_paths sec.ctx.section_num
          else d
      if dirpath.valid = validity_t.VALIDITY_VALID then
        match perform s (save_event_t.makedir dirpath.char_path) with
        | .error e => .error e
        | .ok s1 => nca_visit_romfs_dir perform false sec.romfs_ctx fuel s1 0 dirpath.char_path
      else
        .ok s
  else
    perform s (save_event_t.corrupted sec.ctx.section_num)

/-- The function `nca_save_bktr_section`: the text of `nca_save_ivfc_section` with the
fields of `bktr_ctx` in place of those of `romfs_ctx`. -/
def nca_save_bktr_section {σ : Type} (perform : σ → save_event_t → Except Fault σ)
    (fuel : Nat) (settings : save_settings_t) (sec : section_fs_t) (s : σ) : Except Fault σ :=
  nca_save_ivfc_section perform fuel settings sec s

/-- The range `(offset, size)` that `nca_save_section` dumps to the section file. The
relocation block is read through its pointer when the subsection block is loaded. -/
def nca_save_section_range (settings : save_settings_t) (sec : section_fs_t) :
    Except Fault (Nat × Nat) :=
  if settings.action_raw = false then
    match sec.ctx.type with
    | .PFS0 => .ok (sec.pfs0_ctx.superblock.pfs0_offset, sec.pfs0_ctx.superblock.pfs0_size)
    | .ROMFS =>
      .ok ((sec.romfs_ctx.ivfc_levels (IVFC_MAX_LEVEL - 1)).data_offset,
        (sec.romfs_ctx.ivfc_levels (IVFC_MAX_LEVEL - 1)).data_size)
    | .BKTR =>
      .ok ((sec.romfs_ctx.ivfc_levels (IVFC_MAX_LEVEL - 1)).data_offset,
        (sec.romfs_ctx.ivfc_levels (IVFC_MAX_LEVEL - 1)).data_size)
    | .INVALID => .ok (0, sec.ctx.size)
  else if sec.ctx.type = nca_section_type.BKTR ∧ sec.ctx.bktr_ctx.subsection_block.isSome
      ∧ sec.ctx.base_file.is_null = false then
    match sec.ctx.bktr_ctx.relocation_block with
    | none => .error Fault.undefined
    | some rb => .ok (0, rb.patch_romfs_size)
  else
    .ok (0, sec.ctx.size)

/-- The path `secpath` of `nca_save_section`, after the overrides. -/
def nca_save_section_path (settings : save_settings_t) (sec : section_fs_t) : filepath_t :=
  if sec.ctx.type = nca_section_type.PFS0 ∧ sec.pfs0_ctx.is_exefs = true
      ∧ settings.exefs_path.enabled = true
      ∧ settings.exefs_path.path.valid = validity_t.VALIDITY_VALID then
    settings.exefs_path.path
  else if sec.ctx.type = nca_section_type.ROMFS ∧ settings.romfs_path.enabled = true
      ∧ settings.romfs_path.path.valid = validity_t.VALIDITY_VALID then
    settings.romfs_path.path
  else
    settings.section_paths sec.ctx.section_num

/-- The function `nca_save_section`: the dump of the section file, then the files of the
file system. `perform` is the only access to the reader: no statement of the function
writes a field of the section context. -/
def nca_save_section {σ : Type} (perform : σ → save_event_t → Except Fault σ)
    (max_path fuel : Nat) (settings : save_settings_t) (sec : section_fs_t) (s : σ) :
    Except Fault σ :=
  /- Save raw section file... -/
  match nca_save_section_range settings sec with
  | .error e => .error e
  | .ok (offset, size) =>
    /- Extract to file. -/
    match (if (nca_save_section_path settings sec).valid = validity_t.VALIDITY_VALID then
        perform s (save_event_t.save_file (nca_save_section_path settings sec).char_path
          offset size)
      else .ok s) with
    | .error e => .error e
    | .ok s1 =>
      match sec.ctx.type with
      | .PFS0 => nca_save_pfs0_section perform max_path settings sec s1
      | .ROMFS => nca_save_ivfc_section perform fuel settings sec s1
      | .BKTR =>
        if sec.ctx.base_file.is_null then
          perform s1 save_event_t.note_no_base
        else
          nca_save_bktr_section perform fuel settings sec s1
      | .INVALID => .ok s1

/-- Settings for the examples: every section has the file `s` and the directory `out`, no
override is enabled. -/
def example_save_settings (action_raw : Bool) : save_settings_t :=
  { section_paths := fun _ => ⟨[0x73], validity_t.VALIDITY_VALID⟩
    section_dir_paths := fun _ => example_dirpath
    exefs_path := ⟨false, ⟨[], validity_t.VALIDITY_UNCHECKED⟩⟩
    romfs_path := ⟨false, ⟨[], validity_t.VALIDITY_UNCHECKED⟩⟩
    exefs_dir_path := ⟨false, ⟨[], validity_t.VALIDITY_UNCHECKED⟩⟩
    romfs_dir_path := ⟨false, ⟨[], validity_t.VALIDITY_UNCHECKED⟩⟩
    action_raw := action_raw
    action_listromfs := false }

/-- A PFS0 section for the examples, with the example header loaded and the given validity
of the superblock hash. -/
def example_pfs0_section (v : validity_t) : section_fs_t :=
  { ctx := { example_plain_ctx with type := nca_section_type.PFS0, size := 0x200 }
    superblock_hash_validity := v
    pfs0_ctx := { superblock := example_pfs0_superblock
                  header := some { example_pfs0_header with num_files := 2 }
                  is_exefs := false, npdm := [], hash_table_validity := validity_t.VALIDITY_UNCHECKED }
    romfs_ctx := example_romfs }

/-- A RomFS section for the examples, with the example tables and the given validity of the
superblock hash. -/
def example_romfs_section (v : validity_t) : section_fs_t :=
  { ctx := { example_plain_ctx with type := nca_section_type.ROMFS }
    superblock_hash_validity := v
    pfs0_ctx := { superblock := example_pfs0_superblock, header := none
                  is_exefs := false, npdm := [], hash_table_validity := validity_t.VALIDITY_UNCHECKED }
    romfs_ctx := example_romfs }

/-- The name "main.npdm". -/
abbrev MAIN_NPDM : List Nat := [0x6D, 0x61, 0x69, 0x6E, 0x2E, 0x6E, 0x70, 0x64, 0x6D]

/-- Modelled from the spec: the constant `MAGIC_META`, the bytes "META". -/
abbrev MAGIC_META : List Nat := [0x4D, 0x45, 0x54, 0x41]

/-- Modelled from the spec: the field `magic` of an NPDM (`npdm.h` is not part of the
sources), the first four bytes of the memory the NPDM was read into. -/
def npdm_magic (npdm : Nat → Nat) : List Nat := buffer_bytes npdm 0 4

/-- The body of the loop of `nca_process_pfs0_section` over the files, for the file of index
`i`: a file named "main.npdm" is read in full, and the section is marked as ExeFS when the
magic of what was read is "META". `heap` is the content of the memory `malloc` returns. -/
def pfs0_npdm_step (rfuel : Nat) (heap : Nat → Nat) (header : pfs0_header_t)
    (sec : section_fs_t) (i : Nat) : Except Fault section_fs_t :=
  if (header.entries i).name = MAIN_NPDM then
    /- We might have found the exefs... -/
    if (header.entries i).size ≥ sec.pfs0_ctx.superblock.pfs0_size then
      .error Fault.exit_failure
    else
      match section_seek_read rfuel sec.ctx
          (u64 (sec.pfs0_ctx.superblock.pfs0_offset + header.header_size
            + (header.entries i).offset)) heap (header.entries i).size with
      | .error e => .error e
      | .ok (r, npdm, ctx1) =>
        if r ≠ (header.entries i).size then
          .error Fault.exit_failure
        else
          .ok { sec with
            ctx := ctx1
            pfs0_ctx := { sec.pfs0_ctx with
              npdm := buffer_bytes npdm 0 (header.entries i).size
              is_exefs := if npdm_magic npdm = MAGIC_META then true else sec.pfs0_ctx.is_exefs } }
  else
    .ok sec

/-- The loop of `nca_process_pfs0_section` over the indices of the files. -/
def pfs0_npdm_loop (rfuel : Nat) (heap : Nat → Nat) (header : pfs0_header_t) :
    List Nat → section_fs_t → Except Fault section_fs_t
  | [], sec => .ok sec
  | i :: is, sec =>
    match pfs0_npdm_step rfuel heap header sec i with
    | .error e => .error e
    | .ok sec1 => pfs0_npdm_loop rfuel heap header is sec1

/-- The hash-table check of `nca_process_pfs0_section`, made when the action has the bit
`ACTION_VERIFY`. -/
def pfs0_verify_step (sha256 : List Nat → List Nat) (fuel rfuel : Nat) (heap : Nat → Nat)
    (verify : Bool) (sec : section_fs_t) (ctx1 : nca_section_ctx_t) :
    Except Fault (validity_t × nca_section_ctx_t) :=
  if verify then
    /- Verify actual PFS0... -/
    nca_section_check_hash_table sha256 fuel rfuel heap heap ctx1
      sec.pfs0_ctx.superblock.hash_table_offset sec.pfs0_ctx.superblock.pfs0_offset
      sec.pfs0_ctx.superblock.pfs0_size sec.pfs0_ctx.superblock.block_size 0
  else
    .ok (sec.pfs0_ctx.hash_table_validity, ctx1)

/-- The function `nca_process_pfs0_section`. `pfs0.h` is not part of the sources: `raw_size`
is `sizeof(pfs0_header_t)`, and `parse` gives the fields of a header from its bytes, the
header size from the bytes of the raw header alone. -/
def nca_process_pfs0_section (sha256 : List Nat → List Nat) (fuel rfuel : Nat)
    (heap : Nat → Nat) (verify : Bool) (raw_size : Nat) (parse : List Nat → pfs0_header_t)
    (sec : section_fs_t) : Except Fault section_fs_t :=
  match nca_section_check_external_hash_table sha256 fuel rfuel heap sec.ctx
      sec.pfs0_ctx.superblock.master_hash sec.pfs0_ctx.superblock.hash_table_offset
      sec.pfs0_ctx.superblock.hash_table_size sec.pfs0_ctx.superblock.hash_table_size 0 with
  | .error e => .error e
  | .ok (v, ctx1) =>
    match pfs0_verify_step sha256 fuel rfuel heap verify sec ctx1 with
    | .error e => .error e
    | .ok (hv, ctx2) =>
      if v ≠ validity_t.VALIDITY_VALID then
        .ok { sec with
          ctx := ctx2, superblock_hash_validity := v
          pfs0_ctx := { sec.pfs0_ctx with hash_table_validity := hv } }
      else
        /- Read *just* safe amount. -/
        match section_seek_read rfuel ctx2 sec.pfs0_ctx.superblock.pfs0_offset heap raw_size with
        | .error e => .error e
        | .ok (r, raw_header, ctx3) =>
          if r ≠ raw_size then
            .error Fault.exit_failure
          else
            match section_seek_read rfuel ctx3 sec.pfs0_ctx.superblock.pfs0_offset heap
                (parse (buffer_bytes raw_header 0 raw_size)).header_size with
            | .error e => .error e
            | .ok (r1, full_header, ctx4) =>
              if r1 ≠ (parse (buffer_bytes raw_header 0 raw_size)).header_size then
                .error Fault.exit_failure
              else
                pfs0_npdm_loop rfuel heap
                  (parse (buffer_bytes full_header 0
                    (parse (buffer_bytes raw_header 0 raw_size)).header_size))
                  (List.range (parse (buffer_bytes full_header 0
                    (parse (buffer_bytes raw_header 0 raw_size)).header_size)).num_files)
                  { sec with
                    ctx := ctx4, superblock_hash_validity := v
                    pfs0_ctx := { sec.pfs0_ctx with
                      hash_table_validity := hv
                      header := some (parse (buffer_bytes full_header 0
                        (parse (buffer_bytes raw_header 0 raw_size)).header_size)) } }

/-- The case `PFS0` of the switch of `nca_process` (lines 461-473): the section is
processed, and the NPDM signature is verified when the section was marked as ExeFS.
`rsa data sig modulus` is `rsa2048_pss_verify`, run on the 0x200 bytes of the header from
the magic; `npdm_key_sig` is the field of the header, `acid_modulus` gives
`npdm_get_acid(npdm)->modulus`, and `process` is `nca_process_pfs0_section`. The result is
the section with the field `npdm_sig_validity` of the NCA context. -/
def nca_process_pfs0_case (rsa : List Nat → List Nat → List Nat → Bool)
    (acid_modulus : List Nat → List Nat) (header npdm_key_sig : List Nat)
    (process : section_fs_t → Except Fault section_fs_t)
    (npdm_sig_validity : validity_t) (sec : section_fs_t) :
    Except Fault (section_fs_t × validity_t) :=
  match process sec with
  | .error e => .error e
  | .ok sec1 =>
    /- Verify NPDM sig now, if we can... -/
    if sec1.pfs0_ctx.is_exefs then
      if rsa (fread header 0x200 0x200) npdm_key_sig (acid_modulus sec1.pfs0_ctx.npdm) then
        .ok (sec1, validity_t.VALIDITY_VALID)
      else
        .ok (sec1, validity_t.VALIDITY_INVALID)
    else
      .ok (sec1, npdm_sig_validity)

/-- The fields a processed PFS0 section is asked for, when the processing returns: the flag
`is_exefs`, the NPDM and the validity of the NPDM signature. -/
def exefs_of (r : Except Fault (section_fs_t × validity_t)) :
    Option (Bool × List Nat × validity_t) :=
  match r with
  | .error _ => none
  | .ok x => some (x.1.pfs0_ctx.is_exefs, x.1.pfs0_ctx.npdm, x.2)

/-- A header layout for the examples, after the PFS0 format with one-byte fields: the
number of files at 4, the size of the string table at 8, and from 0x10 the entries of 0x18
bytes with the data offset at 0, the size at 8 and the offset of the name in the string
table at 0x10; the names end with a zero byte. -/
def example_pfs0_parse (b : List Nat) : pfs0_header_t :=
  { magic := b.take 4
    num_files := b.getD 4 0
    entries := fun i =>
      ⟨b.getD (0x10 + 0x18 * i) 0, b.getD (0x18 + 0x18 * i) 0,
        (b.drop (0x10 + 0x18 * b.getD 4 0 + b.getD (0x20 + 0x18 * i) 0)).takeWhile
          (fun c => c != 0)⟩
    header_size := 0x10 + 0x18 * b.getD 4 0 + b.getD 8 0 }

/-- A section image of 0x200 bytes for the examples: the hash table of 0x20 bytes at 0, and
at 0x40 a PFS0 of 0x48 bytes with the single file "main.npdm" of 0x10 bytes, which starts
with the four bytes `magic`. -/
def example_npdm_image (magic : List Nat) : List Nat :=
  List.replicate 0x40 0x11
    ++ [0x50, 0x46, 0x53, 0x30, 1, 0, 0, 0, 0x10, 0, 0, 0, 0, 0, 0, 0]
    ++ [0, 0, 0, 0, 0, 0, 0, 0, 0x10, 0, 0, 0, 0, 0, 0, 0, 0, 0, 0, 0, 0, 0, 0, 0]
    ++ MAIN_NPDM ++ List.replicate 7 0
    ++ magic.take 4 ++ List.replicate (4 - (magic.take 4).length) 0 ++ List.replicate 12 0x22
    ++ List.replicate 0x178 0

/-- The PFS0 section of a decrypted NCA at offset 0x1000 whose image is the example image;
the master hash of its superblock is the digest of the hash table. -/
def example_npdm_section (magic : List Nat) : section_fs_t :=
  { ctx := { nca_process_section true (List.replicate 0x1000 0 ++ example_npdm_image magic) 0
        ⟨8, 9⟩ (example_header CRYPT_NONE) example_aes base_file_t.absent (fun _ => 0xAA) with
      type := nca_section_type.PFS0 }
    superblock_hash_validity := validity_t.VALIDITY_UNCHECKED
    pfs0_ctx :=
      { superblock :=
          { master_hash := fun k => (example_sha (List.replicate 0x20 0x11)).getD k 0
            block_size := 0x20, hash_table_offset := 0, hash_table_size := 0x20
            pfs0_offset := 0x40, pfs0_size := 0x48 }
        header := none, is_exefs := false, npdm := []
        hash_table_validity := validity_t.VALIDITY_UNCHECKED }
    romfs_ctx := example_romfs }

/-- The case `PFS0` of `nca_process` on the example section, with the stand-in digest and
signature check, a header of zero bytes, and the ACID modulus taken to be bytes 4 to 7 of
the NPDM. -/
def example_npdm_run (magic : List Nat) : Except Fault (section_fs_t × validity_t) :=
  nca_process_pfs0_case example_rsa (fun npdm => fread npdm 4 4) (List.replicate 0x400 0) [0]
    (nca_process_pfs0_section example_sha 4 4 (fun _ => 0) false 0x10 example_pfs0_parse)
    validity_t.VALIDITY_UNCHECKED (example_npdm_section magic)

/-- A relocation table whose second entry does not start on a block boundary: `[0, 0x1008)`
comes from the patch at 0, `[0x1008, 0x3000)` from the base at 0x2000. -/
def example_unaligned_relocation_block : bktr_relocation_block_t :=
  { patch_romfs_size := 0x3000, num_entries := 2,
    entries := [⟨0, 0, 1⟩, ⟨0x1008, 0x2000, 0⟩, ⟨0x3000, 0, 0⟩] }

/-- The example BKTR section over the raw base RomFS, read virtually, with the relocation
table whose second entry starts at 0x1008. -/
def example_unaligned_bktr_ctx : nca_section_ctx_t :=
  { example_bktr_ctx (base_file_t.romfs example_base) 0 with
    bktr_ctx := { relocation_block := some example_unaligned_relocation_block
                  subsection_block := some example_subsection_block
                  virtual_seek := 0, bktr_seek := 0, base_seek := 0 } }

/-! # Theorems -/

/-! ## Arithmetic and list helpers -/

theorem u64_of_lt {x : Nat} (h : x < 2 ^ 64) : u64 x = x := Nat.mod_eq_of_lt h

theorem u32_of_lt {x : Nat} (h : x < 2 ^ 32) : u32 x = x := Nat.mod_eq_of_lt h

theorem and_0xF (x : Nat) : x &&& 0xF = x % 16 := Nat.and_pow_two_sub_one_eq_mod x 4

theorem and_0x1FF (x : Nat) : x &&& 0x1FF = x % 512 := Nat.and_pow_two_sub_one_eq_mod x 9

theorem and_not_0xF (x : Nat) (h : x < 2 ^ 64) : and_not x 0xF = x / 16 * 16 := by
  have h1 : x / 16 * 16 = (x >>> 4) <<< 4 := by
    simp [Nat.shiftLeft_eq, Nat.shiftRight_eq_div_pow]
  unfold and_not
  rw [h1]
  apply Nat.eq_of_testBit_eq
  intro i
  rw [Nat.testBit_and, Nat.testBit_shiftLeft, Nat.testBit_shiftRight]
  by_cases hi : i < 64
  · have hm : ∀ j < 64, Nat.testBit (2 ^ 64 - 1 - 0xF) j = decide (4 ≤ j) := by decide
    rw [hm i hi]
    by_cases h9 : 4 ≤ i
    · simp [h9]
    · simp [h9]
  · have hx : x.testBit i = false := by
      apply Nat.testBit_lt_two_pow
      calc x < 2 ^ 64 := h
        _ ≤ 2 ^ i := Nat.pow_le_pow_right (by norm_num) (by omega)
    have h9 : 4 ≤ i := by omega
    simp [hx, h9]

theorem list_length_eight {α : Type} (l : List α) (h : l.length = 8) :
    ∃ a0 a1 a2 a3 a4 a5 a6 a7, l = [a0, a1, a2, a3, a4, a5, a6, a7] := by
  match l, h with
  | [a0, a1, a2, a3, a4, a5, a6, a7], _ => exact ⟨a0, a1, a2, a3, a4, a5, a6, a7, rfl⟩

theorem list_length_sixteen {α : Type} (l : List α) (h : l.length = 16) :
    ∃ a0 a1 a2 a3 a4 a5 a6 a7 a8 a9 a10 a11 a12 a13 a14 a15,
      l = [a0, a1, a2, a3, a4, a5, a6, a7, a8, a9, a10, a11, a12, a13, a14, a15] := by
  match l, h with
  | [a0, a1, a2, a3, a4, a5, a6, a7, a8, a9, a10, a11, a12, a13, a14, a15], _ =>
    exact ⟨a0, a1, a2, a3, a4, a5, a6, a7, a8, a9, a10, a11, a12, a13, a14, a15, rfl⟩

/-! ## The counters -/

theorem nca_update_ctr_eq (ctr : List Nat) (ofs : Nat) (h : ctr.length = 16) :
    nca_update_ctr ctr ofs = ctr.take 8 ++ be_bytes 8 (u64 ofs >>> 4) := by
  obtain ⟨a0, a1, a2, a3, a4, a5, a6, a7, a8, a9, a10, a11, a12, a13, a14, a15, rfl⟩ :=
    list_length_sixteen ctr h
  simp [nca_update_ctr, be_bytes, List.range, List.range.loop, List.foldl, List.set,
    ← Nat.shiftRight_add, Nat.and_pow_two_sub_one_eq_mod _ 8]

theorem nca_update_bktr_ctr_eq (ctr : List Nat) (ctr_val ofs : Nat) (h : ctr.length = 16) :
    nca_update_bktr_ctr ctr ctr_val ofs
      = ctr.take 4 ++ be_bytes 4 (u32 ctr_val) ++ be_bytes 8 (u64 ofs >>> 4) := by
  obtain ⟨a0, a1, a2, a3, a4, a5, a6, a7, a8, a9, a10, a11, a12, a13, a14, a15, rfl⟩ :=
    list_length_sixteen ctr h
  simp [nca_update_bktr_ctr, be_bytes, List.range, List.range.loop, List.foldl, List.set,
    ← Nat.shiftRight_add, Nat.and_pow_two_sub_one_eq_mod _ 8]

theorem nca_process_ctr_eq (section_ctr : List Nat) (offset : Nat) (h : section_ctr.length = 8) :
    nca_process_ctr section_ctr offset = section_ctr.reverse ++ be_bytes 8 (u64 offset >>> 4) := by
  obtain ⟨a0, a1, a2, a3, a4, a5, a6, a7, rfl⟩ := list_length_eight section_ctr h
  simp [nca_process_ctr, be_bytes, List.range, List.range.loop, List.foldl, List.set,
    List.replicate, ← Nat.shiftRight_add, Nat.and_pow_two_sub_one_eq_mod _ 8]

/-! ## Seeking -/

theorem section_type_of_ctr (header : nca_fs_header_t) (h : header.crypt_type = CRYPT_CTR) :
    nca_process_section_type header ≠ nca_section_type.BKTR := by
  unfold nca_process_section_type
  split
  · simp
  · split
    · simp [h]
    · simp

theorem nca_section_fseek_ctr (ctx : nca_section_ctx_t) (offset : Nat)
    (hdec : ctx.is_decrypted = false) (hcrypt : ctx.header.crypt_type = CRYPT_CTR)
    (hty : ctx.type ≠ nca_section_type.BKTR) :
    nca_section_fseek ctx offset = .ok { ctx with
      file_pos := and_not (u64 (ctx.offset + offset)) 0xF
      cur_seek := and_not (u64 (ctx.offset + offset)) 0xF
      ctr := nca_update_ctr ctx.ctr (ctx.offset + offset)
      sector_ofs := offset &&& 0xF } := by
  simp [nca_section_fseek, hdec, hcrypt, hty]

theorem nca_section_fseek_bktr_direct (ctx : nca_section_ctx_t) (offset : Nat)
    (hdec : ctx.is_decrypted = false) (hcrypt : ctx.header.crypt_type = CRYPT_BKTR)
    (hty : ctx.type = nca_section_type.BKTR)
    (hsub : ctx.bktr_ctx.subsection_block.isSome = true)
    (hbase : ctx.base_file = base_file_t.absent) (hphys : ctx.physical_reads = 0) :
    nca_section_fseek ctx offset = .ok { ctx with
      bktr_ctx.virtual_seek := offset, bktr_ctx.bktr_seek := offset } := by
  simp [nca_section_fseek, hdec, hcrypt, hty, hsub, hbase, hphys, base_file_t.is_null]

/-! ## Bytes, buffers and the keystream -/

theorem fread_length (file : List Nat) (pos count : Nat) (h : pos + count ≤ file.length) :
    (fread file pos count).length = count := by
  simp [fread]; omega

theorem fread_getD (file : List Nat) (pos count i : Nat) (hi : i < count) :
    (fread file pos count).getD i 0 = file.getD (pos + i) 0 := by
  simp [fread, List.getD_eq_getElem?_getD, List.getElem?_take, hi]

theorem aes_ctr_crypt_length (aes : aes_ctx_t) (iv data : List Nat) :
    (aes_ctr_crypt aes iv data).length = data.length := by
  simp [aes_ctr_crypt]

theorem aes_ctr_crypt_getD (aes : aes_ctx_t) (iv data : List Nat) (i : Nat) (hi : i < data.length) :
    (aes_ctr_crypt aes iv data).getD i 0
      = data.getD i 0 ^^^ (aes.block (be_bytes 16 ((be_val iv + i / 16) % 2 ^ 128))).getD (i % 16) 0 := by
  simp [aes_ctr_crypt, List.getD_eq_getElem?_getD, hi]

theorem local_bytes_length (arr : List Nat) (stack : Nat → Nat) (start count : Nat) :
    (local_bytes arr stack start count).length = count := by
  simp [local_bytes]

theorem local_bytes_getD (arr : List Nat) (stack : Nat → Nat) (start count i : Nat)
    (hi : i < count) (hin : start + i < arr.length) :
    (local_bytes arr stack start count).getD i 0 = arr.getD (start + i) 0 := by
  simp [local_bytes, List.getD_eq_getElem?_getD, hi, hin]

theorem memcpy_inside (buffer : Nat → Nat) (dst : Nat) (src : List Nat) (i : Nat)
    (h1 : dst ≤ i) (h2 : i < dst + src.length) :
    memcpy buffer dst src i = src.getD (i - dst) 0 := by
  simp [memcpy, h1, h2]

theorem memcpy_outside (buffer : Nat → Nat) (dst : Nat) (src : List Nat) (i : Nat)
    (h : i < dst ∨ dst + src.length ≤ i) :
    memcpy buffer dst src i = buffer i := by
  unfold memcpy
  rw [if_neg]
  omega

theorem be_val_append (a b : List Nat) :
    be_val (a ++ b) = be_val a * 256 ^ b.length + be_val b := by
  unfold be_val
  rw [List.foldl_append]
  generalize List.foldl (fun acc b => acc * 256 + b) 0 a = x
  induction b generalizing x with
  | nil => simp
  | cons c cs ih =>
    simp only [List.foldl_cons, List.length_cons]
    rw [ih (x * 256 + c), ih (0 * 256 + c)]
    ring

theorem be_val_be_bytes_eight (v : Nat) (h : v < 2 ^ 64) : be_val (be_bytes 8 v) = v := by
  simp [be_val, be_bytes, List.range, List.range.loop, Nat.shiftRight_eq_div_pow]
  omega

theorem be_bytes_length (n v : Nat) : (be_bytes n v).length = n := by
  simp [be_bytes]

theorem buffer_bytes_length (buffer : Nat → Nat) (start n : Nat) :
    (buffer_bytes buffer start n).length = n := by
  simp [buffer_bytes]

theorem sub64_of_le {a b : Nat} (hab : b ≤ a) (ha : a < 2 ^ 64) : sub64 a b = a - b := by
  unfold sub64 u64
  rw [Nat.mod_eq_of_lt ha, Nat.mod_eq_of_lt (lt_of_le_of_lt hab ha)]
  omega

theorem sub32_of_le {a b : Nat} (hab : b ≤ a) (ha : a < 2 ^ 32) : sub32 a b = a - b := by
  unfold sub32 u32
  rw [Nat.mod_eq_of_lt ha, Nat.mod_eq_of_lt (lt_of_le_of_lt hab ha)]
  omega

theorem aes_ctr_crypt_getD_abs (aes : aes_ctx_t) (hi data : List Nat) (A i : Nat)
    (_hhi : hi.length = 8) (hA : A % 16 = 0) (hA64 : A < 2 ^ 64) (hi_lt : i < data.length) :
    (aes_ctr_crypt aes (hi ++ be_bytes 8 (A >>> 4)) data).getD i 0
      = data.getD i 0 ^^^ keystream_byte aes hi (A + i) := by
  rw [aes_ctr_crypt_getD _ _ _ _ hi_lt, be_val_append, be_bytes_length, keystream_byte]
  have h1 : A >>> 4 < 2 ^ 64 := by
    rw [Nat.shiftRight_eq_div_pow]; omega
  rw [be_val_be_bytes_eight _ h1, Nat.shiftRight_eq_div_pow]
  have h2 : (A + i) / 16 = A / 2 ^ 4 + i / 16 := by omega
  have h3 : (A + i) % 16 = i % 16 := by omega
  have h4 : (256 : Nat) ^ 8 = 2 ^ 64 := by norm_num
  rw [h2, h3, h4, Nat.add_assoc]

theorem ctr_aligned_read
    (sf : nca_section_ctx_t → (Nat → Nat) → Nat → Nat → Except Fault read_result)
    (ctx : nca_section_ctx_t) (hi : List Nat) (A : Nat) (buffer : Nat → Nat) (bofs n : Nat)
    (hs : ctr_state ctx hi A 0) (hfile : A + n ≤ ctx.file.length) :
    ∃ r, nca_section_fread_ctr sf ctx buffer bofs n = .ok r ∧ r.ret = n
      ∧ (∀ i, i < n → r.buffer (bofs + i) = ctx.file.getD (A + i) 0 ^^^ keystream_byte ctx.aes hi (A + i))
      ∧ (∀ j, j < bofs → r.buffer j = buffer j) := by
  have hlen : (fread ctx.file ctx.file_pos n).length = n := by
    rw [hs.pos]; exact fread_length _ _ _ hfile
  have hA64 : A < 2 ^ 64 := by have := hs.small; omega
  unfold nca_section_fread_ctr
  simp only [hs.sofs, ne_eq, not_true_eq_false, if_false, hlen]
  simp only [nca_section_fseek, hs.dec, hs.crypt, hs.type_ne, Bool.false_eq_true, if_false,
    false_and, CRYPT_CTR, CRYPT_XTS, CRYPT_NONE,
    Nat.reduceEqDiff, ne_eq, not_false_eq_true, if_true]
  refine ⟨_, rfl, rfl, ?_, ?_⟩
  · intro i hi_lt
    simp only
    rw [memcpy_inside _ _ _ _ (by omega) (by rw [aes_ctr_crypt_length, hlen]; omega)]
    rw [hs.ctr, Nat.add_sub_cancel_left,
      aes_ctr_crypt_getD_abs _ _ _ _ _ hs.hi_len hs.aligned hA64 (by rw [hlen]; exact hi_lt),
      hs.pos, fread_getD _ _ _ _ hi_lt]
  · intro j hj
    simp only
    rw [memcpy_outside _ _ _ _ (Or.inl hj), memcpy_outside _ _ _ _ (Or.inl hj)]

/-! ## Reading an AES-CTR section -/

theorem ctr_head_small_read
    (sf : nca_section_ctx_t → (Nat → Nat) → Nat → Nat → Except Fault read_result)
    (ctx : nca_section_ctx_t) (hi : List Nat) (A so : Nat) (buffer : Nat → Nat) (bofs n : Nat)
    (hs : ctr_state ctx hi A so) (hso : so ≠ 0) (hsmall : n + so < 16)
    (hfile : A + 16 ≤ ctx.file.length) :
    ∃ r, nca_section_fread_ctr sf ctx buffer bofs n = .ok r ∧ r.ret = n
      ∧ (∀ i, i < n → r.buffer (bofs + i)
          = ctx.file.getD (A + so + i) 0 ^^^ keystream_byte ctx.aes hi (A + so + i))
      ∧ (∀ j, j < bofs → r.buffer j = buffer j) := by
  have hlen : (fread ctx.file ctx.file_pos 0x10).length = 0x10 := by
    rw [hs.pos]; exact fread_length _ _ _ hfile
  have hA64 : A < 2 ^ 64 := by have := hs.small; omega
  have hu : u64 (n + so) = n + so := u64_of_lt (by omega)
  unfold nca_section_fread_ctr
  simp only [hs.sofs, ne_eq, hso, not_false_eq_true, if_true, hlen, not_true_eq_false, if_false,
    hu, hsmall]
  simp only [nca_section_fseek, hs.dec, hs.crypt, hs.type_ne, Bool.false_eq_true, if_false,
    false_and, CRYPT_CTR, CRYPT_XTS, CRYPT_NONE,
    Nat.reduceEqDiff, ne_eq, not_false_eq_true, if_true]
  refine ⟨_, rfl, rfl, ?_, ?_⟩
  · intro i hi_lt
    simp only
    rw [memcpy_inside _ _ _ _ (by omega) (by rw [local_bytes_length]; omega)]
    rw [Nat.add_sub_cancel_left,
      local_bytes_getD _ _ _ _ _ hi_lt (by rw [aes_ctr_crypt_length, hlen]; omega),
      hs.ctr,
      aes_ctr_crypt_getD_abs _ _ _ _ _ hs.hi_len hs.aligned hA64 (by rw [hlen]; omega),
      hs.pos, fread_getD _ _ _ _ (by omega), Nat.add_assoc]
  · intro j hj
    simp only
    rw [memcpy_outside _ _ _ _ (Or.inl hj)]

theorem ctr_state_seek (ctx : nca_section_ctx_t) (hi : List Nat) (off : Nat)
    (hdec : ctx.is_decrypted = false) (hcrypt : ctx.header.crypt_type = CRYPT_CTR)
    (hty : ctx.type ≠ nca_section_type.BKTR)
    (hlen : ctx.ctr.length = 16) (hhi : ctx.ctr.take 8 = hi)
    (halign : ctx.offset % 16 = 0) (hoff : ctx.offset + off < 2 ^ 64)
    (hsmall : ctx.file.length < 2 ^ 64) :
    ∃ ctx1, nca_section_fseek ctx off = .ok ctx1
      ∧ ctr_state ctx1 hi ((ctx.offset + off) / 16 * 16) (off % 16)
      ∧ ctx1.file = ctx.file ∧ ctx1.aes = ctx.aes ∧ ctx1.offset = ctx.offset := by
  refine ⟨_, nca_section_fseek_ctr ctx off hdec hcrypt hty, ?_, rfl, rfl, rfl⟩
  have hhl : hi.length = 8 := by rw [← hhi]; simp [hlen]
  refine ⟨hdec, hcrypt, hty, ?_, ?_, ?_, hhl, ?_, ?_, halign, ?_, hsmall⟩
  · simp only [u64_of_lt hoff, and_not_0xF _ hoff]
  · simp only [u64_of_lt hoff, and_not_0xF _ hoff]
  · simp only [nca_update_ctr_eq _ _ hlen, u64_of_lt hoff, hhi, Nat.shiftRight_eq_div_pow]
    congr 2
    omega
  · simp only [and_0xF]
  · omega
  · simp only
    omega

theorem nca_section_fread_of_ctr_state (fuel : Nat) (ctx : nca_section_ctx_t) (hi : List Nat)
    (A so : Nat) (buffer : Nat → Nat) (bofs n : Nat) (hs : ctr_state ctx hi A so) :
    nca_section_fread (fuel + 1) ctx buffer bofs n
      = nca_section_fread_ctr (nca_section_fread fuel) ctx buffer bofs n := by
  rw [nca_section_fread]
  simp [hs.dec, hs.crypt]

theorem ctr_head_large_unfold
    (sf : nca_section_ctx_t → (Nat → Nat) → Nat → Nat → Except Fault read_result)
    (ctx : nca_section_ctx_t) (buffer : Nat → Nat) (bofs n : Nat)
    (h1 : ctx.sector_ofs ≠ 0) (h2 : (fread ctx.file ctx.file_pos 0x10).length = 0x10)
    (h3 : ¬ u64 (n + ctx.sector_ofs) < 0x10) :
    nca_section_fread_ctr sf ctx buffer bofs n =
      match nca_section_fseek { ctx with file_pos := ctx.file_pos + 0x10 }
          (u64 (sub64 ctx.cur_seek ctx.offset + 0x10)) with
      | .error e => .error e
      | .ok ctx2 =>
        match sf ctx2
            (memcpy buffer bofs (local_bytes
              (aes_ctr_crypt ctx.aes ctx.ctr (fread ctx.file ctx.file_pos 0x10))
              ctx.stack ctx.sector_ofs (sub32 0x10 ctx.sector_ofs)))
            (bofs + sub32 0x10 ctx.sector_ofs) (sub64 n (sub32 0x10 ctx.sector_ofs)) with
        | .error e => .error e
        | .ok r => .ok ⟨u64 (sub32 0x10 ctx.sector_ofs + r.ret), r.buffer, r.ctx⟩ := by
  unfold nca_section_fread_ctr
  simp only [h1, h2, h3, ne_eq, not_false_eq_true, if_true, not_true_eq_false, if_false]

theorem ctr_head_large_read (fuel : Nat)
    (ctx : nca_section_ctx_t) (hi : List Nat) (A so : Nat) (buffer : Nat → Nat) (bofs n : Nat)
    (hs : ctr_state ctx hi A so) (hso : so ≠ 0) (hso16 : so < 16) (hlarge : 16 ≤ n + so)
    (hfile : A + so + n ≤ ctx.file.length) :
    ∃ r, nca_section_fread_ctr (nca_section_fread (fuel + 1)) ctx buffer bofs n = .ok r ∧ r.ret = n
      ∧ (∀ i, i < n → r.buffer (bofs + i)
          = ctx.file.getD (A + so + i) 0 ^^^ keystream_byte ctx.aes hi (A + so + i))
      ∧ (∀ j, j < bofs → r.buffer j = buffer j) := by
  have hsmall := hs.small
  have hlen : (fread ctx.file ctx.file_pos 0x10).length = 0x10 := by
    rw [hs.pos]; exact fread_length _ _ _ (by omega)
  have hu : ¬ u64 (n + ctx.sector_ofs) < 0x10 := by
    rw [hs.sofs, u64_of_lt (by omega)]; omega
  have hne : ctx.sector_ofs ≠ 0 := by rw [hs.sofs]; exact hso
  have hsub32 : sub32 0x10 ctx.sector_ofs = 16 - so := by
    rw [hs.sofs]; exact sub32_of_le (by omega) (by norm_num)
  have hoff_le := hs.off_le
  have hval : u64 (sub64 ctx.cur_seek ctx.offset + 0x10) = A - ctx.offset + 16 := by
    rw [hs.cur, sub64_of_le hoff_le (by omega), u64_of_lt (by omega)]
  have hctr_len : ctx.ctr.length = 16 := by
    rw [hs.ctr]; simp [hs.hi_len, be_bytes_length]
  have hctr_hi : ctx.ctr.take 8 = hi := by
    rw [hs.ctr]; simp [hs.hi_len]
  obtain ⟨ctx2, hseek, hs2, hfile2, haes2, -⟩ :=
    ctr_state_seek { ctx with file_pos := ctx.file_pos + 0x10 } hi (A - ctx.offset + 16)
      hs.dec hs.crypt hs.type_ne hctr_len hctr_hi hs.off_aligned
      (by show ctx.offset + (A - ctx.offset + 16) < 2 ^ 64; omega) hsmall
  have hA2 : (ctx.offset + (A - ctx.offset + 16)) / 16 * 16 = A + 16 := by
    have := hs.aligned; omega
  have hso2 : (A - ctx.offset + 16) % 16 = 0 := by
    have := hs.aligned; have := hs.off_aligned; omega
  simp only [hA2, hso2] at hs2
  have hn' : sub64 n (16 - so) = n - (16 - so) := sub64_of_le (by omega) (by omega)
  obtain ⟨r, hr, hret, hbytes, hkeep⟩ :=
    ctr_aligned_read (nca_section_fread fuel) ctx2 hi (A + 16)
      (memcpy buffer bofs (local_bytes
        (aes_ctr_crypt ctx.aes ctx.ctr (fread ctx.file ctx.file_pos 0x10))
        ctx.stack ctx.sector_ofs (16 - so)))
      (bofs + (16 - so)) (n - (16 - so)) hs2
      (by rw [hfile2]; show A + 16 + (n - (16 - so)) ≤ ctx.file.length; omega)
  rw [ctr_head_large_unfold _ _ _ _ _ hne hlen hu, hval, hseek]
  simp only [hsub32, hn']
  rw [nca_section_fread_of_ctr_state _ _ _ _ _ _ _ _ hs2, hr]
  refine ⟨_, rfl, ?_, ?_, ?_⟩
  · simp only [hret]
    rw [u64_of_lt (by omega)]
    omega
  · intro i hi_lt
    simp only
    by_cases hcase : i < 16 - so
    · rw [hkeep _ (by omega),
        memcpy_inside _ _ _ _ (by omega) (by rw [local_bytes_length]; omega),
        Nat.add_sub_cancel_left, hs.sofs,
        local_bytes_getD _ _ _ _ _ hcase (by rw [aes_ctr_crypt_length, hlen]; omega),
        hs.ctr,
        aes_ctr_crypt_getD_abs _ _ _ _ _ hs.hi_len hs.aligned (by omega) (by rw [hlen]; omega),
        hs.pos, fread_getD _ _ _ _ (by omega), Nat.add_assoc]
    · have hidx : bofs + i = bofs + (16 - so) + (i - (16 - so)) := by omega
      have hpos : A + so + i = A + 16 + (i - (16 - so)) := by omega
      rw [hidx, hbytes _ (by omega), hfile2, haes2, hpos]
  · intro j hj
    simp only
    rw [hkeep _ (by omega), memcpy_outside _ _ _ _ (Or.inl hj)]

/-! ## C1: a read of an AES-CTR section -/

theorem list_eq_of_getD (l1 l2 : List Nat) (hlen : l1.length = l2.length)
    (h : ∀ i, i < l1.length → l1.getD i 0 = l2.getD i 0) : l1 = l2 := by
  apply List.ext_getElem hlen
  intro i h1 h2
  have := h i h1
  simpa [List.getD_eq_getElem?_getD, h1, h2] using this

theorem buffer_bytes_getD (buffer : Nat → Nat) (start n i : Nat) (hi : i < n) :
    (buffer_bytes buffer start n).getD i 0 = buffer (start + i) := by
  simp [buffer_bytes, List.getD_eq_getElem?_getD, hi]

theorem drop_take_getD (l : List Nat) (off n i : Nat) (hi : i < n) :
    ((l.drop off).take n).getD i 0 = l.getD (off + i) 0 := by
  simp [List.getD_eq_getElem?_getD, List.getElem?_take, hi]

theorem ctr_plaintext_getD (ctx : nca_section_ctx_t) (k : Nat)
    (hctr : ctx.ctr.length = 16) (halign : ctx.offset % 16 = 0)
    (hk : k < ctx.size) (hfile : ctx.offset + k < ctx.file.length)
    (hsmall : ctx.file.length < 2 ^ 64) :
    (ctr_plaintext ctx).getD k 0
      = ctx.file.getD (ctx.offset + k) 0 ^^^ keystream_byte ctx.aes (ctx.ctr.take 8) (ctx.offset + k) := by
  unfold ctr_plaintext
  have hl : k < (fread ctx.file ctx.offset ctx.size).length := by
    simp [fread]; omega
  rw [aes_ctr_crypt_getD_abs _ _ _ _ _ (by simp [hctr]) halign (by omega) hl,
    fread_getD _ _ _ _ hk]

theorem ctr_plaintext_length (ctx : nca_section_ctx_t) :
    (ctr_plaintext ctx).length = min ctx.size (ctx.file.length - ctx.offset) := by
  simp [ctr_plaintext, aes_ctr_crypt_length, fread]

/-- C1. For every encrypted AES-CTR section whose byte offset is a multiple of 16, every
logical offset `off` and length `n` with `off + n` within the section size, the file
holding the 16-byte blocks that cover the range: `nca_section_fseek(off)` followed by
`nca_section_fread(n)` returns `n` and fills the buffer with bytes `[off, off+n)` of the
section's CTR plaintext, whether or not `off` is a multiple of 16, from any earlier state of
the reader and with any depth of at least 2 allowed to the recursion. -/
theorem ctr_read_is_plaintext (fuel : Nat) (ctx : nca_section_ctx_t) (buffer : Nat → Nat)
    (off n : Nat)
    (hdec : ctx.is_decrypted = false) (hcrypt : ctx.header.crypt_type = CRYPT_CTR)
    (hty : ctx.type ≠ nca_section_type.BKTR) (hctr : ctx.ctr.length = 16)
    (halign : ctx.offset % 16 = 0) (hrange : off + n ≤ ctx.size)
    (hfile : (ctx.offset + off + n + 15) / 16 * 16 ≤ ctx.file.length)
    (hsmall : ctx.file.length < 2 ^ 64) :
    ∃ r, seek_then_read (fuel + 2) ctx off buffer n = .ok r ∧ r.ret = n
      ∧ buffer_bytes r.buffer 0 n = ((ctr_plaintext ctx).drop off).take n := by
  obtain ⟨ctx1, hseek, hs1, hf, ha, -⟩ :=
    ctr_state_seek ctx (ctx.ctr.take 8) off hdec hcrypt hty hctr rfl halign (by omega) hsmall
  have hAso : (ctx.offset + off) / 16 * 16 + off % 16 = ctx.offset + off := by omega
  have key : ∃ r, nca_section_fread (fuel + 2) ctx1 buffer 0 n = .ok r ∧ r.ret = n
      ∧ (∀ i, i < n → r.buffer (0 + i)
          = ctx.file.getD (ctx.offset + off + i) 0
            ^^^ keystream_byte ctx.aes (ctx.ctr.take 8) (ctx.offset + off + i)) := by
    rw [nca_section_fread_of_ctr_state _ _ _ _ _ _ _ _ hs1]
    by_cases hso : off % 16 = 0
    · rw [hso] at hs1
      obtain ⟨r, hr, hret, hbytes, -⟩ :=
        ctr_aligned_read (nca_section_fread (fuel + 1)) ctx1 _ _ buffer 0 n hs1
          (by rw [hf]; omega)
      refine ⟨r, hr, hret, ?_⟩
      intro i hi
      rw [hbytes i hi, hf, ha]
      have : (ctx.offset + off) / 16 * 16 = ctx.offset + off := by omega
      rw [this]
    · by_cases hsm : n + off % 16 < 16
      · obtain ⟨r, hr, hret, hbytes, -⟩ :=
          ctr_head_small_read (nca_section_fread (fuel + 1)) ctx1 _ _ _ buffer 0 n hs1 hso hsm
            (by rw [hf]; omega)
        refine ⟨r, hr, hret, ?_⟩
        intro i hi
        rw [hbytes i hi, hf, ha, hAso]
      · obtain ⟨r, hr, hret, hbytes, -⟩ :=
          ctr_head_large_read fuel ctx1 _ _ _ buffer 0 n hs1 hso (by omega) (by omega)
            (by rw [hf]; omega)
        refine ⟨r, hr, hret, ?_⟩
        intro i hi
        rw [hbytes i hi, hf, ha, hAso]
  obtain ⟨r, hr, hret, hbytes⟩ := key
  refine ⟨r, ?_, hret, ?_⟩
  · unfold seek_then_read
    rw [hseek]
    exact hr
  · apply list_eq_of_getD
    · rw [buffer_bytes_length, List.length_take, List.length_drop, ctr_plaintext_length]
      omega
    · intro i hi
      rw [buffer_bytes_length] at hi
      rw [buffer_bytes_getD _ _ _ _ hi, drop_take_getD _ _ _ _ hi, hbytes i hi,
        ctr_plaintext_getD ctx (off + i) hctr halign (by omega) (by omega) hsmall,
        Nat.add_assoc]


/-- Witness for C1: 32 bytes at logical offset 0x17 of the section at 0x1000. -/
theorem ctr_read_is_plaintext_witness :
    ∃ r, seek_then_read 2 example_ctr_ctx 0x17 (fun _ => 0xCC) 32 = .ok r ∧ r.ret = 32
      ∧ buffer_bytes r.buffer 0 32 = ((ctr_plaintext example_ctr_ctx).drop 0x17).take 32 :=
  ctr_read_is_plaintext 0 example_ctr_ctx (fun _ => 0xCC) 0x17 32 rfl rfl (by decide) rfl
    (by decide) (by decide) (by decide!) (by decide!)

/-! ## C2: an XTS read that starts inside a sector -/

/-- C2 (the code at the failing input). An XTS section at offset 0x400: after
`nca_section_fseek(0x180)`, `nca_section_fread(0x300)` returns 0x300 but reads and decrypts
only the two sectors 0 and 1 (the file position ends at 0x800, `sector_num` at 1); the
first bytes of the buffer come from beyond the sector buffer (the stack bytes 0xAA), the
bytes from 0x80 are left as they were (0xCC), plaintext bytes from 0x200 on are stored at
buffer index 0x200, and the buffer differs from plaintext bytes [0x180, 0x480). -/
theorem xts_read_inside_sector_diverges :
    ret_of (seek_then_read 4 example_xts_ctx 0x180 (fun _ => 0xCC) 0x300) = some 0x300
    ∧ (ctx_of (seek_then_read 4 example_xts_ctx 0x180 (fun _ => 0xCC) 0x300)).map
        (fun c => (c.file_pos, c.sector_num, c.sector_ofs)) = some (0x800, 1, 0x100)
    ∧ bytes_at (seek_then_read 4 example_xts_ctx 0x180 (fun _ => 0xCC) 0x300) 0 4
      = some [0xAA, 0xAA, 0xAA, 0xAA]
    ∧ bytes_at (seek_then_read 4 example_xts_ctx 0x180 (fun _ => 0xCC) 0x300) 0x80 4
      = some [0xCC, 0xCC, 0xCC, 0xCC]
    ∧ bytes_at (seek_then_read 4 example_xts_ctx 0x180 (fun _ => 0xCC) 0x300) 0x200 4
      = some (((xts_plaintext example_xts_ctx).drop 0x200).take 4)
    ∧ bytes_of (seek_then_read 4 example_xts_ctx 0x180 (fun _ => 0xCC) 0x300) 0x300
      ≠ some (((xts_plaintext example_xts_ctx).drop 0x180).take 0x300) := by
  decide!

/-! ## Virtual reads of a BKTR section -/

theorem fseek_virtual (ctx : nca_section_ctx_t) (rb : bktr_relocation_block_t)
    (sb : bktr_subsection_block_t) (base : List Nat) (w r : Nat)
    (hs : bktr_virtual_state ctx rb sb base) (hr : bktr_get_relocation rb w = some r) :
    ∃ ctx1, nca_section_fseek ctx w = .ok ctx1
      ∧ bktr_virtual_state ctx1 rb sb base
      ∧ ctx1.bktr_ctx.virtual_seek = w
      ∧ ((rb.entries.getD r default).is_patch ≠ 0 →
          ctx1.bktr_ctx.bktr_seek = u64 (sub64 w (rb.entries.getD r default).virt_offset
            + (rb.entries.getD r default).phys_offset))
      ∧ ((rb.entries.getD r default).is_patch = 0 →
          ctx1.bktr_ctx.base_seek = u64 (sub64 w (rb.entries.getD r default).virt_offset
            + (rb.entries.getD r default).phys_offset))
      ∧ ctx1.file = ctx.file ∧ ctx1.aes = ctx.aes ∧ ctx1.offset = ctx.offset
      ∧ ctx1.ctr = ctx.ctr ∧ ctx1.file_pos = ctx.file_pos := by
  generalize hx : u64 (sub64 w (rb.entries.getD r default).virt_offset
    + (rb.entries.getD r default).phys_offset) = x
  by_cases hp : (rb.entries.getD r default).is_patch = 0
  · refine ⟨{ ctx with bktr_ctx.virtual_seek := w, bktr_ctx.base_seek := x },
      ?_, ?_, rfl, ?_, ?_, rfl, rfl, rfl, rfl, rfl⟩
    · simp only [List.getD_eq_getElem?_getD] at hp hx
      simp [nca_section_fseek, hs.dec, hs.crypt, hs.type_eq, hs.reloc, hs.sub, hs.base_eq,
        hs.phys, base_file_t.is_null, hr, hp, hx]
    · exact ⟨hs.dec, hs.crypt, hs.type_eq, hs.reloc, hs.sub, hs.base_eq, hs.phys⟩
    · intro h; exact absurd hp h
    · intro _; rfl
  · refine ⟨{ ctx with bktr_ctx.virtual_seek := w, bktr_ctx.bktr_seek := x },
      ?_, ?_, rfl, ?_, ?_, rfl, rfl, rfl, rfl, rfl⟩
    · simp only [List.getD_eq_getElem?_getD] at hp hx
      simp [nca_section_fseek, hs.dec, hs.crypt, hs.type_eq, hs.reloc, hs.sub, hs.base_eq,
        hs.phys, base_file_t.is_null, hr, hp, hx]
    · exact ⟨hs.dec, hs.crypt, hs.type_eq, hs.reloc, hs.sub, hs.base_eq, hs.phys⟩
    · intro _; rfl
    · intro h; exact absurd h hp

theorem nca_section_fread_of_virtual (fuel : Nat) (ctx : nca_section_ctx_t)
    (rb : bktr_relocation_block_t) (sb : bktr_subsection_block_t) (base : List Nat)
    (buffer : Nat → Nat) (bofs n : Nat) (hs : bktr_virtual_state ctx rb sb base) :
    nca_section_fread (fuel + 1) ctx buffer bofs n
      = nca_section_fread_virtual (nca_section_fread fuel) ctx buffer bofs n := by
  rw [nca_section_fread]
  simp [hs.dec, hs.crypt, hs.sub, hs.base_eq, hs.phys, base_file_t.is_null]

theorem physical_aligned_unfold
    (sf : nca_section_ctx_t → (Nat → Nat) → Nat → Nat → Except Fault read_result)
    (ctx : nca_section_ctx_t) (sb : bktr_subsection_block_t) (buffer : Nat → Nat)
    (bofs count k k2 : Nat)
    (hdec : ctx.is_decrypted = false) (hsub : ctx.bktr_ctx.subsection_block = some sb)
    (hk : bktr_get_subsection sb ctx.bktr_ctx.bktr_seek = some k)
    (hk2 : bktr_get_subsection sb (u64 (ctx.bktr_ctx.bktr_seek + count)) = some k2)
    (heasy : k2 = k ∨ (u64 (ctx.bktr_ctx.bktr_seek + count) = (sb.entries.getD k2 default).offset
      ∧ k2 = k + 1))
    (hblk : u32 (ctx.bktr_ctx.bktr_seek &&& 0xF) = 0)
    (hlen : (fread ctx.file (and_not (u64 (ctx.offset + ctx.bktr_ctx.bktr_seek)) 0xF) count).length
      = count) :
    nca_bktr_section_physical_fread sf ctx buffer bofs count =
      match nca_section_fseek
          { ctx with
            ctr := nca_update_bktr_ctr ctx.ctr (sb.entries.getD k default).ctr_val
              (ctx.bktr_ctx.bktr_seek + ctx.offset)
            file_pos := and_not (u64 (ctx.offset + ctx.bktr_ctx.bktr_seek)) 0xF + count }
          (u64 (ctx.bktr_ctx.virtual_seek + count)) with
      | .error e => .error e
      | .ok ctx3 => .ok ⟨count,
          memcpy (memcpy buffer bofs
              (fread ctx.file (and_not (u64 (ctx.offset + ctx.bktr_ctx.bktr_seek)) 0xF) count))
            bofs (aes_ctr_crypt ctx.aes
              (nca_update_bktr_ctr ctx.ctr (sb.entries.getD k default).ctr_val
                (ctx.bktr_ctx.bktr_seek + ctx.offset))
              (fread ctx.file (and_not (u64 (ctx.offset + ctx.bktr_ctx.bktr_seek)) 0xF) count)),
          ctx3⟩ := by
  unfold nca_bktr_section_physical_fread
  simp only [hdec, hsub, hk, hk2, heasy, hblk, hlen, Bool.false_eq_true, if_false, if_true,
    ne_eq, not_true_eq_false]

theorem virtual_patch_span
    (sf : nca_section_ctx_t → (Nat → Nat) → Nat → Nat → Except Fault read_result)
    (ctx : nca_section_ctx_t) (rb : bktr_relocation_block_t) (sb : bktr_subsection_block_t)
    (base : List Nat) (buffer : Nat → Nat) (bofs w r r1 k k2 : Nat)
    (e1 : bktr_relocation_entry_t)
    (hs : bktr_virtual_state ctx rb sb base)
    (hr : bktr_get_relocation rb ctx.bktr_ctx.virtual_seek = some r)
    (hnext : rb.entries.get? (r + 1) = some e1)
    (hle : u64 (ctx.bktr_ctx.virtual_seek + w) ≤ e1.virt_offset)
    (hpatch : (rb.entries.getD r default).is_patch ≠ 0)
    (hr1 : bktr_get_relocation rb (u64 (ctx.bktr_ctx.virtual_seek + w)) = some r1)
    (hk : bktr_get_subsection sb ctx.bktr_ctx.bktr_seek = some k)
    (hk2 : bktr_get_subsection sb (u64 (ctx.bktr_ctx.bktr_seek + w)) = some k2)
    (heasy : k2 = k ∨ (u64 (ctx.bktr_ctx.bktr_seek + w) = (sb.entries.getD k2 default).offset
      ∧ k2 = k + 1))
    (hblk : u32 (ctx.bktr_ctx.bktr_seek &&& 0xF) = 0)
    (hlen : (fread ctx.file (and_not (u64 (ctx.offset + ctx.bktr_ctx.bktr_seek)) 0xF) w).length
      = w) :
    ∃ res, nca_section_fread_virtual sf ctx buffer bofs w = .ok res ∧ res.ret = w
      ∧ res.buffer = memcpy (memcpy buffer bofs
              (fread ctx.file (and_not (u64 (ctx.offset + ctx.bktr_ctx.bktr_seek)) 0xF) w))
            bofs (aes_ctr_crypt ctx.aes
              (nca_update_bktr_ctr ctx.ctr (sb.entries.getD k default).ctr_val
                (ctx.bktr_ctx.bktr_seek + ctx.offset))
              (fread ctx.file (and_not (u64 (ctx.offset + ctx.bktr_ctx.bktr_seek)) 0xF) w))
      ∧ bktr_virtual_state res.ctx rb sb base := by
  obtain ⟨ctx3, hseek3, hs3, -⟩ := fseek_virtual
    { ctx with
      ctr := nca_update_bktr_ctr ctx.ctr (sb.entries.getD k default).ctr_val
        (ctx.bktr_ctx.bktr_seek + ctx.offset)
      file_pos := and_not (u64 (ctx.offset + ctx.bktr_ctx.bktr_seek)) 0xF + w }
    rb sb base (u64 (ctx.bktr_ctx.virtual_seek + w)) r1
    ⟨hs.dec, hs.crypt, hs.type_eq, hs.reloc, hs.sub, hs.base_eq, hs.phys⟩ hr1
  obtain ⟨ctx4, hseek4, hs4, -⟩ := fseek_virtual ctx3 rb sb base
    (u64 (ctx.bktr_ctx.virtual_seek + w)) r1 hs3 hr1
  unfold nca_section_fread_virtual
  simp only [hs.reloc, hr, hnext, hle, if_true, hpatch, ne_eq, not_false_eq_true]
  rw [physical_aligned_unfold sf ctx sb buffer bofs w k k2 hs.dec hs.sub hk hk2 heasy hblk hlen,
    hseek3]
  simp only [seek_and_return, hseek4]
  exact ⟨_, rfl, rfl, rfl, hs4⟩

theorem virtual_base_span
    (sf : nca_section_ctx_t → (Nat → Nat) → Nat → Nat → Except Fault read_result)
    (ctx : nca_section_ctx_t) (rb : bktr_relocation_block_t) (sb : bktr_subsection_block_t)
    (base : List Nat) (buffer : Nat → Nat) (bofs m r r1 : Nat)
    (e1 : bktr_relocation_entry_t)
    (hs : bktr_virtual_state ctx rb sb base)
    (hr : bktr_get_relocation rb ctx.bktr_ctx.virtual_seek = some r)
    (hnext : rb.entries.get? (r + 1) = some e1)
    (hle : u64 (ctx.bktr_ctx.virtual_seek + m) ≤ e1.virt_offset)
    (hbase : (rb.entries.getD r default).is_patch = 0)
    (hr1 : bktr_get_relocation rb (u64 (ctx.bktr_ctx.virtual_seek + m)) = some r1)
    (hlen : (fread base ctx.bktr_ctx.base_seek m).length = m) :
    ∃ res, nca_section_fread_virtual sf ctx buffer bofs m = .ok res ∧ res.ret = m
      ∧ res.buffer = memcpy buffer bofs (fread base ctx.bktr_ctx.base_seek m)
      ∧ bktr_virtual_state res.ctx rb sb base := by
  obtain ⟨ctx3, hseek3, hs3, -⟩ := fseek_virtual ctx rb sb base
    (u64 (ctx.bktr_ctx.virtual_seek + m)) r1 hs hr1
  unfold nca_section_fread_virtual
  simp only [hs.reloc, hr, hnext, hle, if_true, hbase, ne_eq, not_true_eq_false, if_false]
  unfold nca_section_fread_base
  simp only [hs.base_eq, hlen, ne_eq, not_true_eq_false, if_false, seek_and_return, hseek3]
  exact ⟨_, rfl, rfl, rfl, hs3⟩

theorem virtual_split_unfold
    (sf : nca_section_ctx_t → (Nat → Nat) → Nat → Nat → Except Fault read_result)
    (ctx : nca_section_ctx_t) (rb : bktr_relocation_block_t) (buffer : Nat → Nat)
    (bofs count r : Nat) (e1 : bktr_relocation_entry_t)
    (hreloc : ctx.bktr_ctx.relocation_block = some rb)
    (hr : bktr_get_relocation rb ctx.bktr_ctx.virtual_seek = some r)
    (hnext : rb.entries.get? (r + 1) = some e1)
    (hcross : ¬ u64 (ctx.bktr_ctx.virtual_seek + count) ≤ e1.virt_offset) :
    nca_section_fread_virtual sf ctx buffer bofs count =
      match sf ctx buffer bofs (sub64 e1.virt_offset ctx.bktr_ctx.virtual_seek) with
      | .error e => .error e
      | .ok r1 =>
        if r1.ret ≠ sub64 e1.virt_offset ctx.bktr_ctx.virtual_seek then
          .ok ⟨0, r1.buffer, r1.ctx⟩
        else
          match nca_section_fseek r1.ctx (u64 (ctx.bktr_ctx.virtual_seek
              + sub64 e1.virt_offset ctx.bktr_ctx.virtual_seek)) with
          | .error e => .error e
          | .ok ctx2 =>
            match sf ctx2 r1.buffer (bofs + sub64 e1.virt_offset ctx.bktr_ctx.virtual_seek)
                (sub64 count (sub64 e1.virt_offset ctx.bktr_ctx.virtual_seek)) with
            | .error e => .error e
            | .ok r2 =>
              if u64 (r1.ret + r2.ret) ≠ count then
                .ok ⟨0, r2.buffer, r2.ctx⟩
              else
                seek_and_return ⟨u64 (r1.ret + r2.ret), r2.buffer, r2.ctx⟩
                  (u64 (ctx.bktr_ctx.virtual_seek + count)) := by
  unfold nca_section_fread_virtual
  simp only [hreloc, hr, hnext, hcross, if_false]

theorem getD_of_get? {α : Type} [Inhabited α] (l : List α) (i : Nat) (a : α)
    (h : l.get? i = some a) : l.getD i default = a := by
  simp [List.getD_eq_getElem?_getD] at *
  simp [h]

/-! ## A virtual read across a relocation boundary, where the split is right -/

/-- The split of a virtual read where the code is right. For an encrypted BKTR section with
tables loaded, a base (raw RomFS) present and `physical_reads` off, a read of `n` bytes at
virtual offset `v` that starts in a patch entry `e0` and crosses the `virt_offset` of the
next entry `e1`, a base entry, is split there: `nca_section_fseek(v)` then
`nca_section_fread(n)` returns `n`; the first `w = e1.virt_offset - v` bytes are the patch
bytes at physical offset `p = v - e0.virt_offset + e0.phys_offset` (decrypted under the
counter of the subsection that holds them), the other `n - w` bytes are the base bytes at
physical offset `e1.phys_offset`. Here `p` is a multiple of 16 and the patch span lies in one
subsection, which keeps the patch read away from its two defects. -/
theorem bktr_virtual_read_splits (fuel : Nat) (ctx : nca_section_ctx_t)
    (rb : bktr_relocation_block_t) (sb : bktr_subsection_block_t) (base : List Nat)
    (buffer : Nat → Nat) (v n p w r r2 k k2 : Nat) (e0 e1 e2 : bktr_relocation_entry_t)
    (hs : bktr_virtual_state ctx rb sb base)
    (halign : ctx.offset % 16 = 0) (hsmall : ctx.file.length < 2 ^ 64)
    (hr : bktr_get_relocation rb v = some r)
    (he0 : rb.entries.get? r = some e0) (hpatch : e0.is_patch ≠ 0)
    (he1 : rb.entries.get? (r + 1) = some e1) (hbase : e1.is_patch = 0)
    (he2 : rb.entries.get? (r + 2) = some e2)
    (hr_mid : bktr_get_relocation rb e1.virt_offset = some (r + 1))
    (hr_end : bktr_get_relocation rb (v + n) = some r2)
    (hv0 : e0.virt_offset ≤ v) (hcross1 : v < e1.virt_offset) (hcross2 : e1.virt_offset < v + n)
    (hend : v + n ≤ e2.virt_offset) (hn64 : v + n < 2 ^ 64)
    (hp : p = v - e0.virt_offset + e0.phys_offset) (hw : w = e1.virt_offset - v)
    (hp16 : p % 16 = 0)
    (hk : bktr_get_subsection sb p = some k)
    (hk2 : bktr_get_subsection sb (p + w) = some k2)
    (heasy : k2 = k ∨ (p + w = (sb.entries.getD k2 default).offset ∧ k2 = k + 1))
    (hfile : ctx.offset + p + w ≤ ctx.file.length)
    (hbasefile : e1.phys_offset + (n - w) ≤ base.length) (hq64 : e1.phys_offset < 2 ^ 64) :
    ∃ res, seek_then_read (fuel + 3) ctx v buffer n = .ok res ∧ res.ret = n
      ∧ buffer_bytes res.buffer 0 w
          = aes_ctr_crypt ctx.aes
              (nca_update_bktr_ctr ctx.ctr (sb.entries.getD k default).ctr_val (p + ctx.offset))
              (fread ctx.file (ctx.offset + p) w)
      ∧ buffer_bytes res.buffer w (n - w) = fread base e1.phys_offset (n - w) := by
  have hg0 : rb.entries.getD r default = e0 := getD_of_get? _ _ _ he0
  have hg1 : rb.entries.getD (r + 1) default = e1 := getD_of_get? _ _ _ he1
  -- the seek to v
  obtain ⟨ctx1, hseek1, hs1, hv1, hb1, -, hf1, ha1, ho1, hc1, -⟩ :=
    fseek_virtual ctx rb sb base v r hs hr
  have hbk : ctx1.bktr_ctx.bktr_seek = p := by
    rw [hb1 (by rw [hg0]; exact hpatch), hg0, sub64_of_le hv0 (by omega), u64_of_lt (by omega), hp]
  have hwsub : sub64 e1.virt_offset ctx1.bktr_ctx.virtual_seek = w := by
    rw [hv1, sub64_of_le (by omega) (by omega), hw]
  have hvw : u64 (ctx1.bktr_ctx.virtual_seek + w) = e1.virt_offset := by
    rw [hv1, u64_of_lt (by omega)]; omega
  -- the first span, from the patch
  have hpos : and_not (u64 (ctx1.offset + ctx1.bktr_ctx.bktr_seek)) 0xF = ctx.offset + p := by
    rw [ho1, hbk, u64_of_lt (by omega), and_not_0xF _ (by omega)]; omega
  obtain ⟨res1, hres1, hret1, hbuf1, hsr1⟩ :=
    virtual_patch_span (nca_section_fread (fuel + 1)) ctx1 rb sb base buffer 0 w r (r + 1) k k2 e1
      hs1 (by rw [hv1]; exact hr) he1 (by rw [hvw]) (by rw [hg0]; exact hpatch)
      (by rw [hvw]; exact hr_mid) (by rw [hbk]; exact hk)
      (by rw [hbk, u64_of_lt (by omega)]; exact hk2)
      (by rw [hbk, u64_of_lt (by omega)]; exact heasy)
      (by rw [hbk, and_0xF, hp16]; rfl)
      (by rw [hpos, hf1]; exact fread_length _ _ _ hfile)
  rw [hpos, hf1, ha1, hc1, hbk, ho1] at hbuf1
  -- the seek to the boundary
  obtain ⟨ctx5, hseek5, hs5, hv5, -, hq5, -⟩ :=
    fseek_virtual res1.ctx rb sb base e1.virt_offset (r + 1) hsr1 hr_mid
  have hbs : ctx5.bktr_ctx.base_seek = e1.phys_offset := by
    rw [hq5 (by rw [hg1]; exact hbase), hg1, sub64_of_le (le_refl _) (by omega),
      Nat.sub_self, Nat.zero_add, u64_of_lt hq64]
  have hnw : sub64 n w = n - w := sub64_of_le (by omega) (by omega)
  have hvn : u64 (ctx5.bktr_ctx.virtual_seek + (n - w)) = v + n := by
    rw [hv5, u64_of_lt (by omega)]; omega
  -- the second span, from the base
  obtain ⟨res2, hres2, hret2, hbuf2, hsr2⟩ :=
    virtual_base_span (nca_section_fread (fuel + 1)) ctx5 rb sb base res1.buffer (0 + w) (n - w)
      (r + 1) r2 e2 hs5 (by rw [hv5]; exact hr_mid) he2 (by rw [hvn]; exact hend)
      (by rw [hg1]; exact hbase) (by rw [hvn]; exact hr_end)
      (by rw [hbs]; exact fread_length _ _ _ hbasefile)
  rw [hbs] at hbuf2
  -- the seek that ends the read
  obtain ⟨ctx7, hseek7, -⟩ := fseek_virtual res2.ctx rb sb base (v + n) r2 hsr2 hr_end
  have hfinal : seek_then_read (fuel + 3) ctx v buffer n = .ok ⟨n, res2.buffer, ctx7⟩ := by
    unfold seek_then_read
    rw [hseek1]
    show nca_section_fread (fuel + 3) ctx1 buffer 0 n = _
    rw [nca_section_fread_of_virtual _ _ _ _ _ _ _ _ hs1,
      virtual_split_unfold _ ctx1 rb buffer 0 n r e1 hs1.reloc (by rw [hv1]; exact hr) he1
        (by rw [hv1, u64_of_lt hn64]; omega),
      hwsub, nca_section_fread_of_virtual _ _ _ _ _ _ _ _ hs1, hres1]
    simp only [hret1, ne_eq, not_true_eq_false, if_false, hvw, hseek5, hnw]
    rw [nca_section_fread_of_virtual _ _ _ _ _ _ _ _ hs5, hres2]
    have hsum : u64 (w + res2.ret) = n := by
      rw [hret2, u64_of_lt (by omega)]; omega
    simp only [hsum, ne_eq, not_true_eq_false, if_false, seek_and_return, hv1,
      u64_of_lt hn64, hseek7]
  refine ⟨_, hfinal, rfl, ?_, ?_⟩
  · simp only [hbuf2, hbuf1]
    apply list_eq_of_getD
    · rw [buffer_bytes_length, aes_ctr_crypt_length, fread_length _ _ _ hfile]
    · intro i hi
      rw [buffer_bytes_length] at hi
      rw [buffer_bytes_getD _ _ _ _ hi, memcpy_outside _ _ _ _ (Or.inl (by omega)),
        memcpy_inside _ _ _ _ (by omega)
          (by rw [aes_ctr_crypt_length, fread_length _ _ _ hfile]; omega)]
      simp
  · simp only [hbuf2]
    apply list_eq_of_getD
    · rw [buffer_bytes_length, fread_length _ _ _ hbasefile]
    · intro i hi
      rw [buffer_bytes_length] at hi
      rw [buffer_bytes_getD _ _ _ _ hi, memcpy_inside _ _ _ _ (by omega)
          (by rw [fread_length _ _ _ hbasefile]; omega)]
      simp


theorem example_bktr_virtual_state :
    bktr_virtual_state (example_bktr_ctx (base_file_t.romfs example_base) 0)
      example_relocation_block example_subsection_block example_base := by
  constructor <;>
    simp [example_bktr_ctx, nca_process_section, nca_process_section_type, example_header]

/-- The scenario 4 of the specification, relocation table `[(0,0,patch),
(0x1000,0x2000,base)]`, seek to 0xF00 and read of 0x200 bytes: 0x100 bytes from the patch at
physical 0xF00, then 0x100 bytes from the base at physical 0x2000. -/
theorem bktr_virtual_read_splits_witness :
    ∃ res, seek_then_read 3 (example_bktr_ctx (base_file_t.romfs example_base) 0) 0xF00
          (fun _ => 0xCC) 0x200 = .ok res ∧ res.ret = 0x200
      ∧ buffer_bytes res.buffer 0 0x100
          = aes_ctr_crypt (example_bktr_ctx (base_file_t.romfs example_base) 0).aes
              (nca_update_bktr_ctr (example_bktr_ctx (base_file_t.romfs example_base) 0).ctr
                (example_subsection_block.entries.getD 2 default).ctr_val
                (0xF00 + (example_bktr_ctx (base_file_t.romfs example_base) 0).offset))
              (fread (example_bktr_ctx (base_file_t.romfs example_base) 0).file
                ((example_bktr_ctx (base_file_t.romfs example_base) 0).offset + 0xF00) 0x100)
      ∧ buffer_bytes res.buffer 0x100 (0x200 - 0x100) = fread example_base 0x2000 (0x200 - 0x100) :=
  bktr_virtual_read_splits 0 (example_bktr_ctx (base_file_t.romfs example_base) 0)
    example_relocation_block example_subsection_block example_base (fun _ => 0xCC)
    0xF00 0x200 0xF00 0x100 0 1 2 2 ⟨0, 0, 1⟩ ⟨0x1000, 0x2000, 0⟩ ⟨0x3000, 0, 0⟩
    example_bktr_virtual_state (by decide!) (by decide!)
    (by decide) rfl (by decide) rfl rfl rfl (by decide) (by decide)
    (by decide) (by decide) (by decide) (by decide) (by decide)
    (by decide) (by decide) (by decide)
    (by decide) (by decide) (Or.inl rfl)
    (by decide!) (by decide!) (by decide)

/-! ## C4: a patch read across subsection boundaries -/

theorem stuck_h0 : bktr_get_subsection example_subsection_block 0x80 = some 0 := by decide

theorem stuck_h1 :
    bktr_get_subsection example_subsection_block (u64 (0x80 + 0x180)) = some 2 := by
  decide

theorem stuck_h2 :
    sub64 (example_subsection_block.entries[2]?.getD default).offset 128 = 384 := by
  decide

theorem stuck_h3 :
    bktr_get_subsection example_subsection_block (u64 (0x80 + 0x200)) = some 2 := by
  decide

theorem stuck_read (fuel : Nat) : ∀ (ctx : nca_section_ctx_t) (buffer : Nat → Nat) (bofs : Nat),
    stuck_ctx ctx → nca_section_fread fuel ctx buffer bofs 0x180 = .error Fault.fuel := by
  induction fuel with
  | zero => intro ctx buffer bofs _; rfl
  | succ f ih =>
    intro ctx buffer bofs h
    rw [nca_section_fread]
    simp only [h.dec, h.crypt, h.sub, h.base, base_file_t.is_null]
    simp [nca_bktr_section_physical_fread, h.dec, h.sub, h.seek, stuck_h0, stuck_h1]
    rw [stuck_h2, ih]
    exact ⟨rfl, h.crypt, h.sub, h.base, h.seek⟩

theorem stuck_read_outer (fuel : Nat) (ctx : nca_section_ctx_t) (buffer : Nat → Nat) (bofs : Nat)
    (h : stuck_ctx ctx) : nca_section_fread fuel ctx buffer bofs 0x200 = .error Fault.fuel := by
  cases fuel with
  | zero => rfl
  | succ f =>
    rw [nca_section_fread]
    simp only [h.dec, h.crypt, h.sub, h.base, base_file_t.is_null]
    simp [nca_bktr_section_physical_fread, h.dec, h.sub, h.seek, stuck_h0, stuck_h3]
    rw [stuck_h2, stuck_read]
    exact ⟨rfl, h.crypt, h.sub, h.base, h.seek⟩

theorem stuck_seek : ∃ ctx1, nca_section_fseek (example_bktr_ctx base_file_t.absent 0) 0x80
    = .ok ctx1 ∧ stuck_ctx ctx1 :=
  ⟨_, nca_section_fseek_bktr_direct _ 0x80 rfl rfl rfl rfl rfl rfl, ⟨rfl, rfl, rfl, rfl, rfl⟩⟩

/-- C4 (the code at the failing input). In the example BKTR section (subsections starting
at 0, 0x100 and 0x200, no base, so reads are patch reads), a read of 0x200 bytes at patch
offset 0x80 straddles the boundary 0x100 (and 0x200): the call never returns, whatever the
depth allowed to the recursion, while the read of 0x80 bytes at 0x80 and the read of 0x180
bytes at 0x100 return 0x80 and 0x180. -/
theorem bktr_read_over_two_boundaries_never_returns :
    (∀ fuel, seek_then_read fuel (example_bktr_ctx base_file_t.absent 0) 0x80 (fun _ => 0xCC) 0x200
      = .error Fault.fuel)
    ∧ ret_of (seek_then_read 4 (example_bktr_ctx base_file_t.absent 0) 0x80 (fun _ => 0xCC) 0x80)
      = some 0x80
    ∧ ret_of (seek_then_read 4 (example_bktr_ctx base_file_t.absent 0) 0x100 (fun _ => 0xCC) 0x180)
      = some 0x180 := by
  refine ⟨?_, by decide!, by decide!⟩
  intro fuel
  obtain ⟨ctx1, hseek, hstuck⟩ := stuck_seek
  rw [seek_then_read, hseek]
  exact stuck_read_outer fuel ctx1 _ _ hstuck

/-! ## C3: virtual reads whose patch span meets a defect of the patch read -/

theorem vstuck_reloc : bktr_get_relocation example_relocation_block 0x80 = some 0 := by decide

theorem vstuck_h1 : bktr_get_subsection example_subsection_block 512 = some 2 := by decide

theorem vstuck_h4 : bktr_get_subsection example_subsection_block 4096 = some 2 := by decide

/-- The fields of a context that decide the path of a virtual read at virtual offset 0x80 of
the example section over the raw base: the state of a virtual read, with the two cursors at
0x80. -/
theorem vstuck_read (fuel : Nat) : ∀ (ctx : nca_section_ctx_t) (buffer : Nat → Nat) (bofs : Nat),
    bktr_virtual_state ctx example_relocation_block example_subsection_block example_base →
    ctx.bktr_ctx.virtual_seek = 0x80 → ctx.bktr_ctx.bktr_seek = 0x80 →
    nca_section_fread fuel ctx buffer bofs 0x180 = .error Fault.fuel := by
  induction fuel with
  | zero => intro ctx buffer bofs _ _ _; rfl
  | succ f ih =>
    intro ctx buffer bofs hs hv hb
    rw [nca_section_fread_of_virtual _ _ _ _ _ _ _ _ hs]
    unfold nca_section_fread_virtual
    simp only [hs.reloc, hv, vstuck_reloc]
    simp [example_relocation_block, u64, nca_bktr_section_physical_fread, hs.dec, hs.sub, hb,
      stuck_h0, vstuck_h1]
    rw [stuck_h2, ih]
    · exact ⟨rfl, hs.crypt, hs.type_eq, hs.reloc, hs.sub, hs.base_eq, hs.phys⟩
    · exact hv
    · exact hb

theorem vstuck_span (fuel : Nat) (ctx : nca_section_ctx_t) (buffer : Nat → Nat) (bofs : Nat)
    (hs : bktr_virtual_state ctx example_relocation_block example_subsection_block example_base)
    (hv : ctx.bktr_ctx.virtual_seek = 0x80) (hb : ctx.bktr_ctx.bktr_seek = 0x80) :
    nca_section_fread fuel ctx buffer bofs 0xF80 = .error Fault.fuel := by
  cases fuel with
  | zero => rfl
  | succ f =>
    rw [nca_section_fread_of_virtual _ _ _ _ _ _ _ _ hs]
    unfold nca_section_fread_virtual
    simp only [hs.reloc, hv, vstuck_reloc]
    simp [example_relocation_block, u64, nca_bktr_section_physical_fread, hs.dec, hs.sub, hb,
      stuck_h0, vstuck_h4]
    rw [stuck_h2, vstuck_read]
    · exact ⟨rfl, hs.crypt, hs.type_eq, hs.reloc, hs.sub, hs.base_eq, hs.phys⟩
    · exact hv
    · exact hb

theorem vstuck_outer (fuel : Nat) (ctx : nca_section_ctx_t) (buffer : Nat → Nat) (bofs : Nat)
    (hs : bktr_virtual_state ctx example_relocation_block example_subsection_block example_base)
    (hv : ctx.bktr_ctx.virtual_seek = 0x80) (hb : ctx.bktr_ctx.bktr_seek = 0x80) :
    nca_section_fread fuel ctx buffer bofs 0x1000 = .error Fault.fuel := by
  cases fuel with
  | zero => rfl
  | succ f =>
    rw [nca_section_fread_of_virtual _ _ _ _ _ _ _ _ hs]
    unfold nca_section_fread_virtual
    simp only [hs.reloc, hv, vstuck_reloc]
    simp [example_relocation_block, u64, sub64]
    rw [vstuck_span f ctx buffer bofs hs hv hb]

theorem vstuck_seek :
    ∃ ctx1, nca_section_fseek (example_bktr_ctx (base_file_t.romfs example_base) 0) 0x80
        = .ok ctx1
      ∧ bktr_virtual_state ctx1 example_relocation_block example_subsection_block example_base
      ∧ ctx1.bktr_ctx.virtual_seek = 0x80 ∧ ctx1.bktr_ctx.bktr_seek = 0x80 := by
  have h := fseek_virtual (example_bktr_ctx (base_file_t.romfs example_base) 0)
    example_relocation_block example_subsection_block example_base 0x80 0
    example_bktr_virtual_state vstuck_reloc
  obtain ⟨ctx1, hseek, hs1, hv1, hb1, -⟩ := h
  refine ⟨ctx1, hseek, hs1, hv1, ?_⟩
  rw [hb1 (by decide)]
  decide

theorem virtual_read_of_scenario :
    ret_of (seek_then_read 3 (example_bktr_ctx (base_file_t.romfs example_base) 0) 0xF00
        (fun _ => 0xCC) 0x200) = some 0x200
    ∧ bytes_at (seek_then_read 3 (example_bktr_ctx (base_file_t.romfs example_base) 0) 0xF00
        (fun _ => 0xCC) 0x200) 0x100 0x100 = some (fread example_base 0x2000 0x100) := by
  decide!

theorem virtual_read_inside_block :
    bytes_of (seek_then_read 5 (example_bktr_ctx (base_file_t.romfs example_base) 0) 0xFF8
        (fun _ => 0xCC) 0x10) 0x10
      = some ((bktr_plain_block (example_bktr_ctx (base_file_t.romfs example_base) 0) 3
          0xFF8).drop 8 ++ fread example_base 0x2000 8) := by
  decide!

theorem virtual_read_unaligned_entry :
    ret_of (seek_then_read 5 example_unaligned_bktr_ctx 0x1001 (fun _ => 0xCC) 0x10)
      = some 0x10
    ∧ bytes_at (seek_then_read 5 example_unaligned_bktr_ctx 0x1001 (fun _ => 0xCC) 0x10) 7 9
      = some (fread example_base 0x2000 9)
    ∧ bytes_of (seek_then_read 5 example_unaligned_bktr_ctx 0x1001 (fun _ => 0xCC) 0x10) 7
      = some ((bktr_plain_block example_unaligned_bktr_ctx 3 0x1001).take 7)
    ∧ bytes_of (seek_then_read 5 example_unaligned_bktr_ctx 0x1001 (fun _ => 0xCC) 0x10) 7
      ≠ some (((bktr_plain_block example_unaligned_bktr_ctx 3 0x1001).drop 1).take 7) := by
  decide!

/-- C3 (the code at the failing inputs). The example BKTR section, encrypted, with tables
loaded, the raw base RomFS present and `physical_reads` off; relocation table
`[(0,0,patch), (0x1000,0x2000,base)]`, subsections starting at 0, 0x100 and 0x200.
The read of the specification, 0x200 bytes at 0xF00, returns 0x200 with the patch bytes of
physical 0xF00 followed by the base bytes of physical 0x2000, and so does the read of 0x10
bytes at 0xFF8, which starts inside a block. But the read of 0x1000 bytes at 0x80, whose
range `[0x80, 0x1080)` crosses the `virt_offset` 0x1000 of the next entry, does not return,
whatever the depth allowed to the recursion: the read is split at 0x1000, and its first span,
the patch bytes `[0x80, 0x1000)`, lies over the subsection boundaries 0x100 and 0x200, where
the patch read recurses with unchanged arguments. And with the second entry at 0x1008 in
place of 0x1000, the read of 0x10 bytes at 0x1001 returns 0x10, its last 9 bytes the base
bytes of physical 0x2000, but its first 7 bytes are the patch bytes of physical 0x1000 to
0x1006, taken from the start of the block, not those of physical 0x1001 to 0x1007. -/
theorem bktr_virtual_read_meets_patch_read_defects :
    ret_of (seek_then_read 3 (example_bktr_ctx (base_file_t.romfs example_base) 0) 0xF00
        (fun _ => 0xCC) 0x200) = some 0x200
    ∧ bytes_at (seek_then_read 3 (example_bktr_ctx (base_file_t.romfs example_base) 0) 0xF00
        (fun _ => 0xCC) 0x200) 0x100 0x100 = some (fread example_base 0x2000 0x100)
    ∧ bytes_of (seek_then_read 5 (example_bktr_ctx (base_file_t.romfs example_base) 0) 0xFF8
        (fun _ => 0xCC) 0x10) 0x10
      = some ((bktr_plain_block (example_bktr_ctx (base_file_t.romfs example_base) 0) 3
          0xFF8).drop 8 ++ fread example_base 0x2000 8)
    ∧ bktr_get_relocation example_relocation_block 0x80 = some 0
    ∧ (example_relocation_block.entries.getD 1 default).virt_offset = 0x1000
    ∧ 0x80 < 0x1000 ∧ 0x1000 < 0x80 + 0x1000
    ∧ (∀ fuel, seek_then_read fuel (example_bktr_ctx (base_file_t.romfs example_base) 0) 0x80
        (fun _ => 0xCC) 0x1000 = .error Fault.fuel)
    ∧ ret_of (seek_then_read 5 example_unaligned_bktr_ctx 0x1001 (fun _ => 0xCC) 0x10)
      = some 0x10
    ∧ bytes_at (seek_then_read 5 example_unaligned_bktr_ctx 0x1001 (fun _ => 0xCC) 0x10) 7 9
      = some (fread example_base 0x2000 9)
    ∧ bytes_of (seek_then_read 5 example_unaligned_bktr_ctx 0x1001 (fun _ => 0xCC) 0x10) 7
      = some ((bktr_plain_block example_unaligned_bktr_ctx 3 0x1001).take 7)
    ∧ bytes_of (seek_then_read 5 example_unaligned_bktr_ctx 0x1001 (fun _ => 0xCC) 0x10) 7
      ≠ some (((bktr_plain_block example_unaligned_bktr_ctx 3 0x1001).drop 1).take 7) := by
  refine ⟨virtual_read_of_scenario.1, virtual_read_of_scenario.2, virtual_read_inside_block,
    vstuck_reloc, rfl, by decide, by decide, ?_, virtual_read_unaligned_entry.1,
    virtual_read_unaligned_entry.2.1, virtual_read_unaligned_entry.2.2.1,
    virtual_read_unaligned_entry.2.2.2⟩
  intro fuel
  obtain ⟨ctx1, hseek, hs1, hv1, hb1⟩ := vstuck_seek
  rw [seek_then_read, hseek]
  exact vstuck_outer fuel ctx1 _ _ hs1 hv1 hb1

/-! ## C5: a short patch read inside one block -/

/-- C5 (the code at the failing input). In the example BKTR section read in physical mode
(no base), with `sector_ofs = 0` as the loading of the tables leaves it, a read of 2 bytes
at patch offset 0x11 returns 2, but the bytes are bytes [0, 2) of the decrypted block (taken
at `ctx->sector_ofs`), not bytes [1, 3) (at `block_ofs = p mod 16`). -/
theorem bktr_short_read_copies_from_sector_ofs :
    ret_of (seek_then_read 4 (example_bktr_ctx base_file_t.absent 0) 0x11 (fun _ => 0xCC) 2)
      = some 2
    ∧ bytes_of (seek_then_read 4 (example_bktr_ctx base_file_t.absent 0) 0x11 (fun _ => 0xCC) 2) 2
      = some ((bktr_plain_block (example_bktr_ctx base_file_t.absent 0) 1 0x11).take 2)
    ∧ bytes_of (seek_then_read 4 (example_bktr_ctx base_file_t.absent 0) 0x11 (fun _ => 0xCC) 2) 2
      ≠ some (((bktr_plain_block (example_bktr_ctx base_file_t.absent 0) 1 0x11).drop 1).take 2) := by
  decide!

/-! ## C6: the position and the IV after a CTR seek -/

/-- C6. For an encrypted CTR section set up by `nca_process` (its kind and counter are the
ones `nca_process` computes from the fs-header and the section offset) and a logical offset
`L` with `offset + L` below 2^64: `nca_section_fseek(L)` returns with the file position and
`cur_seek` equal to `offset + L` rounded down to a multiple of 16, `sector_ofs = L mod 16`,
and the IV equal to the 8 bytes of the section counter in big-endian order followed by the
8-byte big-endian value of `(offset + L) >> 4`; the first 8 bytes of the IV are unchanged. -/
theorem ctr_seek_position_and_iv (ctx : nca_section_ctx_t) (L : Nat)
    (hdec : ctx.is_decrypted = false)
    (hcrypt : ctx.header.crypt_type = CRYPT_CTR)
    (htype : ctx.type = nca_process_section_type ctx.header)
    (hctr : ctx.ctr = nca_process_ctr ctx.header.section_ctr ctx.offset)
    (hlen : ctx.header.section_ctr.length = 8)
    (hL : ctx.offset + L < 2 ^ 64) :
    ∃ ctx1, nca_section_fseek ctx L = .ok ctx1
      ∧ ctx1.file_pos = (ctx.offset + L) / 16 * 16
      ∧ ctx1.cur_seek = (ctx.offset + L) / 16 * 16
      ∧ ctx1.sector_ofs = L % 16
      ∧ ctx1.ctr = ctx.header.section_ctr.reverse ++ be_bytes 8 ((ctx.offset + L) >>> 4)
      ∧ ctx1.ctr.take 8 = ctx.ctr.take 8 := by
  have hty : ctx.type ≠ nca_section_type.BKTR := by
    rw [htype]; exact section_type_of_ctr _ hcrypt
  have hlen16 : ctx.ctr.length = 16 := by
    rw [hctr, nca_process_ctr_eq _ _ hlen]; simp [be_bytes, hlen]
  have hrev : ctx.ctr.take 8 = ctx.header.section_ctr.reverse := by
    rw [hctr, nca_process_ctr_eq _ _ hlen]; simp [hlen]
  refine ⟨_, nca_section_fseek_ctr ctx L hdec hcrypt hty, ?_⟩
  simp only [nca_update_ctr_eq _ _ hlen16, u64_of_lt hL, and_not_0xF _ hL, and_0xF, hrev]
  simp [hlen]

/-- Witness for C6: the section at offset 0x1000 with counter high 0xDEADBEEF, sought to
logical offset 0x17, is at file offset 0x1010 with IV DEADBEEF00000000 0000000000000101. -/
theorem ctr_seek_position_and_iv_witness :
    ∃ ctx1, nca_section_fseek example_ctr_ctx 0x17 = .ok ctx1
      ∧ ctx1.file_pos = 0x1010 ∧ ctx1.cur_seek = 0x1010 ∧ ctx1.sector_ofs = 7
      ∧ ctx1.ctr = [0xDE, 0xAD, 0xBE, 0xEF, 0, 0, 0, 0, 0, 0, 0, 0, 0, 0, 0x01, 0x01]
      ∧ ctx1.ctr.take 8 = example_ctr_ctx.ctr.take 8 :=
  ctr_seek_position_and_iv example_ctr_ctx 0x17 rfl rfl rfl rfl rfl (by decide)

/-! ## C7: the BKTR counter -/

/-- C7 (counterexample). With a zero counter, `ctr_val = 0x01020304` and `ofs = 0`, it is not
the case that bytes 8..11 of the result are `ctr_val` in big-endian order and bytes 0..7 are
unchanged (the code stores `ctr_val` in bytes 4..7). -/
theorem bktr_ctr_val_not_in_offset_half :
    ¬ (((nca_update_bktr_ctr (List.replicate 16 0) 0x01020304 0).drop 8).take 4
          = be_bytes 4 0x01020304
        ∧ (nca_update_bktr_ctr (List.replicate 16 0) 0x01020304 0).take 8
          = (List.replicate 16 0).take 8) := by
  decide

/-- C7 (amended). For every 16-byte counter, 32-bit `ctr_val` and 64-bit `ofs`,
`nca_update_bktr_ctr` leaves bytes 0..3 unchanged, stores `ctr_val` in big-endian order in
bytes 4..7 (the low half of the section-counter half) and the big-endian 8-byte value of
`ofs >> 4` in bytes 8..15. -/
theorem nca_update_bktr_ctr_layout (ctr : List Nat) (ctr_val ofs : Nat)
    (hctr : ctr.length = 16) (hval : ctr_val < 2 ^ 32) (hofs : ofs < 2 ^ 64) :
    nca_update_bktr_ctr ctr ctr_val ofs
      = ctr.take 4 ++ be_bytes 4 ctr_val ++ be_bytes 8 (ofs >>> 4) := by
  rw [nca_update_bktr_ctr_eq ctr ctr_val ofs hctr, u32_of_lt hval, u64_of_lt hofs]

/-- Witness for C7 (amended): the counter DEADBEEF00000000 0000000000000000 updated with
`ctr_val = 0x01020304` and `ofs = 0x1017`. -/
theorem nca_update_bktr_ctr_layout_witness :
    nca_update_bktr_ctr [0xDE, 0xAD, 0xBE, 0xEF, 0, 0, 0, 0, 0, 0, 0, 0, 0, 0, 0, 0]
        0x01020304 0x1017
      = [0xDE, 0xAD, 0xBE, 0xEF, 1, 2, 3, 4, 0, 0, 0, 0, 0, 0, 0x01, 0x01] :=
  nca_update_bktr_ctr_layout [0xDE, 0xAD, 0xBE, 0xEF, 0, 0, 0, 0, 0, 0, 0, 0, 0, 0, 0, 0]
    0x01020304 0x1017 (by rfl) (by decide) (by decide)

/-! ## C8: seeking in a BKTR section -/

/-- C8 (the code at the failing input). In the example BKTR section with
`physical_reads = 1`, `nca_section_fseek(0x1800)` sets `virtual_seek = 0x1800` but consults
the relocation table, whether the base is absent or present: it stores 0x2800 in
`base_seek` and leaves `bktr_seek` at 0. Only with the base absent and `physical_reads = 0`
does it set `bktr_seek = 0x1800`. -/
theorem bktr_seek_with_physical_reads_consults_relocation :
    (nca_section_fseek (example_bktr_ctx base_file_t.absent 1) 0x1800).toOption.map
        (fun c => (c.bktr_ctx.virtual_seek, c.bktr_ctx.bktr_seek, c.bktr_ctx.base_seek))
      = some (0x1800, 0, 0x2800)
    ∧ (nca_section_fseek (example_bktr_ctx (base_file_t.romfs example_base) 1) 0x1800).toOption.map
        (fun c => (c.bktr_ctx.virtual_seek, c.bktr_ctx.bktr_seek, c.bktr_ctx.base_seek))
      = some (0x1800, 0, 0x2800)
    ∧ (nca_section_fseek (example_bktr_ctx base_file_t.absent 0) 0x1800).toOption.map
        (fun c => (c.bktr_ctx.virtual_seek, c.bktr_ctx.bktr_seek, c.bktr_ctx.base_seek))
      = some (0x1800, 0x1800, 0) := by
  decide!

/-! ## C9: the return value of an XTS read -/

/-- C9 (the code at the failing input). In the example XTS section every read succeeds, yet
a sector-aligned read of 0x400 bytes returns 0x200, and reads of 0x10 bytes inside one
sector (at 0 and at 0x1F0) return 0x200; the count is returned when the read ends in a
partly read sector (0x410 bytes at 0). -/
theorem xts_read_returns_last_fread_count :
    ret_of (seek_then_read 4 example_xts_ctx 0 (fun _ => 0xCC) 0x400) = some 0x200
    ∧ ret_of (seek_then_read 4 example_xts_ctx 0 (fun _ => 0xCC) 0x10) = some 0x200
    ∧ ret_of (seek_then_read 4 example_xts_ctx 0x1F0 (fun _ => 0xCC) 0x10) = some 0x200
    ∧ ret_of (seek_then_read 4 example_xts_ctx 0 (fun _ => 0xCC) 0x410) = some 0x410 := by
  decide!

/-! ## The hash-table loop -/

theorem buffer_bytes_memcpy_self (buffer : Nat → Nat) (d : List Nat) :
    buffer_bytes (memcpy buffer 0 d) 0 d.length = d := by
  apply list_eq_of_getD
  · rw [buffer_bytes_length]
  · intro i hi
    rw [buffer_bytes_length] at hi
    rw [buffer_bytes_getD _ _ _ _ hi, memcpy_inside _ _ _ _ (by omega) (by omega)]
    simp

theorem buffer_bytes_memcpy_len (buffer : Nat → Nat) (d : List Nat) (n : Nat)
    (h : d.length = n) : buffer_bytes (memcpy buffer 0 d) 0 n = d := by
  rw [← h]; exact buffer_bytes_memcpy_self buffer d

theorem buffer_bytes_memcpy_padded (buffer : Nat → Nat) (d : List Nat) (bs : Nat)
    (h : d.length ≤ bs) :
    buffer_bytes (memcpy (memcpy buffer 0 (List.replicate bs 0)) 0 d) 0 bs
      = d ++ List.replicate (bs - d.length) 0 := by
  apply list_eq_of_getD
  · rw [buffer_bytes_length]; simp; omega
  · intro i hi
    rw [buffer_bytes_length] at hi
    rw [buffer_bytes_getD _ _ _ _ hi]
    by_cases hc : i < d.length
    · rw [memcpy_inside _ _ _ _ (by omega) (by omega)]
      simp [List.getD_eq_getElem?_getD, List.getElem?_append_left hc]
    · rw [memcpy_outside _ _ _ _ (Or.inr (by omega)),
        memcpy_inside _ _ _ _ (by omega) (by simp; omega)]
      simp [List.getD_eq_getElem?_getD, List.getElem?_append_right (Nat.le_of_not_lt hc)]

theorem hash_table_loop_done {σ : Type} (sha256 : List Nat → List Nat)
    (seek_read : σ → Nat → (Nat → Nat) → Nat → Except Fault (Nat × (Nat → Nat) × σ))
    (hash_table : Nat → Nat) (data_ofs data_len block_size full_block : Nat)
    (fuel : Nat) (s : σ) (block : Nat → Nat) (ofs read_size entry : Nat)
    (h : ¬ ofs < data_len) :
    hash_table_loop sha256 seek_read hash_table data_ofs data_len block_size full_block
      (fuel + 1) s block ofs read_size entry = .ok (validity_t.VALIDITY_VALID, s) := by
  rw [hash_table_loop]
  simp [h]

theorem lt_ceil_div_iff (L bs i : Nat) (hbs : 0 < bs) :
    i < (L + bs - 1) / bs ↔ i * bs < L := by
  rw [Nat.lt_iff_add_one_le, Nat.le_div_iff_mul_le hbs, Nat.add_mul, Nat.one_mul]
  omega

theorem hash_block_input_full (data : List Nat) (bs full i : Nat)
    (h : (i + 1) * bs ≤ data.length) :
    hash_block_input data bs full i = (data.drop (i * bs)).take bs := by
  have hl : ((data.drop (i * bs)).take bs).length = bs := by
    rw [List.length_take, List.length_drop]
    have : (i + 1) * bs = i * bs + bs := by ring
    omega
  unfold hash_block_input
  simp only [hl, Nat.sub_self, List.replicate_zero, List.append_nil, ite_self]

theorem hash_block_input_short (data : List Nat) (bs full i : Nat)
    (h1 : i * bs < data.length) (h2 : data.length < i * bs + bs) :
    hash_block_input data bs full i
      = if full ≠ 0 then
          (data.drop (i * bs)).take (data.length - i * bs)
            ++ List.replicate (bs - (data.length - i * bs)) 0
        else (data.drop (i * bs)).take (data.length - i * bs) := by
  have ht : (data.drop (i * bs)).take bs = (data.drop (i * bs)).take (data.length - i * bs) := by
    rw [List.take_of_length_le (by rw [List.length_drop]; omega),
      List.take_of_length_le (by rw [List.length_drop])]
  have hl : ((data.drop (i * bs)).take (data.length - i * bs)).length = data.length - i * bs := by
    rw [List.length_take, List.length_drop]; omega
  unfold hash_block_input
  simp only [ht, hl]

theorem hash_table_loop_step {σ : Type} (sha256 : List Nat → List Nat)
    (seek_read : σ → Nat → (Nat → Nat) → Nat → Except Fault (Nat × (Nat → Nat) × σ))
    (hash_table : Nat → Nat) (data_ofs data_len block_size full_block : Nat)
    (fuel : Nat) (s s1 : σ) (block block1 block2 : Nat → Nat) (ofs read_size read_size1 entry : Nat)
    (hlt : ofs < data_len)
    (hb : block1 = if u64 (ofs + read_size) > data_len
      then memcpy block 0 (List.replicate read_size 0) else block)
    (hr : read_size1 = if u64 (ofs + read_size) > data_len then sub64 data_len ofs else read_size)
    (hread : seek_read s (u64 (ofs + data_ofs)) block1 read_size1 = .ok (read_size1, block2, s1)) :
    hash_table_loop sha256 seek_read hash_table data_ofs data_len block_size full_block
        (fuel + 1) s block ofs read_size entry
      = if sha256 (buffer_bytes block2 0 (if full_block ≠ 0 then block_size else read_size1))
            ≠ buffer_bytes hash_table entry 0x20 then
          .ok (validity_t.VALIDITY_INVALID, s1)
        else
          hash_table_loop sha256 seek_read hash_table data_ofs data_len block_size full_block
            fuel s1 block2 (u64 (ofs + read_size1)) read_size1 (entry + 0x20) := by
  rw [hash_table_loop]
  simp only [hlt, if_true, ← hb, ← hr, hread, ne_eq, not_true_eq_false, if_false]

theorem hash_table_loop_spec {σ : Type} (sha256 : List Nat → List Nat)
    (seek_read : σ → Nat → (Nat → Nat) → Nat → Except Fault (Nat × (Nat → Nat) × σ))
    (hash_table : Nat → Nat) (data_ofs block_size full_block : Nat) (data : List Nat)
    (Inv : σ → Prop) (hbs : 0 < block_size)
    (hbig : data_ofs + data.length + block_size < 2 ^ 64)
    (hread : ∀ s block ofs n, Inv s → ofs + n ≤ data.length →
      ∃ s1, Inv s1 ∧ seek_read s (ofs + data_ofs) block n
        = .ok (n, memcpy block 0 ((data.drop ofs).take n), s1)) :
    ∀ k i fuel s block, Inv s → (data.length + block_size - 1) / block_size - i = k → k < fuel →
      ∃ v s1, hash_table_loop sha256 seek_read hash_table data_ofs data.length block_size
          full_block fuel s block (i * block_size) block_size (0x20 * i) = .ok (v, s1)
        ∧ Inv s1
        ∧ (v = validity_t.VALIDITY_VALID ∨ v = validity_t.VALIDITY_INVALID)
        ∧ (v = validity_t.VALIDITY_VALID ↔
            ∀ j, i ≤ j → j < (data.length + block_size - 1) / block_size →
              buffer_bytes hash_table (0x20 * j) 0x20
                = sha256 (hash_block_input data block_size full_block j)) := by
  intro k
  induction k with
  | zero =>
    intro i fuel s block hinv hk hfuel
    obtain ⟨f, rfl⟩ : ∃ f, fuel = f + 1 := ⟨fuel - 1, by omega⟩
    have hge : ¬ i * block_size < data.length := by
      rw [← lt_ceil_div_iff _ _ _ hbs]; omega
    refine ⟨_, _, hash_table_loop_done _ _ _ _ _ _ _ _ _ _ _ _ _ hge, hinv, Or.inl rfl, ?_⟩
    constructor
    · intro _ j hij hj
      omega
    · intro _; rfl
  | succ k ih =>
    intro i fuel s block hinv hk hfuel
    obtain ⟨f, rfl⟩ : ∃ f, fuel = f + 1 := ⟨fuel - 1, by omega⟩
    have hi : i < (data.length + block_size - 1) / block_size := by omega
    have hlt : i * block_size < data.length := (lt_ceil_div_iff _ _ _ hbs).mp hi
    have hu1 : u64 (i * block_size + block_size) = i * block_size + block_size :=
      u64_of_lt (by omega)
    have hu2 : u64 (i * block_size + data_ofs) = i * block_size + data_ofs :=
      u64_of_lt (by omega)
    by_cases hshort : data.length < i * block_size + block_size
    · -- the last, short block
      have hsub : sub64 data.length (i * block_size) = data.length - i * block_size :=
        sub64_of_le (by omega) (by omega)
      obtain ⟨s1, hinv1, hrd⟩ := hread s (memcpy block 0 (List.replicate block_size 0))
        (i * block_size) (data.length - i * block_size) hinv (by omega)
      have hstep := hash_table_loop_step sha256 seek_read hash_table data_ofs data.length
        block_size full_block f s s1 block (memcpy block 0 (List.replicate block_size 0))
        _ (i * block_size) block_size (data.length - i * block_size) (0x20 * i) hlt
        (by rw [hu1, if_pos hshort]) (by rw [hu1, if_pos hshort, hsub]) (by rw [hu2]; exact hrd)
      have hl : ((data.drop (i * block_size)).take (data.length - i * block_size)).length
          = data.length - i * block_size := by
        rw [List.length_take, List.length_drop]; omega
      have hhash : buffer_bytes (memcpy (memcpy block 0 (List.replicate block_size 0)) 0
            ((data.drop (i * block_size)).take (data.length - i * block_size))) 0
            (if full_block ≠ 0 then block_size else data.length - i * block_size)
          = hash_block_input data block_size full_block i := by
        rw [hash_block_input_short _ _ _ _ hlt hshort]
        by_cases hfull : full_block ≠ 0
        · rw [if_pos hfull, if_pos hfull, buffer_bytes_memcpy_padded _ _ _ (by rw [hl]; omega), hl]
        · rw [if_neg hfull, if_neg hfull]
          rw [buffer_bytes_memcpy_len _ _ _ hl]
      rw [hhash] at hstep
      have hnext : u64 (i * block_size + (data.length - i * block_size)) = data.length := by
        rw [u64_of_lt (by omega)]; omega
      rw [hnext] at hstep
      obtain ⟨f1, rfl⟩ : ∃ f1, f = f1 + 1 := ⟨f - 1, by omega⟩
      rw [hash_table_loop_done _ _ _ _ _ _ _ _ _ _ _ _ _ (lt_irrefl _)] at hstep
      by_cases hm : sha256 (hash_block_input data block_size full_block i)
          = buffer_bytes hash_table (0x20 * i) 0x20
      · rw [if_neg (not_not.mpr hm)] at hstep
        refine ⟨_, _, hstep, hinv1, Or.inl rfl, ?_⟩
        constructor
        · intro _ j hij hj
          have hjlt := (lt_ceil_div_iff _ _ _ hbs).mp hj
          have hji : j = i := by
            by_contra hne
            have h1 : i + 1 ≤ j := by omega
            have h2 : (i + 1) * block_size ≤ j * block_size := Nat.mul_le_mul_right _ h1
            have h3 : (i + 1) * block_size = i * block_size + block_size := by ring
            omega
          rw [hji]; exact hm.symm
        · intro _; rfl
      · rw [if_pos hm] at hstep
        refine ⟨_, _, hstep, hinv1, Or.inr rfl, ?_⟩
        constructor
        · intro h; cases h
        · intro h
          exact absurd (h i (le_refl _) hi).symm hm
    · -- a full block
      obtain ⟨s1, hinv1, hrd⟩ := hread s block (i * block_size) block_size hinv (by omega)
      have hstep := hash_table_loop_step sha256 seek_read hash_table data_ofs data.length
        block_size full_block f s s1 block block
        _ (i * block_size) block_size block_size (0x20 * i) hlt
        (by rw [hu1, if_neg hshort]) (by rw [hu1, if_neg hshort]) (by rw [hu2]; exact hrd)
      have hl : ((data.drop (i * block_size)).take block_size).length = block_size := by
        rw [List.length_take, List.length_drop]; omega
      have hhash : buffer_bytes (memcpy block 0 ((data.drop (i * block_size)).take block_size)) 0
            (if full_block ≠ 0 then block_size else block_size)
          = hash_block_input data block_size full_block i := by
        rw [hash_block_input_full _ _ _ _ (by
          have : (i + 1) * block_size = i * block_size + block_size := by ring
          omega), ite_self]
        rw [buffer_bytes_memcpy_len _ _ _ hl]
      rw [hhash] at hstep
      have hnext : u64 (i * block_size + block_size) = (i + 1) * block_size := by
        rw [hu1]; ring
      have hent : 0x20 * i + 0x20 = 0x20 * (i + 1) := by ring
      rw [hnext, hent] at hstep
      obtain ⟨v, s2, hrec, hinv2, hv, hiff⟩ := ih (i + 1) f s1
        (memcpy block 0 ((data.drop (i * block_size)).take block_size)) hinv1 (by omega) (by omega)
      by_cases hm : sha256 (hash_block_input data block_size full_block i)
          = buffer_bytes hash_table (0x20 * i) 0x20
      · rw [if_neg (not_not.mpr hm), hrec] at hstep
        refine ⟨_, _, hstep, hinv2, hv, ?_⟩
        rw [hiff]
        constructor
        · intro h j hij hj
          by_cases hji : j = i
          · rw [hji]; exact hm.symm
          · exact h j (by omega) hj
        · intro h j hij hj
          exact h j (by omega) hj
      · rw [if_pos hm] at hstep
        refine ⟨_, _, hstep, hinv1, Or.inr rfl, ?_⟩
        constructor
        · intro h; cases h
        · intro h
          exact absurd (h i (le_refl _) hi).symm hm

/-! ## C10: the hash-table check -/

theorem fread_drop_take (file : List Nat) (pos len ofs n : Nat) (h : ofs + n ≤ len) :
    ((fread file pos len).drop ofs).take n = fread file (ofs + pos) n := by
  unfold fread
  rw [List.drop_take, List.take_take, List.drop_drop, Nat.min_eq_left (by omega), Nat.add_comm]

theorem file_seek_read_contract (f_in : List Nat) (data_ofs data_len : Nat)
    (hfile : data_ofs + data_len ≤ f_in.length) :
    ∀ (s : List Nat) (block : Nat → Nat) (ofs n : Nat), s = f_in →
      ofs + n ≤ (fread f_in data_ofs data_len).length →
      ∃ s1, s1 = f_in ∧ file_seek_read s (ofs + data_ofs) block n
        = .ok (n, memcpy block 0 (((fread f_in data_ofs data_len).drop ofs).take n), s1) := by
  intro s block ofs n hs hn
  rw [fread_length _ _ _ hfile] at hn
  subst hs
  refine ⟨s, rfl, ?_⟩
  unfold file_seek_read
  rw [fread_drop_take _ _ _ _ _ hn, fread_length _ _ _ (by omega)]

theorem plain_section_seek_read (rfuel : Nat) (c : nca_section_ctx_t) (x : Nat)
    (block : Nat → Nat) (n : Nat) (hdec : c.is_decrypted = true)
    (hty : c.type ≠ nca_section_type.BKTR) :
    section_seek_read (rfuel + 1) c x block n
      = .ok ((fread c.file (u64 (c.offset + x)) n).length,
          memcpy block 0 (fread c.file (u64 (c.offset + x)) n),
          { c with
            file_pos := u64 (c.offset + x) + (fread c.file (u64 (c.offset + x)) n).length
            cur_seek := u64 (c.offset + x) }) := by
  unfold section_seek_read
  simp only [nca_section_fseek, hdec, if_true]
  rw [nca_section_fread]
  simp only [hdec, hty, ne_eq, not_false_eq_true, and_self, if_true]

theorem plain_seek_read_contract (rfuel : Nat) (file : List Nat) (offset data_ofs data_len : Nat)
    (hfile : offset + data_ofs + data_len ≤ file.length) (hsmall : file.length < 2 ^ 64) :
    ∀ (c : nca_section_ctx_t) (block : Nat → Nat) (ofs n : Nat), plain_state file offset c →
      ofs + n ≤ (fread file (offset + data_ofs) data_len).length →
      ∃ c1, plain_state file offset c1 ∧ section_seek_read (rfuel + 1) c (ofs + data_ofs) block n
        = .ok (n, memcpy block 0 (((fread file (offset + data_ofs) data_len).drop ofs).take n), c1) := by
  intro c block ofs n hc hn
  rw [fread_length _ _ _ (by omega)] at hn
  obtain ⟨hdec, hty, hf, ho⟩ := hc
  have hu : u64 (offset + (ofs + data_ofs)) = ofs + (offset + data_ofs) := by
    rw [u64_of_lt (by omega)]; omega
  rw [plain_section_seek_read _ _ _ _ _ hdec hty, hf, ho, hu,
    fread_drop_take _ _ _ _ _ hn, fread_length _ _ _ (by omega)]
  refine ⟨_, ?_, rfl⟩
  exact ⟨hdec, hty, rfl, rfl⟩

/-- C10. For `block_size > 0` (and `data_ofs + data_len + block_size` below 2^64, enough
rounds allowed to the loop), with the reads succeeding, that is, the section reader
delivering from every state it reaches the bytes `data` of the data range:
`nca_section_check_external_hash_table` returns VALID or INVALID, and VALID if and only if
for every block index `i < ceil(data_len / block_size)` the 32-byte table slot `i` equals
the SHA-256 of block `i` of the data range, a short last block being hashed zero-padded to
`block_size` bytes when `full_block` is set and as the bytes read otherwise; an empty data
range is VALID. The same holds of `check_memory_hash_table` for the bytes
`[data_ofs, data_ofs + data_len)` of its file. -/
theorem hash_table_check_valid_iff (sha256 : List Nat → List Nat) (fuel rfuel : Nat)
    (block : Nat → Nat) (ctx : nca_section_ctx_t) (f_in : List Nat) (hash_table : Nat → Nat)
    (data_ofs data_len block_size full_block : Nat) (data : List Nat)
    (Inv : nca_section_ctx_t → Prop)
    (hbs : 0 < block_size)
    (hbig : data_ofs + data_len + block_size < 2 ^ 64)
    (hfuel : (data_len + block_size - 1) / block_size < fuel)
    (hdata : data.length = data_len)
    (hinv : Inv ctx)
    (hread : ∀ c blk ofs n, Inv c → ofs + n ≤ data.length →
      ∃ c1, Inv c1 ∧ section_seek_read rfuel c (ofs + data_ofs) blk n
        = .ok (n, memcpy blk 0 ((data.drop ofs).take n), c1))
    (hfile : data_ofs + data_len ≤ f_in.length) :
    (∃ v c1, nca_section_check_external_hash_table sha256 fuel rfuel block ctx hash_table
          data_ofs data_len block_size full_block = .ok (v, c1)
        ∧ (v = validity_t.VALIDITY_VALID ∨ v = validity_t.VALIDITY_INVALID)
        ∧ (v = validity_t.VALIDITY_VALID
            ↔ hash_table_matches sha256 hash_table data block_size full_block)
        ∧ (data_len = 0 → v = validity_t.VALIDITY_VALID))
    ∧ (∃ v, check_memory_hash_table sha256 fuel block f_in hash_table
          data_ofs data_len block_size full_block = .ok (v, f_in)
        ∧ (v = validity_t.VALIDITY_VALID ∨ v = validity_t.VALIDITY_INVALID)
        ∧ (v = validity_t.VALIDITY_VALID
            ↔ hash_table_matches sha256 hash_table (fread f_in data_ofs data_len) block_size
                full_block)
        ∧ (data_len = 0 → v = validity_t.VALIDITY_VALID)) := by
  have hbs0 : block_size ≠ 0 := by omega
  constructor
  · subst hdata
    obtain ⟨v, c1, hrun, -, hv, hiff⟩ :=
      hash_table_loop_spec sha256 (section_seek_read rfuel) hash_table data_ofs block_size
        full_block data Inv hbs hbig hread _ 0 fuel ctx block hinv rfl
        (by rw [Nat.sub_zero]; exact hfuel)
    rw [Nat.zero_mul, Nat.mul_zero] at hrun
    refine ⟨v, c1, ?_, hv, ?_, ?_⟩
    · unfold nca_section_check_external_hash_table
      rw [if_neg hbs0]
      exact hrun
    · rw [hiff]
      unfold hash_table_matches
      constructor
      · intro h i hi; exact h i (Nat.zero_le _) hi
      · intro h j _ hj; exact h j hj
    · intro h0
      rw [hiff]
      intro j _ hj
      rw [lt_ceil_div_iff _ _ _ hbs, h0] at hj
      omega
  · have hl : (fread f_in data_ofs data_len).length = data_len := fread_length _ _ _ hfile
    obtain ⟨v, s1, hrun, hs1, hv, hiff⟩ :=
      hash_table_loop_spec sha256 file_seek_read hash_table data_ofs block_size
        full_block (fread f_in data_ofs data_len) (fun s => s = f_in) hbs (by rw [hl]; exact hbig)
        (file_seek_read_contract f_in data_ofs data_len hfile) _ 0 fuel f_in block rfl rfl
        (by rw [hl, Nat.sub_zero]; exact hfuel)
    rw [Nat.zero_mul, Nat.mul_zero, hl] at hrun
    subst hs1
    refine ⟨v, ?_, hv, ?_, ?_⟩
    · unfold check_memory_hash_table
      rw [if_neg hbs0]
      exact hrun
    · rw [hiff]
      unfold hash_table_matches
      constructor
      · intro h i hi; exact h i (Nat.zero_le _) hi
      · intro h j _ hj; exact h j hj
    · intro h0
      rw [hiff]
      intro j _ hj
      rw [lt_ceil_div_iff _ _ _ hbs, hl, h0] at hj
      omega


theorem example_plain_ctx_state :
    plain_state (example_file 0x1200) 0x1000 example_plain_ctx := by
  simp [plain_state, example_plain_ctx, nca_process_section, nca_process_section_type,
    example_header, media_to_real, u64]

/-- Witness for C10: the range `[0x10, 0x60)` of the example plain section (file range
`[0x1010, 0x1060)`), block size 0x20 (two full blocks and a short one), `full_block` set,
checked against the table of the digests of its blocks. -/
theorem hash_table_check_valid_iff_witness :
    (∃ v c1, nca_section_check_external_hash_table example_sha 4 1 (fun _ => 0xCC)
          example_plain_ctx example_hash_table 0x10 0x50 0x20 1 = .ok (v, c1)
        ∧ (v = validity_t.VALIDITY_VALID ∨ v = validity_t.VALIDITY_INVALID)
        ∧ (v = validity_t.VALIDITY_VALID
            ↔ hash_table_matches example_sha example_hash_table
                (fread (example_file 0x1200) (0x1000 + 0x10) 0x50) 0x20 1)
        ∧ ((0x50 : Nat) = 0 → v = validity_t.VALIDITY_VALID))
    ∧ (∃ v, check_memory_hash_table example_sha 4 (fun _ => 0xCC) (example_file 0x1200)
          example_hash_table 0x10 0x50 0x20 1 = .ok (v, example_file 0x1200)
        ∧ (v = validity_t.VALIDITY_VALID ∨ v = validity_t.VALIDITY_INVALID)
        ∧ (v = validity_t.VALIDITY_VALID
            ↔ hash_table_matches example_sha example_hash_table
                (fread (example_file 0x1200) 0x10 0x50) 0x20 1)
        ∧ ((0x50 : Nat) = 0 → v = validity_t.VALIDITY_VALID)) :=
  hash_table_check_valid_iff example_sha 4 1 (fun _ => 0xCC) example_plain_ctx
    (example_file 0x1200) example_hash_table 0x10 0x50 0x20 1
    (fread (example_file 0x1200) (0x1000 + 0x10) 0x50)
    (plain_state (example_file 0x1200) 0x1000)
    (by decide) (by decide) (by decide) (by decide!)
    example_plain_ctx_state
    (plain_seek_read_contract 0 (example_file 0x1200) 0x1000 0x10 0x50 (by decide!) (by decide!))
    (by decide!)

/-! ## C11: a block size of zero -/

/-- C11. Each of the four hash-table checks (`nca_section_check_external_hash_table`,
`nca_section_check_hash_table`, `check_memory_hash_table`, `check_file_hash_table`) called
with `block_size = 0` returns INVALID, whatever the other arguments are (a `data_len` of 0
included), and leaves the reader as it was. No seek or read is issued: the result is the
same with no round allowed to the loop (`fuel = 0`) and no step allowed to a section read
(`rfuel = 0`), under which any read would not return. -/
theorem zero_block_size_is_invalid (sha256 : List Nat → List Nat) (fuel rfuel : Nat)
    (block table : Nat → Nat) (ctx : nca_section_ctx_t) (f_in : List Nat)
    (hash_table : Nat → Nat) (hash_ofs data_ofs data_len full_block : Nat) :
    nca_section_check_external_hash_table sha256 fuel rfuel block ctx hash_table
        data_ofs data_len 0 full_block = .ok (validity_t.VALIDITY_INVALID, ctx)
    ∧ nca_section_check_hash_table sha256 fuel rfuel block table ctx
        hash_ofs data_ofs data_len 0 full_block = .ok (validity_t.VALIDITY_INVALID, ctx)
    ∧ check_memory_hash_table sha256 fuel block f_in hash_table
        data_ofs data_len 0 full_block = .ok (validity_t.VALIDITY_INVALID, f_in)
    ∧ check_file_hash_table sha256 fuel block table f_in
        hash_ofs data_ofs data_len 0 full_block = .ok (validity_t.VALIDITY_INVALID, f_in) :=
  ⟨rfl, rfl, rfl, rfl⟩

/-! ## C12: the level pass of a RomFS and of a BKTR section -/

theorem external_check_of_image (sha256 : List Nat → List Nat) (fuel rfuel : Nat)
    (block : Nat → Nat) (c : nca_section_ctx_t) (hash_table : Nat → Nat)
    (data_ofs data_len block_size full_block : Nat) (Inv : nca_section_ctx_t → Prop)
    (img : List Nat) (himg : reads_image rfuel Inv img) (hinv : Inv c)
    (hbs : 0 < block_size) (hin : data_ofs + data_len ≤ img.length)
    (hbig : img.length + block_size < 2 ^ 64)
    (hfuel : (data_len + block_size - 1) / block_size < fuel) :
    ∃ v c1, nca_section_check_external_hash_table sha256 fuel rfuel block c hash_table
        data_ofs data_len block_size full_block = .ok (v, c1)
      ∧ Inv c1
      ∧ is_check_of v (hash_table_matches sha256 hash_table (fread img data_ofs data_len)
          block_size full_block) := by
  have hbs0 : block_size ≠ 0 := by omega
  have hl : (fread img data_ofs data_len).length = data_len := fread_length _ _ _ hin
  obtain ⟨v, c1, hrun, hinv1, hv, hiff⟩ :=
    hash_table_loop_spec sha256 (section_seek_read rfuel) hash_table data_ofs block_size
      full_block (fread img data_ofs data_len) Inv hbs (by rw [hl]; omega)
      (by
        intro s blk ofs n hs hn
        rw [hl] at hn
        obtain ⟨s1, hs1, hrd⟩ := himg s blk (ofs + data_ofs) n hs (by omega)
        exact ⟨s1, hs1, by rw [hrd, fread_drop_take _ _ _ _ _ hn]⟩)
      _ 0 fuel c block hinv rfl (by rw [hl, Nat.sub_zero]; exact hfuel)
  rw [Nat.zero_mul, Nat.mul_zero, hl] at hrun
  refine ⟨v, c1, ?_, hinv1, hv, ?_⟩
  · unfold nca_section_check_external_hash_table
    rw [if_neg hbs0]
    exact hrun
  · rw [hiff]
    unfold hash_table_matches
    constructor
    · intro h i hi; exact h i (Nat.zero_le _) hi
    · intro h j _ hj; exact h j hj

theorem table_check_of_image (sha256 : List Nat → List Nat) (fuel rfuel : Nat)
    (block table : Nat → Nat) (c : nca_section_ctx_t)
    (hash_ofs data_ofs data_len block_size full_block : Nat) (Inv : nca_section_ctx_t → Prop)
    (img : List Nat) (himg : reads_image rfuel Inv img) (hinv : Inv c)
    (hbs : 0 < block_size) (hin : data_ofs + data_len ≤ img.length)
    (htab : hash_ofs + hash_table_size data_len block_size ≤ img.length)
    (hbig : img.length + block_size < 2 ^ 64)
    (hfuel : (data_len + block_size - 1) / block_size < fuel) :
    ∃ v c1, nca_section_check_hash_table sha256 fuel rfuel block table c
        hash_ofs data_ofs data_len block_size full_block = .ok (v, c1)
      ∧ Inv c1
      ∧ is_check_of v (hash_table_matches sha256
          (memcpy table 0 (fread img hash_ofs (hash_table_size data_len block_size)))
          (fread img data_ofs data_len) block_size full_block) := by
  have hbs0 : block_size ≠ 0 := by omega
  obtain ⟨c1, hinv1, hrd⟩ := himg c table hash_ofs (hash_table_size data_len block_size)
    hinv htab
  unfold nca_section_check_hash_table
  rw [if_neg hbs0, hrd]
  simp only [ne_eq, not_true_eq_false, if_false]
  exact external_check_of_image sha256 fuel rfuel block c1 _ data_ofs data_len block_size
    full_block Inv img himg hinv1 hbs hin hbig hfuel

theorem plain_reads_image (rfuel : Nat) (file : List Nat) (offset : Nat)
    (hsmall : file.length < 2 ^ 64) (hofs : offset ≤ file.length) :
    reads_image (rfuel + 1) (plain_state file offset) (file.drop offset) := by
  intro c blk ofs n hc hn
  rw [List.length_drop] at hn
  obtain ⟨hdec, hty, hf, ho⟩ := hc
  have hu : u64 (offset + ofs) = offset + ofs := u64_of_lt (by omega)
  have hfr : fread file (offset + ofs) n = fread (file.drop offset) ofs n := by
    unfold fread
    rw [List.drop_drop, Nat.add_comm]
  rw [plain_section_seek_read _ _ _ _ _ hdec hty, hf, ho, hu, hfr,
    fread_length _ _ _ (by rw [List.length_drop]; omega)]
  refine ⟨_, ?_, rfl⟩
  exact ⟨hdec, hty, rfl, rfl⟩

theorem shifted_eq_iff (z : List Nat) (n : Nat) (hn : n + 1 = z.length) :
    z.take n = (z.drop 1).take n ↔ ∀ i, i < n → z.getD i 0 = z.getD (i + 1) 0 := by
  constructor
  · intro h i hi
    have h1 := congrArg (fun l => l.getD i 0) h
    simp only [List.getD_eq_getElem?_getD, List.getElem?_take, hi, if_true,
      List.getElem?_drop] at h1
    simp only [List.getD_eq_getElem?_getD]
    rw [h1, Nat.add_comm]
  · intro h
    apply list_eq_of_getD
    · simp; omega
    · intro i hi
      have hi1 : i < n := by
        rw [List.length_take] at hi; omega
      have h2 := h i hi1
      simp only [List.getD_eq_getElem?_getD] at h2
      simp only [List.getD_eq_getElem?_getD, List.getElem?_take, hi1, if_true,
        List.getElem?_drop]
      rw [h2, Nat.add_comm]

theorem all_zero_iff (z : List Nat) (n : Nat) (hn : n + 1 = z.length) :
    (z.getD 0 0 = 0 ∧ z.take n = (z.drop 1).take n) ↔ ∀ i, i < n + 1 → z.getD i 0 = 0 := by
  rw [shifted_eq_iff z n hn]
  constructor
  · rintro ⟨h0, h⟩ i
    induction i with
    | zero => intro _; exact h0
    | succ k ih =>
      intro hk
      rw [← h k (by omega)]
      exact ih (by omega)
  · intro h
    refine ⟨h 0 (by omega), ?_⟩
    intro i hi
    rw [h i (by omega), h (i + 1) (by omega)]

theorem header_0x340_getD (h : List Nat) (i : Nat) (hi : i < 0xC0) :
    (header_0x340 h).getD i 0 = h.getD (0x340 + i) 0 :=
  fread_getD h 0x340 0xC0 i hi

theorem is_plaintext_header_iff (h : List Nat) (hl : h.length = 0xC00) :
    is_plaintext_header h = true
      ↔ header_magic h = MAGIC_NCA3 ∧ ∀ i, 0x340 ≤ i → i < 0x400 → h.getD i 0 = 0 := by
  have hlen : (header_0x340 h).length = 0xC0 := fread_length h 0x340 0xC0 (by omega)
  unfold is_plaintext_header
  simp only [Bool.and_eq_true, decide_eq_true_eq]
  rw [all_zero_iff (header_0x340 h) 0xBF (by rw [hlen])]
  constructor
  · rintro ⟨hm, hz⟩
    refine ⟨hm, ?_⟩
    intro i h1 h2
    have := hz (i - 0x340) (by omega)
    rw [header_0x340_getD _ _ (by omega)] at this
    have e : 0x340 + (i - 0x340) = i := by omega
    rw [e] at this
    exact this
  · rintro ⟨hm, hz⟩
    refine ⟨hm, ?_⟩
    intro i hi
    rw [header_0x340_getD _ _ (by omega)]
    exact hz _ (by omega) (by omega)

theorem take_append_exact (a b : List Nat) (n : Nat) (h : a.length = n) :
    (a ++ b).take n = a := by
  subst h; simp

theorem nca_decrypt_header_plain (prim : aes_primitive_t) (ctx : nca_ctx_t)
    (hfile : 0xC00 ≤ ctx.file.length)
    (hp : is_plaintext_header (fread ctx.file 0 0xC00) = true) :
    nca_decrypt_header prim ctx
      = (1, { ctx with header := fread ctx.file 0 0xC00, is_decrypted := true }) := by
  have hl : (fread ctx.file 0 0xC00).length = 0xC00 := fread_length _ _ _ (by omega)
  unfold nca_decrypt_header
  simp only [hl, take_append_exact _ (List.drop 0xC00 ctx.header) 0xC00 hl, ne_eq, not_true_eq_false, if_false, hp, if_true]

theorem nca_decrypt_header_encrypted (prim : aes_primitive_t) (ctx : nca_ctx_t)
    (hfile : 0xC00 ≤ ctx.file.length)
    (hp : is_plaintext_header (fread ctx.file 0 0xC00) = false) :
    nca_decrypt_header prim ctx
      = (if header_magic (aes_xts_decrypt
            (aes_ctx_of prim
              (new_aes_ctx ctx.tool_ctx.settings.keyset.header_key 32 aes_mode_t.AES_MODE_XTS))
            (fread ctx.file 0 0xC00) 0 0x200) = MAGIC_NCA3 then 1 else 0,
          { ctx with
            header := aes_xts_decrypt
              (aes_ctx_of prim
                (new_aes_ctx ctx.tool_ctx.settings.keyset.header_key 32
                  aes_mode_t.AES_MODE_XTS))
              (fread ctx.file 0 0xC00) 0 0x200
            is_decrypted := false }) := by
  have hl : (fread ctx.file 0 0xC00).length = 0xC00 := fread_length _ _ _ (by omega)
  unfold nca_decrypt_header
  simp only [hl, take_append_exact _ (List.drop 0xC00 ctx.header) 0xC00 hl, ne_eq, not_true_eq_false, if_false, hp,
    Bool.false_eq_true]

theorem is_plaintext_read_iff (file : List Nat) (hfile : 0xC00 ≤ file.length) :
    is_plaintext_header (fread file 0 0xC00) = true
      ↔ (fread file 0x200 4 = MAGIC_NCA3
        ∧ ∀ i, 0x340 ≤ i → i < 0x400 → file.getD i 0 = 0) := by
  have hl : (fread file 0 0xC00).length = 0xC00 := fread_length _ _ _ (by omega)
  have hmagic : header_magic (fread file 0 0xC00) = fread file 0x200 4 :=
    fread_drop_take file 0 0xC00 0x200 4 (by omega)
  have hbyte : ∀ i, i < 0xC00 → (fread file 0 0xC00).getD i 0 = file.getD i 0 := by
    intro i hi
    rw [fread_getD _ _ _ _ hi, Nat.zero_add]
  have hiff := is_plaintext_header_iff (fread file 0 0xC00) hl
  rw [hmagic] at hiff
  rw [hiff]
  constructor
  · rintro ⟨hm, h⟩
    exact ⟨hm, fun i h1 h2 => by rw [← hbyte i (by omega)]; exact h i h1 h2⟩
  · rintro ⟨hm, h⟩
    exact ⟨hm, fun i h1 h2 => by rw [hbyte i (by omega)]; exact h i h1 h2⟩

/-- C13. For every header of 0xC00 bytes read from the file: `nca_decrypt_header` marks the
NCA as decrypted, returns success and leaves the header bytes as read if and only if the
four bytes at 0x200 are "NCA3" and all 0xC0 bytes in `[0x340, 0x400)` are zero; and the
test the code makes on the padding, "byte 0x340 is zero and the 0xBF bytes from 0x340
equal the 0xBF bytes from 0x341", holds exactly when all 0xC0 bytes are zero. -/
theorem plaintext_header_iff (prim : aes_primitive_t) (ctx : nca_ctx_t)
    (hfile : 0xC00 ≤ ctx.file.length) :
    (((nca_decrypt_header prim ctx).2.is_decrypted = true
        ∧ (nca_decrypt_header prim ctx).1 = 1
        ∧ (nca_decrypt_header prim ctx).2.header = fread ctx.file 0 0xC00)
      ↔ (fread ctx.file 0x200 4 = MAGIC_NCA3
        ∧ ∀ i, 0x340 ≤ i → i < 0x400 → ctx.file.getD i 0 = 0))
    ∧ (((header_0x340 (fread ctx.file 0 0xC00)).getD 0 0 = 0
        ∧ (header_0x340 (fread ctx.file 0 0xC00)).take 0xBF
          = ((header_0x340 (fread ctx.file 0 0xC00)).drop 1).take 0xBF)
      ↔ ∀ i, 0x340 ≤ i → i < 0x400 → ctx.file.getD i 0 = 0) := by
  have hl : (fread ctx.file 0 0xC00).length = 0xC00 := fread_length _ _ _ (by omega)
  have hmagic : header_magic (fread ctx.file 0 0xC00) = fread ctx.file 0x200 4 :=
    fread_drop_take ctx.file 0 0xC00 0x200 4 (by omega)
  have hbyte : ∀ i, i < 0xC00 → (fread ctx.file 0 0xC00).getD i 0 = ctx.file.getD i 0 := by
    intro i hi
    rw [fread_getD _ _ _ _ hi, Nat.zero_add]
  have hzero : (∀ i, 0x340 ≤ i → i < 0x400 → (fread ctx.file 0 0xC00).getD i 0 = 0)
      ↔ ∀ i, 0x340 ≤ i → i < 0x400 → ctx.file.getD i 0 = 0 := by
    constructor
    · intro h i h1 h2; rw [← hbyte i (by omega)]; exact h i h1 h2
    · intro h i h1 h2; rw [hbyte i (by omega)]; exact h i h1 h2
  have hiff := is_plaintext_header_iff (fread ctx.file 0 0xC00) hl
  rw [hmagic, hzero] at hiff
  constructor
  · cases hp : is_plaintext_header (fread ctx.file 0 0xC00)
    · rw [nca_decrypt_header_encrypted prim ctx hfile hp]
      constructor
      · rintro ⟨h, -⟩
        exact absurd h (by simp)
      · intro h
        rw [hiff.mpr h] at hp
        exact absurd hp (by simp)
    · rw [nca_decrypt_header_plain prim ctx hfile hp]
      constructor
      · intro _
        exact hiff.mp hp
      · intro _
        exact ⟨rfl, rfl, rfl⟩
  · have hlen : (header_0x340 (fread ctx.file 0 0xC00)).length = 0xC0 :=
      fread_length _ 0x340 0xC0 (by omega)
    rw [all_zero_iff _ 0xBF (by rw [hlen]), ← hzero]
    constructor
    · intro hz i h1 h2
      have := hz (i - 0x340) (by omega)
      rw [header_0x340_getD _ _ (by omega)] at this
      have e : 0x340 + (i - 0x340) = i := by omega
      rw [e] at this
      exact this
    · intro hz i hi
      rw [header_0x340_getD _ _ (by omega)]
      exact hz _ (by omega) (by omega)

/-- Witness for C13: the example file with a plaintext header. -/
theorem plaintext_header_iff_witness :
    (((nca_decrypt_header example_prim
          (nca_init (example_nca_file 0) (example_tool_ctx false false))).2.is_decrypted = true
        ∧ (nca_decrypt_header example_prim
          (nca_init (example_nca_file 0) (example_tool_ctx false false))).1 = 1
        ∧ (nca_decrypt_header example_prim
          (nca_init (example_nca_file 0) (example_tool_ctx false false))).2.header
            = fread (nca_init (example_nca_file 0) (example_tool_ctx false false)).file 0 0xC00)
      ↔ (fread (nca_init (example_nca_file 0) (example_tool_ctx false false)).file 0x200 4
          = MAGIC_NCA3
        ∧ ∀ i, 0x340 ≤ i → i < 0x400 →
            (nca_init (example_nca_file 0) (example_tool_ctx false false)).file.getD i 0 = 0))
    ∧ (((header_0x340 (fread (nca_init (example_nca_file 0)
            (example_tool_ctx false false)).file 0 0xC00)).getD 0 0 = 0
        ∧ (header_0x340 (fread (nca_init (example_nca_file 0)
            (example_tool_ctx false false)).file 0 0xC00)).take 0xBF
          = ((header_0x340 (fread (nca_init (example_nca_file 0)
            (example_tool_ctx false false)).file 0 0xC00)).drop 1).take 0xBF)
      ↔ ∀ i, 0x340 ≤ i → i < 0x400 →
          (nca_init (example_nca_file 0) (example_tool_ctx false false)).file.getD i 0 = 0) :=
  plaintext_header_iff example_prim (nca_init (example_nca_file 0) (example_tool_ctx false false))
    (by decide!)

/-- C14. When the 0xC00 bytes read are not a plaintext header, `nca_decrypt_header` leaves
in the header their AES-XTS decryption under the header key (a 32-byte XTS context), sector
index 0, sector size 0x200, marks the NCA as not decrypted, and succeeds if and only if the
decrypted magic is "NCA3"; and when it fails `nca_process` returns at once: the context it
leaves differs from the one it was given in the header bytes and the decrypted flag only
(no section context is marked present, no signature or hash validity is recorded), and
nothing is printed to stdout or saved. -/
theorem encrypted_header_decrypt (prim : aes_primitive_t) (layout : List Nat → nca_header_t)
    (rsa : List Nat → List Nat → List Nat → Bool) (stack : Nat → Nat)
    (rest : nca_ctx_t → Except Fault nca_run_t) (ctx : nca_ctx_t)
    (hfile : 0xC00 ≤ ctx.file.length)
    (hp : ¬ (fread ctx.file 0x200 4 = MAGIC_NCA3
      ∧ ∀ i, 0x340 ≤ i → i < 0x400 → ctx.file.getD i 0 = 0)) :
    (nca_decrypt_header prim ctx).2
        = { ctx with
            header := aes_xts_decrypt
              (aes_ctx_of prim
                (new_aes_ctx ctx.tool_ctx.settings.keyset.header_key 32
                  aes_mode_t.AES_MODE_XTS))
              (fread ctx.file 0 0xC00) 0 0x200
            is_decrypted := false }
    ∧ ((nca_decrypt_header prim ctx).1 = 1
        ↔ header_magic (nca_decrypt_header prim ctx).2.header = MAGIC_NCA3)
    ∧ ((nca_decrypt_header prim ctx).1 = 0
        ↔ header_magic (nca_decrypt_header prim ctx).2.header ≠ MAGIC_NCA3)
    ∧ (header_magic (nca_decrypt_header prim ctx).2.header ≠ MAGIC_NCA3 →
        nca_process prim layout rsa stack rest ctx
          = .ok { ctx := { ctx with
                    header := aes_xts_decrypt
                      (aes_ctx_of prim
                        (new_aes_ctx ctx.tool_ctx.settings.keyset.header_key 32
                          aes_mode_t.AES_MODE_XTS))
                      (fread ctx.file 0 0xC00) 0 0x200
                    is_decrypted := false }
                  stdout := []
                  saved := [] }) := by
  have hpf : is_plaintext_header (fread ctx.file 0 0xC00) = false := by
    cases h : is_plaintext_header (fread ctx.file 0 0xC00)
    · rfl
    · exact absurd ((is_plaintext_read_iff ctx.file hfile).mp h) hp
  have hrun := nca_decrypt_header_encrypted prim ctx hfile hpf
  unfold nca_process
  rw [hrun]
  refine ⟨rfl, ?_, ?_, ?_⟩
  · by_cases hm : header_magic (aes_xts_decrypt
        (aes_ctx_of prim
          (new_aes_ctx ctx.tool_ctx.settings.keyset.header_key 32 aes_mode_t.AES_MODE_XTS))
        (fread ctx.file 0 0xC00) 0 0x200) = MAGIC_NCA3
    · simp [hm]
    · simp [hm]
  · by_cases hm : header_magic (aes_xts_decrypt
        (aes_ctx_of prim
          (new_aes_ctx ctx.tool_ctx.settings.keyset.header_key 32 aes_mode_t.AES_MODE_XTS))
        (fread ctx.file 0 0xC00) 0 0x200) = MAGIC_NCA3
    · simp [hm]
    · simp [hm]
  · intro hm
    simp only [] at hm
    simp [hm]

/-- Witness for C14: a file whose first 0xC00 bytes are not a plaintext header. -/
theorem encrypted_header_decrypt_witness :
    (nca_decrypt_header example_prim
        (nca_init (example_file 0x1200) (example_tool_ctx false false))).2
        = { nca_init (example_file 0x1200) (example_tool_ctx false false) with
            header := aes_xts_decrypt
              (aes_ctx_of example_prim
                (new_aes_ctx (nca_init (example_file 0x1200)
                  (example_tool_ctx false false)).tool_ctx.settings.keyset.header_key 32
                  aes_mode_t.AES_MODE_XTS))
              (fread (nca_init (example_file 0x1200) (example_tool_ctx false false)).file
                0 0xC00) 0 0x200
            is_decrypted := false }
    ∧ ((nca_decrypt_header example_prim
          (nca_init (example_file 0x1200) (example_tool_ctx false false))).1 = 1
        ↔ header_magic (nca_decrypt_header example_prim
          (nca_init (example_file 0x1200) (example_tool_ctx false false))).2.header
            = MAGIC_NCA3)
    ∧ ((nca_decrypt_header example_prim
          (nca_init (example_file 0x1200) (example_tool_ctx false false))).1 = 0
        ↔ header_magic (nca_decrypt_header example_prim
          (nca_init (example_file 0x1200) (example_tool_ctx false false))).2.header
            ≠ MAGIC_NCA3)
    ∧ (header_magic (nca_decrypt_header example_prim
          (nca_init (example_file 0x1200) (example_tool_ctx false false))).2.header
            ≠ MAGIC_NCA3 →
        nca_process example_prim example_layout example_rsa (fun _ => 0xAA)
            (fun c => .ok { ctx := c, stdout := [1], saved := [] })
            (nca_init (example_file 0x1200) (example_tool_ctx false false))
          = .ok { ctx := { nca_init (example_file 0x1200) (example_tool_ctx false false) with
                    header := aes_xts_decrypt
                      (aes_ctx_of example_prim
                        (new_aes_ctx (nca_init (example_file 0x1200)
                          (example_tool_ctx false false)).tool_ctx.settings.keyset.header_key 32
                          aes_mode_t.AES_MODE_XTS))
                      (fread (nca_init (example_file 0x1200)
                        (example_tool_ctx false false)).file 0 0xC00) 0 0x200
                    is_decrypted := false }
                  stdout := []
                  saved := [] }) :=
  encrypted_header_decrypt example_prim example_layout example_rsa (fun _ => 0xAA)
    (fun c => .ok { ctx := c, stdout := [1], saved := [] })
    (nca_init (example_file 0x1200) (example_tool_ctx false false))
    (by decide!) (fun h => absurd h.1 (by decide!))

/-! ## C15, C16: the generation and the key area -/

theorem nca_decrypt_header_frame (prim : aes_primitive_t) (ctx : nca_ctx_t) :
    (nca_decrypt_header prim ctx).2.has_rights_id = ctx.has_rights_id
    ∧ (nca_decrypt_header prim ctx).2.tool_ctx = ctx.tool_ctx
    ∧ (nca_decrypt_header prim ctx).2.decrypted_keys = ctx.decrypted_keys
    ∧ (nca_decrypt_header prim ctx).2.section_aes = ctx.section_aes
    ∧ (nca_decrypt_header prim ctx).2.section_contexts = ctx.section_contexts := by
  unfold nca_decrypt_header
  simp only []
  split_ifs <;> exact ⟨rfl, rfl, rfl, rfl, rfl⟩

theorem nca_process_keys_crypto_type (prim : aes_primitive_t) (layout : List Nat → nca_header_t)
    (ctx : nca_ctx_t) : (nca_process_keys prim layout ctx).crypto_type = ctx.crypto_type := by
  unfold nca_process_keys nca_decrypt_key_area
  split_ifs <;> rfl

theorem nca_process_header_crypto_type (prim : aes_primitive_t)
    (layout : List Nat → nca_header_t) (rsa : List Nat → List Nat → List Nat → Bool)
    (ctx : nca_ctx_t) :
    (nca_process_header prim layout rsa ctx).crypto_type
      = nca_process_crypto_type (layout ctx.header).crypto_type
          (layout ctx.header).crypto_type2 := by
  unfold nca_process_header
  simp only [nca_process_keys_crypto_type]

theorem nca_process_section_step_frame (prim : aes_primitive_t)
    (layout : List Nat → nca_header_t) (stack : Nat → Nat) (ctx : nca_ctx_t) (i : Nat) :
    (nca_process_section_step prim layout stack ctx i).header = ctx.header
    ∧ (nca_process_section_step prim layout stack ctx i).tool_ctx = ctx.tool_ctx
    ∧ (nca_process_section_step prim layout stack ctx i).has_rights_id = ctx.has_rights_id
    ∧ (nca_process_section_step prim layout stack ctx i).decrypted_keys = ctx.decrypted_keys
    ∧ (nca_process_section_step prim layout stack ctx i).crypto_type = ctx.crypto_type := by
  unfold nca_process_section_step
  split_ifs <;> exact ⟨rfl, rfl, rfl, rfl, rfl⟩

theorem sections_fold_frame (prim : aes_primitive_t) (layout : List Nat → nca_header_t)
    (stack : Nat → Nat) (l : List Nat) :
    ∀ ctx : nca_ctx_t,
      (l.foldl (fun c i => nca_process_section_step prim layout stack c i) ctx).header
        = ctx.header
      ∧ (l.foldl (fun c i => nca_process_section_step prim layout stack c i) ctx).tool_ctx
        = ctx.tool_ctx
      ∧ (l.foldl (fun c i => nca_process_section_step prim layout stack c i) ctx).has_rights_id
        = ctx.has_rights_id
      ∧ (l.foldl (fun c i => nca_process_section_step prim layout stack c i) ctx).decrypted_keys
        = ctx.decrypted_keys
      ∧ (l.foldl (fun c i => nca_process_section_step prim layout stack c i) ctx).crypto_type
        = ctx.crypto_type := by
  induction l with
  | nil => intro ctx; exact ⟨rfl, rfl, rfl, rfl, rfl⟩
  | cons j t ih =>
    intro ctx
    obtain ⟨h1, h2, h3, h4, h5⟩ := ih (nca_process_section_step prim layout stack ctx j)
    obtain ⟨g1, g2, g3, g4, g5⟩ := nca_process_section_step_frame prim layout stack ctx j
    rw [List.foldl_cons]
    exact ⟨h1.trans g1, h2.trans g2, h3.trans g3, h4.trans g4, h5.trans g5⟩

theorem crypto_type_value (a b : Nat) (ha : a < 0x100) (hb : b < 0x100) :
    nca_process_crypto_type a b = max a b - 1 := by
  unfold nca_process_crypto_type
  simp only []
  split_ifs <;> omega

/-- C15. For every pair of header bytes `crypto_type` and `crypto_type2`, the generation
`nca_process` keeps (and hands on to the key step and the sections) is the larger of the
two minus 1 when that maximum is not zero, and 0 when it is zero: stored revisions 0 and 1
both give generation 0, and the 8-bit decrement never wraps (the result is below 0xFF). -/
theorem master_key_generation (prim : aes_primitive_t) (layout : List Nat → nca_header_t)
    (rsa : List Nat → List Nat → List Nat → Bool) (stack : Nat → Nat) (ctx : nca_ctx_t)
    (h1 : (layout ctx.header).crypto_type < 0x100)
    (h2 : (layout ctx.header).crypto_type2 < 0x100) :
    (max (layout ctx.header).crypto_type (layout ctx.header).crypto_type2 ≠ 0 →
      (nca_process_header prim layout rsa ctx).crypto_type + 1
        = max (layout ctx.header).crypto_type (layout ctx.header).crypto_type2)
    ∧ (max (layout ctx.header).crypto_type (layout ctx.header).crypto_type2 = 0 →
      (nca_process_header prim layout rsa ctx).crypto_type = 0)
    ∧ (max (layout ctx.header).crypto_type (layout ctx.header).crypto_type2 ≤ 1 →
      (nca_process_header prim layout rsa ctx).crypto_type = 0)
    ∧ (nca_process_header prim layout rsa ctx).crypto_type < 0xFF
    ∧ (nca_process_sections prim layout stack
        (nca_process_header prim layout rsa ctx)).crypto_type
      = (nca_process_header prim layout rsa ctx).crypto_type := by
  have hv := crypto_type_value _ _ h1 h2
  rw [nca_process_header_crypto_type, hv]
  refine ⟨?_, ?_, ?_, ?_, ?_⟩
  · intro h; omega
  · intro h; omega
  · intro h; omega
  · have : max (layout ctx.header).crypto_type (layout ctx.header).crypto_type2 < 0x100 :=
      max_lt h1 h2
    omega
  · rw [← hv, ← nca_process_header_crypto_type prim layout rsa ctx]
    exact (sections_fold_frame prim layout stack (List.range 4) _).2.2.2.2

/-- Witness for C15: the example header, with crypto types 2 and 3. -/
theorem master_key_generation_witness :
    (max (example_layout (example_nca_ctx 0 false false).header).crypto_type
        (example_layout (example_nca_ctx 0 false false).header).crypto_type2 ≠ 0 →
      (nca_process_header example_prim example_layout example_rsa
          (example_nca_ctx 0 false false)).crypto_type + 1
        = max (example_layout (example_nca_ctx 0 false false).header).crypto_type
            (example_layout (example_nca_ctx 0 false false).header).crypto_type2)
    ∧ (max (example_layout (example_nca_ctx 0 false false).header).crypto_type
        (example_layout (example_nca_ctx 0 false false).header).crypto_type2 = 0 →
      (nca_process_header example_prim example_layout example_rsa
          (example_nca_ctx 0 false false)).crypto_type = 0)
    ∧ (max (example_layout (example_nca_ctx 0 false false).header).crypto_type
        (example_layout (example_nca_ctx 0 false false).header).crypto_type2 ≤ 1 →
      (nca_process_header example_prim example_layout example_rsa
          (example_nca_ctx 0 false false)).crypto_type = 0)
    ∧ (nca_process_header example_prim example_layout example_rsa
          (example_nca_ctx 0 false false)).crypto_type < 0xFF
    ∧ (nca_process_sections example_prim example_layout (fun _ => 0xAA)
        (nca_process_header example_prim example_layout example_rsa
          (example_nca_ctx 0 false false))).crypto_type
      = (nca_process_header example_prim example_layout example_rsa
          (example_nca_ctx 0 false false)).crypto_type :=
  master_key_generation example_prim example_layout example_rsa (fun _ => 0xAA)
    (example_nca_ctx 0 false false) (by decide!) (by decide!)

theorem ecb_round_trip (prim : aes_primitive_t) (key : List Nat)
    (henclen : ∀ b : List Nat, b.length = 0x10 → (prim.encrypt_block key b).length = 0x10)
    (hdec : ∀ b : List Nat, b.length = 0x10 →
      prim.decrypt_block key (prim.encrypt_block key b) = b) :
    ∀ (n : Nat) (plain : List Nat), plain.length = 0x10 * n →
      ecb_blocks (prim.decrypt_block key) n (ecb_blocks (prim.encrypt_block key) n plain)
        = plain := by
  intro n
  induction n with
  | zero =>
    intro plain hl
    have : plain = [] := List.length_eq_zero.mp (by omega)
    subst this
    rfl
  | succ n ih =>
    intro plain hl
    have ht : (plain.take 0x10).length = 0x10 := by
      rw [List.length_take]; omega
    have hA := henclen (plain.take 0x10) ht
    rw [ecb_blocks, ecb_blocks, take_append_exact _ _ _ hA, List.drop_left' hA,
      hdec _ ht, ih (plain.drop 0x10) (by rw [List.length_drop]; omega),
      List.take_append_drop]

theorem rights_id_all_zero (rights_id : List Nat) (has : Bool)
    (h : ∀ b, b ∈ rights_id.take 0x10 → b = 0) :
    nca_process_rights_id rights_id has = has := by
  unfold nca_process_rights_id
  have : (rights_id.take 0x10).any (fun b => decide (b ≠ 0)) = false := by
    rw [List.any_eq_false]
    intro b hb
    simp [h b hb]
  rw [this]
  rfl

theorem nca_process_header_key_area (prim : aes_primitive_t)
    (layout : List Nat → nca_header_t) (rsa : List Nat → List Nat → List Nat → Bool)
    (ctx : nca_ctx_t) (hinit : ctx.has_rights_id = false)
    (hrid : ∀ b, b ∈ (layout ctx.header).rights_id.take 0x10 → b = 0) :
    (nca_process_header prim layout rsa ctx).decrypted_keys
      = aes_decrypt prim
          (new_aes_ctx
            (ctx.tool_ctx.settings.keyset.key_area_keys
              (nca_process_crypto_type (layout ctx.header).crypto_type
                (layout ctx.header).crypto_type2)
              (layout ctx.header).kaek_ind)
            16 aes_mode_t.AES_MODE_ECB)
          (layout ctx.header).encrypted_keys 0x40 := by
  unfold nca_process_header nca_process_keys nca_decrypt_key_area
  simp only [rights_id_all_zero _ _ hrid, hinit, Bool.not_false, if_true]

/-- C16. The key-area round trip. For every generation and key index the header selects
(`g` the generation `nca_process` computes from the two crypto types, `i` the header's key
index), every 16-byte key `key_area_keys[g][i]` and every four 16-byte plaintext slots
`plain`: if the rights id of the header is all zero and the key area of the header is the
AES-ECB encryption of `plain` under that key, then `nca_process` gets past the header and
hands the rest of its work a context whose `decrypted_keys` are `plain`. AES enters through
its contract: a block is encrypted to a block, and decryption undoes encryption. -/
theorem key_area_round_trip (prim : aes_primitive_t) (layout : List Nat → nca_header_t)
    (rsa : List Nat → List Nat → List Nat → Bool) (stack : Nat → Nat)
    (rest : nca_ctx_t → Except Fault nca_run_t) (ctx : nca_ctx_t) (plain : List Nat)
    (henclen : ∀ key b : List Nat, b.length = 0x10 →
      (prim.encrypt_block key b).length = 0x10)
    (hdec : ∀ key b : List Nat, b.length = 0x10 →
      prim.decrypt_block key (prim.encrypt_block key b) = b)
    (hplain : plain.length = 0x40)
    (hvalid : (nca_decrypt_header prim ctx).1 ≠ 0)
    (hinit : ctx.has_rights_id = false)
    (hrid : ∀ b, b ∈ (layout (nca_decrypt_header prim ctx).2.header).rights_id.take 0x10 →
      b = 0)
    (hkey : (ctx.tool_ctx.settings.keyset.key_area_keys
      (nca_process_crypto_type (layout (nca_decrypt_header prim ctx).2.header).crypto_type
        (layout (nca_decrypt_header prim ctx).2.header).crypto_type2)
      (layout (nca_decrypt_header prim ctx).2.header).kaek_ind).length = 0x10)
    (henc : (layout (nca_decrypt_header prim ctx).2.header).encrypted_keys
      = aes_ecb_encrypt prim
          (ctx.tool_ctx.settings.keyset.key_area_keys
            (nca_process_crypto_type (layout (nca_decrypt_header prim ctx).2.header).crypto_type
              (layout (nca_decrypt_header prim ctx).2.header).crypto_type2)
            (layout (nca_decrypt_header prim ctx).2.header).kaek_ind)
          plain 0x40) :
    ∃ c, nca_process prim layout rsa stack rest ctx = rest c ∧ c.decrypted_keys = plain := by
  obtain ⟨f1, f2, -, -, -⟩ := nca_decrypt_header_frame prim ctx
  refine ⟨_, by unfold nca_process; rw [if_neg hvalid], ?_⟩
  rw [nca_process_sections,
    (sections_fold_frame prim layout stack (List.range 4) _).2.2.2.1,
    nca_process_header_key_area prim layout rsa _ (by rw [f1]; exact hinit) hrid, f2, henc]
  unfold aes_decrypt new_aes_ctx aes_ecb_encrypt
  simp only []
  rw [List.take_of_length_le (Nat.le_of_eq hkey)]
  exact ecb_round_trip prim _ (henclen _) (hdec _) 4 plain (by rw [hplain])

theorem example_prim_block_length (key b : List Nat) (h : b.length = 0x10) :
    (example_prim.encrypt_block key b).length = 0x10 := by
  simp [example_prim, h]

theorem example_prim_round_trip (key b : List Nat) :
    example_prim.decrypt_block key (example_prim.encrypt_block key b) = b := by
  simp [example_prim, List.map_map, Function.comp_def, Nat.xor_cancel_right]

/-- Witness for C16: the example header, whose key area is the encryption of the example
slots under key `[2][1]`. -/
theorem key_area_round_trip_witness :
    ∃ c, nca_process example_prim example_layout example_rsa (fun _ => 0xAA)
        (fun c => .ok { ctx := c, stdout := [], saved := [] })
        (nca_init (example_nca_file 0) (example_tool_ctx false false))
        = .ok { ctx := c, stdout := [], saved := [] }
      ∧ c.decrypted_keys = example_key_slots :=
  key_area_round_trip example_prim example_layout example_rsa (fun _ => 0xAA)
    (fun c => .ok { ctx := c, stdout := [], saved := [] })
    (nca_init (example_nca_file 0) (example_tool_ctx false false)) example_key_slots
    example_prim_block_length (fun key b _ => example_prim_round_trip key b)
    (by decide!) (by decide!) rfl (by decide!) (by decide!) (by decide!)

/-! ## C17: the title key -/

theorem nca_process_keys_with_rights_id (prim : aes_primitive_t)
    (layout : List Nat → nca_header_t) (ctx : nca_ctx_t) (h : ctx.has_rights_id = true)
    (ht : ctx.tool_ctx.settings.has_titlekey = true) :
    (nca_process_keys prim layout ctx).tool_ctx.settings.dec_titlekey
        = aes_ctr_crypt
            (aes_ctx_of prim
              (new_aes_ctx (ctx.tool_ctx.settings.keyset.titlekeks ctx.crypto_type) 16
                aes_mode_t.AES_MODE_CTR))
            prim.iv (ctx.tool_ctx.settings.titlekey.take 0x10)
    ∧ (nca_process_keys prim layout ctx).decrypted_keys = ctx.decrypted_keys := by
  unfold nca_process_keys
  rw [if_neg (by simp [h]), if_pos ht]
  exact ⟨rfl, rfl⟩

/-- C17, the code departs from the claim. On the example header with a rights id that is
not zero and a title key supplied, `nca_process` leaves in `dec_titlekey` what
`aes_decrypt` gives on a context created with `AES_MODE_CTR` (line 400): the title key
combined with the keystream of `titlekeks[generation]` from the IV of a fresh context. That
is not the AES-ECB decryption of the title key under `titlekeks[generation]`, which the key
area path (`nca_decrypt_key_area`, `AES_MODE_ECB`) would give. The key area is not
decrypted, and without a title key `dec_titlekey` stays as it was. -/
theorem titlekey_decrypted_in_ctr_mode :
    (nca_process_header example_prim example_layout example_rsa
        (example_nca_ctx 1 true false)).tool_ctx.settings.dec_titlekey
      = aes_ctr_crypt
          (aes_ctx_of example_prim
            (new_aes_ctx (example_keyset.titlekeks 2) 16 aes_mode_t.AES_MODE_CTR))
          example_prim.iv (example_tool_ctx true false).settings.titlekey
    ∧ (nca_process_header example_prim example_layout example_rsa
        (example_nca_ctx 1 true false)).tool_ctx.settings.dec_titlekey
      ≠ aes_ecb_decrypt example_prim (example_keyset.titlekeks 2)
          (example_tool_ctx true false).settings.titlekey 0x10
    ∧ (nca_process_header example_prim example_layout example_rsa
        (example_nca_ctx 1 true false)).crypto_type = 2
    ∧ (nca_process_header example_prim example_layout example_rsa
        (example_nca_ctx 1 true false)).decrypted_keys
      = (example_nca_ctx 1 true false).decrypted_keys
    ∧ (nca_process_header example_prim example_layout example_rsa
        (example_nca_ctx 1 false false)).tool_ctx.settings.dec_titlekey
      = (example_nca_ctx 1 false false).tool_ctx.settings.dec_titlekey
    ∧ (nca_process_header example_prim example_layout example_rsa
        (example_nca_ctx 1 false false)).decrypted_keys
      = (example_nca_ctx 1 false false).decrypted_keys := by
  decide!

/-! ## C18, C19: the kind of a section -/

/-- C18. The context `nca_process` sets up for a present section has type PFS0 if and only
if the partition type and the fs type of its fs-header are both PFS0, and type ROMFS if and
only if both are RomFS and the crypt type is not BKTR. -/
theorem section_kind_pfs0_romfs (nca_is_decrypted : Bool) (file : List Nat) (i : Nat)
    (entry : nca_section_entry_t) (header : nca_fs_header_t) (aes : aes_ctx_t)
    (base_file : base_file_t) (stack : Nat → Nat) :
    ((nca_process_section nca_is_decrypted file i entry header aes base_file stack).type
        = nca_section_type.PFS0
      ↔ header.partition_type = PARTITION_PFS0 ∧ header.fs_type = FS_TYPE_PFS0)
    ∧ ((nca_process_section nca_is_decrypted file i entry header aes base_file stack).type
        = nca_section_type.ROMFS
      ↔ header.partition_type = PARTITION_ROMFS ∧ header.fs_type = FS_TYPE_ROMFS
        ∧ header.crypt_type ≠ CRYPT_BKTR) := by
  show (nca_process_section_type header = _ ↔ _) ∧ (nca_process_section_type header = _ ↔ _)
  unfold nca_process_section_type
  constructor
  · split_ifs with h1 h2 h3 <;> simp_all
  · split_ifs with h1 h2 h3 <;> simp_all

/-- C19 (as amended). The context `nca_process` sets up for a present section has type BKTR
if and only if the crypt type of its fs-header is BKTR and its partition type and fs type
are both RomFS; and it has type INVALID if and only if none of the PFS0, ROMFS and BKTR
rules applies, that is, the partition type and the fs type are neither both PFS0 nor both
RomFS. -/
theorem section_kind_bktr_invalid (nca_is_decrypted : Bool) (file : List Nat) (i : Nat)
    (entry : nca_section_entry_t) (header : nca_fs_header_t) (aes : aes_ctx_t)
    (base_file : base_file_t) (stack : Nat → Nat) :
    ((nca_process_section nca_is_decrypted file i entry header aes base_file stack).type
        = nca_section_type.BKTR
      ↔ header.partition_type = PARTITION_ROMFS ∧ header.fs_type = FS_TYPE_ROMFS
        ∧ header.crypt_type = CRYPT_BKTR)
    ∧ ((nca_process_section nca_is_decrypted file i entry header aes base_file stack).type
        = nca_section_type.INVALID
      ↔ ¬ (header.partition_type = PARTITION_PFS0 ∧ header.fs_type = FS_TYPE_PFS0)
        ∧ ¬ (header.partition_type = PARTITION_ROMFS ∧ header.fs_type = FS_TYPE_ROMFS)) := by
  show (nca_process_section_type header = _ ↔ _) ∧ (nca_process_section_type header = _ ↔ _)
  unfold nca_process_section_type
  constructor
  · split_ifs with h1 h2 h3 <;> simp_all
  · split_ifs with h1 h2 h3 <;> simp_all

/-- C19, the claim as stated fails: a present section whose fs-header has crypt type BKTR
is not classified BKTR when its partition type and fs type are not both RomFS. With both
PFS0 the section is classified PFS0, and with partition type RomFS and fs type PFS0 it is
classified INVALID. -/
theorem bktr_crypt_type_not_classified_bktr :
    (nca_process_section false (example_file 0x1200) 0 ⟨8, 9⟩
        { partition_type := PARTITION_PFS0, fs_type := FS_TYPE_PFS0, crypt_type := CRYPT_BKTR,
          section_ctr := [0, 0, 0, 0, 0, 0, 0, 0] }
        example_aes base_file_t.absent (fun _ => 0xAA)).type = nca_section_type.PFS0
    ∧ (nca_process_section false (example_file 0x1200) 0 ⟨8, 9⟩
        { partition_type := PARTITION_ROMFS, fs_type := FS_TYPE_PFS0, crypt_type := CRYPT_BKTR,
          section_ctr := [0, 0, 0, 0, 0, 0, 0, 0] }
        example_aes base_file_t.absent (fun _ => 0xAA)).type = nca_section_type.INVALID := by
  constructor <;> rfl

/-! ## C20: the cipher context of a section -/

theorem section_step_other (prim : aes_primitive_t) (layout : List Nat → nca_header_t)
    (stack : Nat → Nat) (ctx : nca_ctx_t) (i j : Nat) (hij : i ≠ j) :
    (nca_process_section_step prim layout stack ctx j).section_aes i = ctx.section_aes i := by
  unfold nca_process_section_step
  split_ifs
  · simp [Function.update, hij]
  · rfl

theorem section_step_self (prim : aes_primitive_t) (layout : List Nat → nca_header_t)
    (stack : Nat → Nat) (ctx : nca_ctx_t) (i : Nat)
    (hm : ((layout ctx.header).section_entries i).media_start_offset ≠ 0) :
    (nca_process_section_step prim layout stack ctx i).section_aes i
      = (nca_process_section_aes ctx ((layout ctx.header).fs_headers i).crypt_type).orElse
          (fun _ => ctx.section_aes i) := by
  unfold nca_process_section_step
  rw [if_pos hm]
  simp only [Function.update, dite_true]
  cases nca_process_section_aes ctx ((layout ctx.header).fs_headers i).crypt_type <;> rfl

theorem sections_fold_other (prim : aes_primitive_t) (layout : List Nat → nca_header_t)
    (stack : Nat → Nat) (i : Nat) (l : List Nat) (hl : i ∉ l) :
    ∀ ctx : nca_ctx_t,
      (l.foldl (fun c j => nca_process_section_step prim layout stack c j) ctx).section_aes i
        = ctx.section_aes i := by
  induction l with
  | nil => intro ctx; rfl
  | cons j t ih =>
    intro ctx
    rw [List.foldl_cons, ih (fun h => hl (List.mem_cons_of_mem _ h)),
      section_step_other _ _ _ _ _ _ (fun h : i = j => hl (by rw [h]; exact List.mem_cons_self _ _))]

theorem section_aes_frame (c1 c : nca_ctx_t) (crypt_type : Nat)
    (h1 : c1.tool_ctx = c.tool_ctx) (h2 : c1.has_rights_id = c.has_rights_id)
    (h3 : c1.decrypted_keys = c.decrypted_keys) :
    nca_process_section_aes c1 crypt_type = nca_process_section_aes c crypt_type := by
  unfold nca_process_section_aes
  rw [h1, h2, h3]

theorem sections_fold_at (prim : aes_primitive_t) (layout : List Nat → nca_header_t)
    (stack : Nat → Nat) (ctx : nca_ctx_t) (i : Nat) (l1 l2 : List Nat)
    (h1 : i ∉ l1) (h2 : i ∉ l2)
    (hm : ((layout ctx.header).section_entries i).media_start_offset ≠ 0) :
    ((l1 ++ i :: l2).foldl (fun c j => nca_process_section_step prim layout stack c j)
        ctx).section_aes i
      = (nca_process_section_aes ctx ((layout ctx.header).fs_headers i).crypt_type).orElse
          (fun _ => ctx.section_aes i) := by
  obtain ⟨f1, f2, f3, f4, -⟩ := sections_fold_frame prim layout stack l1 ctx
  rw [List.foldl_append, List.foldl_cons, sections_fold_other _ _ _ _ _ h2,
    section_step_self _ _ _ _ _ (by rw [f1]; exact hm), f1,
    section_aes_frame _ ctx _ f2 f3 f4, sections_fold_other _ _ _ _ _ h1]

theorem sections_at (prim : aes_primitive_t) (layout : List Nat → nca_header_t)
    (stack : Nat → Nat) (ctx : nca_ctx_t) (i : Nat) (hi : i < 4)
    (hm : ((layout ctx.header).section_entries i).media_start_offset ≠ 0) :
    (nca_process_sections prim layout stack ctx).section_aes i
      = (nca_process_section_aes ctx ((layout ctx.header).fs_headers i).crypt_type).orElse
          (fun _ => ctx.section_aes i) := by
  unfold nca_process_sections
  interval_cases i
  · exact sections_fold_at prim layout stack ctx 0 [] [1, 2, 3] (by decide) (by decide) hm
  · exact sections_fold_at prim layout stack ctx 1 [0] [2, 3] (by decide) (by decide) hm
  · exact sections_fold_at prim layout stack ctx 2 [0, 1] [3] (by decide) (by decide) hm
  · exact sections_fold_at prim layout stack ctx 3 [0, 1, 2] [] (by decide) (by decide) hm

/-- C20. For every present section `i` (media start not zero) of a context whose section
pointer is still NULL, the cipher context `nca_process` leaves in the section follows this
priority: with a content key, a CTR context keyed with its 16 bytes; otherwise, when the
NCA has a rights id, a CTR context keyed with `dec_titlekey`; otherwise a CTR context keyed
with slot 2 of the decrypted key area when the crypt type is CTR or BKTR, an XTS context
keyed with the 32 bytes of slots 0 and 1 when it is XTS, and no context when it is NONE. -/
theorem section_cipher_priority (prim : aes_primitive_t) (layout : List Nat → nca_header_t)
    (stack : Nat → Nat) (ctx : nca_ctx_t) (i : Nat) (hi : i < 4)
    (hm : ((layout ctx.header).section_entries i).media_start_offset ≠ 0)
    (hnull : ctx.section_aes i = none) :
    (ctx.tool_ctx.settings.has_contentkey = true →
      (nca_process_sections prim layout stack ctx).section_aes i
        = some { key := ctx.tool_ctx.settings.contentkey.take 16,
                 mode := aes_mode_t.AES_MODE_CTR })
    ∧ (ctx.tool_ctx.settings.has_contentkey = false → ctx.has_rights_id = true →
      (nca_process_sections prim layout stack ctx).section_aes i
        = some { key := ctx.tool_ctx.settings.dec_titlekey.take 16,
                 mode := aes_mode_t.AES_MODE_CTR })
    ∧ (ctx.tool_ctx.settings.has_contentkey = false → ctx.has_rights_id = false →
      ((layout ctx.header).fs_headers i).crypt_type = CRYPT_CTR
        ∨ ((layout ctx.header).fs_headers i).crypt_type = CRYPT_BKTR →
      (nca_process_sections prim layout stack ctx).section_aes i
        = some { key := (ctx.decrypted_keys.drop 0x20).take 16,
                 mode := aes_mode_t.AES_MODE_CTR })
    ∧ (ctx.tool_ctx.settings.has_contentkey = false → ctx.has_rights_id = false →
      ((layout ctx.header).fs_headers i).crypt_type = CRYPT_XTS →
      (nca_process_sections prim layout stack ctx).section_aes i
        = some { key := ctx.decrypted_keys.take 32, mode := aes_mode_t.AES_MODE_XTS })
    ∧ (ctx.tool_ctx.settings.has_contentkey = false → ctx.has_rights_id = false →
      ((layout ctx.header).fs_headers i).crypt_type = CRYPT_NONE →
      (nca_process_sections prim layout stack ctx).section_aes i = none) := by
  rw [sections_at prim layout stack ctx i hi hm, hnull]
  unfold nca_process_section_aes new_aes_ctx
  refine ⟨?_, ?_, ?_, ?_, ?_⟩
  · intro h; simp [h]
  · intro h1 h2; simp [h1, h2]
  · intro h1 h2 h3; simp [h1, h2, h3]
  · intro h1 h2 h3; simp [h1, h2, h3]
  · intro h1 h2 h3; simp [h1, h2, h3]

/-- Witness for C20: section 0 of the example header (crypt type CTR, no content key, no
rights id), after the header steps. -/
theorem section_cipher_priority_witness :
    ((example_processed_ctx false).tool_ctx.settings.has_contentkey = true →
      (nca_process_sections example_prim example_layout (fun _ => 0xAA) (example_processed_ctx false)).section_aes 0
        = some { key := (example_processed_ctx false).tool_ctx.settings.contentkey.take 16,
                 mode := aes_mode_t.AES_MODE_CTR })
    ∧ ((example_processed_ctx false).tool_ctx.settings.has_contentkey = false → (example_processed_ctx false).has_rights_id = true →
      (nca_process_sections example_prim example_layout (fun _ => 0xAA) (example_processed_ctx false)).section_aes 0
        = some { key := (example_processed_ctx false).tool_ctx.settings.dec_titlekey.take 16,
                 mode := aes_mode_t.AES_MODE_CTR })
    ∧ ((example_processed_ctx false).tool_ctx.settings.has_contentkey = false → (example_processed_ctx false).has_rights_id = false →
      ((example_layout (example_processed_ctx false).header).fs_headers 0).crypt_type = CRYPT_CTR
        ∨ ((example_layout (example_processed_ctx false).header).fs_headers 0).crypt_type = CRYPT_BKTR →
      (nca_process_sections example_prim example_layout (fun _ => 0xAA) (example_processed_ctx false)).section_aes 0
        = some { key := ((example_processed_ctx false).decrypted_keys.drop 0x20).take 16,
                 mode := aes_mode_t.AES_MODE_CTR })
    ∧ ((example_processed_ctx false).tool_ctx.settings.has_contentkey = false → (example_processed_ctx false).has_rights_id = false →
      ((example_layout (example_processed_ctx false).header).fs_headers 0).crypt_type = CRYPT_XTS →
      (nca_process_sections example_prim example_layout (fun _ => 0xAA) (example_processed_ctx false)).section_aes 0
        = some { key := (example_processed_ctx false).decrypted_keys.take 32, mode := aes_mode_t.AES_MODE_XTS })
    ∧ ((example_processed_ctx false).tool_ctx.settings.has_contentkey = false → (example_processed_ctx false).has_rights_id = false →
      ((example_layout (example_processed_ctx false).header).fs_headers 0).crypt_type = CRYPT_NONE →
      (nca_process_sections example_prim example_layout (fun _ => 0xAA) (example_processed_ctx false)).section_aes 0
        = none) :=
  section_cipher_priority example_prim example_layout (fun _ => 0xAA)
    (example_processed_ctx false) 0 (by decide)
    (by decide!) (by decide!)

/-! ## C21, C29: keys on the command line -/

theorem ishex_iff (c : Nat) : ishex c = true ↔ is_hex_digit c := by
  unfold ishex is_hex_digit
  split_ifs <;> simp <;> omega

theorem hextoi_eq (c : Nat) : hextoi c = hex_value c := by
  unfold hextoi hex_value
  split_ifs <;> omega

theorem hex_value_lt (c : Nat) : hex_value c < 16 := by
  unfold hex_value
  split_ifs <;> omega

theorem all_hex_iff (hex : List Nat) (hl : hex.length = 32) :
    (List.range 32).any (fun i => !ishex (hex.getD i 0)) = false
      ↔ ∀ c, c ∈ hex → is_hex_digit c := by
  rw [List.any_eq_false]
  constructor
  · intro h c hc
    obtain ⟨i, hi, rfl⟩ := List.getElem_of_mem hc
    have := h i (List.mem_range.mpr (by omega))
    rw [← ishex_iff]
    simpa [List.getD_eq_getElem?_getD, List.getElem?_eq_getElem hi] using this
  · intro h i hi
    have hi32 : i < hex.length := by rw [hl]; exact List.mem_range.mp hi
    have := (ishex_iff _).mpr (h _ (List.getElem_mem hi32))
    simpa [List.getD_eq_getElem?_getD, List.getElem?_eq_getElem hi32] using this

theorem parse_hex_key_accepts_iff (key hex : List Nat) :
    (∃ k, parse_hex_key key hex = .ok k)
      ↔ hex.length = 32 ∧ ∀ c, c ∈ hex → is_hex_digit c := by
  unfold parse_hex_key
  by_cases hl : hex.length = 32
  · cases hany : (List.range 32).any (fun i => !ishex (hex.getD i 0))
    · simp only [hl, ne_eq, not_true_eq_false, if_false, Bool.false_eq_true]
      exact ⟨fun _ => ⟨trivial, (all_hex_iff hex hl).mp hany⟩, fun _ => ⟨_, rfl⟩⟩
    · simp only [hl, ne_eq, not_true_eq_false, if_false, if_true]
      constructor
      · rintro ⟨k, hk⟩
        exact absurd hk (by simp)
      · rintro ⟨-, h⟩
        rw [(all_hex_iff hex hl).mpr h] at hany
        exact absurd hany (by simp)
  · simp only [hl, ne_eq, not_false_eq_true, if_true, false_and, iff_false]
    rintro ⟨k, hk⟩
    exact absurd hk (by simp)

theorem parse_hex_key_rejects (key hex : List Nat)
    (h : ¬ (hex.length = 32 ∧ ∀ c, c ∈ hex → is_hex_digit c)) :
    parse_hex_key key hex = .error Fault.exit_failure := by
  have h1 : ¬ ∃ k, parse_hex_key key hex = .ok k := fun hk =>
    h ((parse_hex_key_accepts_iff key hex).mp hk)
  unfold parse_hex_key at h1 ⊢
  split_ifs with a b
  · rfl
  · rfl
  · rw [if_neg a, if_neg b] at h1
    exact absurd ⟨_, rfl⟩ h1

/-- C21. `parse_hex_key` returns with a key written if and only if the string has exactly
32 characters and every character is a hexadecimal digit `0`-`9`, `a`-`f` or `A`-`F`. For
every other string, `"ABC"` for one, it takes the path of `usage()`, which exits with
`EXIT_FAILURE`: no key is written, and the option cases of `main` do not reach the
assignments of `has_titlekey` and `has_contentkey` (they produce no settings). -/
theorem parse_hex_key_accepts_32_hex_digits (settings : hactool_settings_t)
    (key hex : List Nat) :
    ((∃ k, parse_hex_key key hex = .ok k)
      ↔ hex.length = 32 ∧ ∀ c, c ∈ hex → is_hex_digit c)
    ∧ (¬ (hex.length = 32 ∧ ∀ c, c ∈ hex → is_hex_digit c) →
        parse_hex_key key hex = .error Fault.exit_failure
        ∧ main_case_titlekey settings hex = .error Fault.exit_failure
        ∧ main_case_contentkey settings hex = .error Fault.exit_failure)
    ∧ ((hex.length = 32 ∧ ∀ c, c ∈ hex → is_hex_digit c) →
        ∃ k, main_case_titlekey settings hex
            = .ok { settings with titlekey := k, has_titlekey := true }
          ∧ parse_hex_key settings.titlekey hex = .ok k)
    ∧ parse_hex_key key [0x41, 0x42, 0x43] = .error Fault.exit_failure
    ∧ main_case_titlekey settings [0x41, 0x42, 0x43] = .error Fault.exit_failure := by
  refine ⟨parse_hex_key_accepts_iff key hex, ?_, ?_, rfl, rfl⟩
  · intro h
    refine ⟨parse_hex_key_rejects key hex h, ?_, ?_⟩
    · unfold main_case_titlekey
      rw [parse_hex_key_rejects _ hex h]
    · unfold main_case_contentkey
      rw [parse_hex_key_rejects _ hex h]
  · intro h
    obtain ⟨k, hk⟩ := (parse_hex_key_accepts_iff settings.titlekey hex).mpr h
    refine ⟨k, ?_, hk⟩
    unfold main_case_titlekey
    rw [hk]

/-! ## C22: a section whose superblock hash is not valid -/

theorem save_section_range_ok (settings : save_settings_t) (sec : section_fs_t)
    (ht : sec.ctx.type = nca_section_type.PFS0 ∨ sec.ctx.type = nca_section_type.ROMFS) :
    ∃ range, nca_save_section_range settings sec = .ok range := by
  unfold nca_save_section_range
  rcases ht with ht | ht <;> rw [ht] <;> cases settings.action_raw <;> simp

/-- C22 (as amended). A hash failure does not end the run, but it does end the extraction
of the files of the section: for every PFS0 or RomFS section whose superblock hash validity
is not VALID, `nca_save_pfs0_section` and `nca_save_ivfc_section` make no directory and save
no file; all they do is report "section N is corrupted" on stderr. `nca_save_section` as a
whole then consists of the dump of the section file, when the section has a valid path,
followed by that report, and it returns, so that the next section is saved. -/
theorem save_of_invalid_section_reports_only {σ : Type}
    (perform : σ → save_event_t → Except Fault σ) (max_path fuel : Nat)
    (settings : save_settings_t) (sec : section_fs_t) (s : σ)
    (h : sec.superblock_hash_validity ≠ validity_t.VALIDITY_VALID)
    (ht : sec.ctx.type = nca_section_type.PFS0 ∨ sec.ctx.type = nca_section_type.ROMFS) :
    nca_save_pfs0_section perform max_path settings sec s
      = perform s (save_event_t.corrupted sec.ctx.section_num)
    ∧ nca_save_ivfc_section perform fuel settings sec s
      = perform s (save_event_t.corrupted sec.ctx.section_num)
    ∧ ∃ range, nca_save_section_range settings sec = .ok range
      ∧ nca_save_section trace_perform max_path fuel settings sec []
        = .ok ((if (nca_save_section_path settings sec).valid = validity_t.VALIDITY_VALID then
              [save_event_t.save_file (nca_save_section_path settings sec).char_path
                range.1 range.2]
            else [])
          ++ [save_event_t.corrupted sec.ctx.section_num]) := by
  have h1 : ∀ (τ : Type) (pf : τ → save_event_t → Except Fault τ) (s0 : τ),
      nca_save_pfs0_section pf max_path settings sec s0
        = pf s0 (save_event_t.corrupted sec.ctx.section_num) := by
    intro τ pf s0
    unfold nca_save_pfs0_section
    rw [if_neg h]
  have h2 : ∀ (τ : Type) (pf : τ → save_event_t → Except Fault τ) (s0 : τ),
      nca_save_ivfc_section pf fuel settings sec s0
        = pf s0 (save_event_t.corrupted sec.ctx.section_num) := by
    intro τ pf s0
    unfold nca_save_ivfc_section
    rw [if_neg (fun hh => h hh.1)]
  refine ⟨h1 _ _ _, h2 _ _ _, ?_⟩
  obtain ⟨range, hr⟩ := save_section_range_ok settings sec ht
  refine ⟨range, hr, ?_⟩
  unfold nca_save_section
  rw [hr]
  simp only []
  by_cases hp : (nca_save_section_path settings sec).valid = validity_t.VALIDITY_VALID
  · simp only [hp, if_true, trace_perform, List.nil_append]
    rcases ht with ht | ht <;> rw [ht] <;> simp only [h1, h2, trace_perform]
  · simp only [hp, if_false, List.nil_append]
    rcases ht with ht | ht <;> rw [ht] <;> simp only [h1, h2, trace_perform] <;> rfl

/-- C22 on the example sections with an INVALID superblock hash: each of the two is saved
as the dump of the section file followed by the report, and nothing more. -/
theorem save_of_invalid_section_reports_only_witness :
    (example_pfs0_section validity_t.VALIDITY_INVALID).superblock_hash_validity
      ≠ validity_t.VALIDITY_VALID
    ∧ nca_save_pfs0_section trace_perform 260 (example_save_settings false)
        (example_pfs0_section validity_t.VALIDITY_INVALID) []
      = trace_perform [] (save_event_t.corrupted 0)
    ∧ nca_save_section trace_perform 260 6 (example_save_settings false)
        (example_pfs0_section validity_t.VALIDITY_INVALID) []
      = .ok [save_event_t.save_file [0x73] 0x40 0x1C0, save_event_t.corrupted 0] :=
  ⟨by decide,
    (save_of_invalid_section_reports_only trace_perform 260 6 (example_save_settings false)
      (example_pfs0_section validity_t.VALIDITY_INVALID) [] (by decide) (Or.inl rfl)).1,
    rfl⟩

/-- C22, the claim as stated fails: the example PFS0 section and the example RomFS section
with an INVALID superblock hash are saved without any file of theirs, the call of the save
function giving the report alone, where the same sections with a VALID hash give their
directory and every file. -/
theorem invalid_superblock_hash_saves_no_file :
    nca_save_pfs0_section trace_perform 260 (example_save_settings false)
        (example_pfs0_section validity_t.VALIDITY_INVALID) []
      = .ok [save_event_t.corrupted 0]
    ∧ nca_save_ivfc_section trace_perform 6 (example_save_settings false)
        (example_romfs_section validity_t.VALIDITY_INVALID) []
      = .ok [save_event_t.corrupted 0]
    ∧ nca_save_pfs0_section trace_perform 260 (example_save_settings false)
        (example_pfs0_section validity_t.VALIDITY_VALID) []
      = .ok [save_event_t.makedir [0x6F, 0x75, 0x74],
          save_event_t.save_file [0x6F, 0x75, 0x74, 0x2F, 0x61] 0xA0 0x10,
          save_event_t.save_file
            [0x6F, 0x75, 0x74, 0x2F, 0x6D, 0x61, 0x69, 0x6E, 0x2E, 0x6E, 0x70, 0x64, 0x6D]
            0xB0 0x20]
    ∧ nca_save_ivfc_section trace_perform 6 (example_save_settings false)
        (example_romfs_section validity_t.VALIDITY_VALID) []
      = .ok [save_event_t.makedir [0x6F, 0x75, 0x74],
          save_event_t.makedir [0x6F, 0x75, 0x74],
          save_event_t.save_file [0x6F, 0x75, 0x74, 0x2F, 0x61] 0x300 0x10,
          save_event_t.save_file [0x6F, 0x75, 0x74, 0x2F, 0x62] 0x310 0x8,
          save_event_t.makedir [0x6F, 0x75, 0x74, 0x2F, 0x64],
          save_event_t.save_file [0x6F, 0x75, 0x74, 0x2F, 0x64, 0x2F, 0x63] 0x318 0x4,
          save_event_t.makedir [0x6F, 0x75, 0x74, 0x2F, 0x65]] :=
  ⟨rfl, rfl, rfl, rfl⟩

/-! ## C23: the order of the RomFS visit -/

theorem perform_all_append {σ : Type} (perform : σ → save_event_t → Except Fault σ)
    (a b : List save_event_t) (s : σ) :
    perform_all perform s (a ++ b)
      = (match perform_all perform s a with
        | .error e => .error e
        | .ok s1 => perform_all perform s1 b) := by
  induction a generalizing s with
  | nil => rfl
  | cons ev evs ih =>
    simp only [List.cons_append, perform_all]
    cases perform s ev with
    | error e => rfl
    | ok s1 => exact ih s1

theorem perform_all_trace (evs s : List save_event_t) :
    perform_all trace_perform s evs = .ok (s ++ evs) := by
  induction evs generalizing s with
  | nil => simp [perform_all]
  | cons ev evs ih =>
    simp only [perform_all, trace_perform]
    rw [ih]
    simp

theorem entry_path_eq (path name : List Nat) :
    (if name.length ≠ 0 then filepath_append path name else path) = entry_path path name := by
  unfold entry_path
  cases name with
  | nil => simp
  | cons a l => simp

/-- The file visit from a link that is present performs the events of the chain. -/
theorem visit_romfs_file_chain {σ : Type} (perform : σ → save_event_t → Except Fault σ)
    (listromfs : Bool) (romfs : romfs_ctx_t) (os : List Nat) :
    ∀ (o link fuel : Nat) (s : σ) (dir_path : List Nat),
      is_file_chain romfs link (o :: os) = true → os.length < fuel →
      nca_visit_romfs_file perform listromfs romfs fuel s link dir_path
        = perform_all perform s ((o :: os).map (file_event listromfs romfs dir_path)) := by
  induction os with
  | nil =>
    intro o link fuel s dir_path h hf
    obtain ⟨f, rfl⟩ : ∃ f, fuel = f + 1 := ⟨fuel - 1, by omega⟩
    simp only [is_file_chain, Bool.and_eq_true, decide_eq_true_eq] at h
    obtain ⟨⟨rfl, _⟩, hs⟩ := h
    simp only [nca_visit_romfs_file, entry_path_eq, hs, ne_eq, not_true_eq_false, if_false,
      List.map_cons, List.map_nil, perform_all, file_event]
    cases listromfs <;> simp only [if_true, if_false, Bool.true_eq_false, Bool.false_eq_true]
  | cons o2 os ih =>
    intro o link fuel s dir_path h hf
    obtain ⟨f, rfl⟩ : ∃ f, fuel = f + 1 := ⟨fuel - 1, by simp at hf; omega⟩
    have h0 := h
    rw [is_file_chain] at h
    simp only [Bool.and_eq_true, decide_eq_true_eq] at h
    obtain ⟨⟨rfl, _⟩, hs⟩ := h
    have hsib : (romfs.files link).sibling ≠ ROMFS_ENTRY_EMPTY := by
      rw [is_file_chain] at hs
      simp only [Bool.and_eq_true, decide_eq_true_eq] at hs
      rw [hs.1.1]; exact hs.1.2
    have hrec := fun s1 => ih o2 (romfs.files link).sibling f s1 dir_path hs
      (by simp at hf; omega)
    rw [nca_visit_romfs_file]
    simp only [entry_path_eq, hsib, ne_eq, not_false_eq_true, if_true]
    rw [List.map_cons, perform_all]
    have hev : (if listromfs = false then
          perform s (save_event_t.save_file (entry_path dir_path (romfs.files link).name)
            (u64 (romfs.romfs_offset + romfs.header.data_offset + (romfs.files link).offset))
            (romfs.files link).size)
        else perform s (save_event_t.list_file (entry_path dir_path (romfs.files link).name)))
        = perform s (file_event listromfs romfs dir_path link) := by
      unfold file_event
      cases listromfs <;> simp
    rw [hev]
    cases perform s (file_event listromfs romfs dir_path link) with
    | error e => rfl
    | ok s1 => exact hrec s1

/-- The file visit from the link of a directory, guarded as in the source, performs the
events of the chain, whether the chain is empty or not. -/
theorem visit_romfs_file_link {σ : Type} (perform : σ → save_event_t → Except Fault σ)
    (listromfs : Bool) (romfs : romfs_ctx_t) (fs : List Nat) (link fuel : Nat) (s : σ)
    (dir_path : List Nat) (h : is_file_chain romfs link fs = true) (hf : fs.length ≤ fuel) :
    (if link ≠ ROMFS_ENTRY_EMPTY then
        nca_visit_romfs_file perform listromfs romfs fuel s link dir_path
      else .ok s)
      = perform_all perform s (fs.map (file_event listromfs romfs dir_path)) := by
  cases fs with
  | nil =>
    simp only [is_file_chain, decide_eq_true_eq] at h
    simp [h, perform_all]
  | cons o os =>
    have hne : link ≠ ROMFS_ENTRY_EMPTY := by
      have h1 := h
      rw [is_file_chain] at h1
      simp only [Bool.and_eq_true, decide_eq_true_eq] at h1
      rw [h1.1.1]; exact h1.1.2
    rw [if_pos hne]
    exact visit_romfs_file_chain perform listromfs romfs os o link fuel s dir_path h
      (by simpa using hf)

/-- The directory visit from a link, guarded as in the source, performs the events of the
forest the link leads to. -/
theorem visit_romfs_dir_link {σ : Type} (perform : σ → save_event_t → Except Fault σ)
    (listromfs : Bool) (romfs : romfs_ctx_t) (t : romfs_tree) :
    ∀ (link fuel : Nat) (s : σ) (parent_path : List Nat),
      is_romfs_tree romfs link t = true → t.count ≤ fuel →
      (if link ≠ ROMFS_ENTRY_EMPTY then
          nca_visit_romfs_dir perform listromfs romfs fuel s link parent_path
        else .ok s)
        = perform_all perform s (tree_events listromfs romfs t parent_path) := by
  induction t with
  | empty =>
    intro link fuel s parent_path h _
    simp only [is_romfs_tree, decide_eq_true_eq] at h
    simp [h, tree_events, perform_all]
  | dir o fs c sib ihc ihs =>
    intro link fuel s parent_path h hf
    rw [is_romfs_tree] at h
    simp only [Bool.and_eq_true, decide_eq_true_eq] at h
    obtain ⟨⟨⟨⟨rfl, hne⟩, hfs⟩, hc⟩, hsb⟩ := h
    simp only [romfs_tree.count] at hf
    obtain ⟨f, rfl⟩ : ∃ f, fuel = f + 1 := ⟨fuel - 1, by omega⟩
    rw [if_pos hne, nca_visit_romfs_dir]
    simp only [entry_path_eq]
    rw [tree_events, perform_all_append, perform_all_append, perform_all_append]
    have hmk : (if listromfs = false then
          perform s (save_event_t.makedir (entry_path parent_path (romfs.directories link).name))
        else .ok s)
        = perform_all perform s (if listromfs = false then
            [save_event_t.makedir (entry_path parent_path (romfs.directories link).name)]
          else []) := by
      cases listromfs
      · simp only [if_true, perform_all]
        cases perform s _ <;> rfl
      · simp [perform_all]
    rw [hmk]
    cases perform_all perform s (if listromfs = false then
        [save_event_t.makedir (entry_path parent_path (romfs.directories link).name)]
      else []) with
    | error e => rfl
    | ok s1 =>
      simp only []
      rw [visit_romfs_file_link perform listromfs romfs fs _ f s1 _ hfs (by omega)]
      cases perform_all perform s1 (fs.map (file_event listromfs romfs
          (entry_path parent_path (romfs.directories link).name))) with
      | error e => rfl
      | ok s2 =>
        simp only []
        rw [ihc _ f s2 _ hc (by omega)]
        cases perform_all perform s2 (tree_events listromfs romfs c
            (entry_path parent_path (romfs.directories link).name)) with
        | error e => rfl
        | ok s3 =>
          simp only []
          exact ihs _ f s3 _ hsb (by omega)

theorem file_events_length (listromfs : Bool) (romfs : romfs_ctx_t) (t : romfs_tree) :
    ∀ parent_path : List Nat,
      (tree_events listromfs romfs t parent_path).length
        = if listromfs = false then t.count else t.file_count := by
  induction t with
  | empty => intro p; simp [tree_events, romfs_tree.count, romfs_tree.file_count]
  | dir o fs c sib ihc ihs =>
    intro p
    simp only [tree_events, List.length_append, List.length_map, ihc, ihs, romfs_tree.count,
      romfs_tree.file_count]
    cases listromfs <;> simp

/-- C23. For RomFS tables whose links from the directory at offset 0 form the finite forest
`t`, `nca_visit_romfs_dir` started at offset 0 returns as soon as the fuel reaches the number
of entries, and what it performs is exactly the list `tree_events t`, in order, on every
platform (a failing save ends the process there) and so on the recording one. That list is,
for a directory: the directory itself, then every file of its file chain in sibling order,
then the whole forest of its first child under the path of the directory, then the forest of
its own sibling under the path of the common parent. It holds one event for every directory
and file of the forest (the files only, in a listing), and the path of a file with a name is
the path of its directory extended by the separator and the name. -/
theorem romfs_visit_order {σ : Type} (perform : σ → save_event_t → Except Fault σ)
    (listromfs : Bool) (romfs : romfs_ctx_t) (t : romfs_tree) (fuel : Nat) (s : σ)
    (parent_path : List Nat)
    (h : is_romfs_tree romfs 0 t = true) (hf : t.count ≤ fuel) :
    nca_visit_romfs_dir perform listromfs romfs fuel s 0 parent_path
      = perform_all perform s (tree_events listromfs romfs t parent_path)
    ∧ nca_visit_romfs_dir trace_perform listromfs romfs fuel [] 0 parent_path
      = .ok (tree_events listromfs romfs t parent_path)
    ∧ (∀ (o : Nat) (fs : List Nat) (c sib : romfs_tree) (p : List Nat),
        tree_events false romfs (.dir o fs c sib) p
          = save_event_t.makedir (entry_path p (romfs.directories o).name)
            :: (fs.map (file_event false romfs (entry_path p (romfs.directories o).name))
              ++ (tree_events false romfs c (entry_path p (romfs.directories o).name)
                ++ tree_events false romfs sib p)))
    ∧ (∀ (o : Nat) (dir_path : List Nat), (romfs.files o).name ≠ [] →
        file_event false romfs dir_path o
          = save_event_t.save_file (dir_path ++ 0x2F :: (romfs.files o).name)
              (u64 (romfs.romfs_offset + romfs.header.data_offset + (romfs.files o).offset))
              (romfs.files o).size)
    ∧ (tree_events false romfs t parent_path).length = t.count
    ∧ (tree_events true romfs t parent_path).length = t.file_count := by
  have hv := fun (τ : Type) (pf : τ → save_event_t → Except Fault τ) (s0 : τ) =>
    visit_romfs_dir_link pf listromfs romfs t 0 fuel s0 parent_path h hf
  refine ⟨?_, ?_, ?_, ?_, ?_, ?_⟩
  · have := hv σ perform s
    rwa [if_pos (by decide)] at this
  · have := hv _ trace_perform []
    rw [if_pos (by decide)] at this
    rw [this, perform_all_trace, List.nil_append]
  · intro o fs c sib p
    simp [tree_events]
  · intro o dir_path hn
    simp [file_event, entry_path, hn, filepath_append]
  · rw [file_events_length]; rfl
  · rw [file_events_length]; rfl

/-- C23 on the example tables: the root with its files `a` and `b`, its child `d` with the
file `c`, and the sibling `e` of `d`, extracted below `out`. -/
theorem romfs_visit_order_witness :
    is_romfs_tree example_romfs 0 example_romfs_tree = true
    ∧ example_romfs_tree.count ≤ 6
    ∧ nca_visit_romfs_dir trace_perform false example_romfs 6 [] 0 [0x6F, 0x75, 0x74]
      = .ok (tree_events false example_romfs example_romfs_tree [0x6F, 0x75, 0x74])
    ∧ tree_events false example_romfs example_romfs_tree [0x6F, 0x75, 0x74]
      = [save_event_t.makedir [0x6F, 0x75, 0x74],
         save_event_t.save_file [0x6F, 0x75, 0x74, 0x2F, 0x61] 0x300 0x10,
         save_event_t.save_file [0x6F, 0x75, 0x74, 0x2F, 0x62] 0x310 0x8,
         save_event_t.makedir [0x6F, 0x75, 0x74, 0x2F, 0x64],
         save_event_t.save_file [0x6F, 0x75, 0x74, 0x2F, 0x64, 0x2F, 0x63] 0x318 0x4,
         save_event_t.makedir [0x6F, 0x75, 0x74, 0x2F, 0x65]] :=
  ⟨by decide, by decide,
    (romfs_visit_order trace_perform false example_romfs example_romfs_tree 6 []
      [0x6F, 0x75, 0x74] (by decide) (by decide)).2.1,
    by decide⟩

/-! ## C24: the dump of a BKTR section -/

theorem pfs0_npdm_loop_append (rfuel : Nat) (heap : Nat → Nat) (header : pfs0_header_t)
    (a b : List Nat) (sec : section_fs_t) :
    pfs0_npdm_loop rfuel heap header (a ++ b) sec
      = (match pfs0_npdm_loop rfuel heap header a sec with
        | .error e => .error e
        | .ok sec1 => pfs0_npdm_loop rfuel heap header b sec1) := by
  induction a generalizing sec with
  | nil => rfl
  | cons i is ih =>
    simp only [List.cons_append, pfs0_npdm_loop]
    cases pfs0_npdm_step rfuel heap header sec i with
    | error e => rfl
    | ok s1 => exact ih s1

theorem pfs0_npdm_loop_skip (rfuel : Nat) (heap : Nat → Nat) (header : pfs0_header_t)
    (l : List Nat) (sec : section_fs_t)
    (h : ∀ i, i ∈ l → (header.entries i).name ≠ MAIN_NPDM) :
    pfs0_npdm_loop rfuel heap header l sec = .ok sec := by
  induction l generalizing sec with
  | nil => rfl
  | cons i is ih =>
    have hi : (header.entries i).name ≠ MAIN_NPDM := h i (List.mem_cons_self _ _)
    have hstep : pfs0_npdm_step rfuel heap header sec i = .ok sec := by
      unfold pfs0_npdm_step
      rw [if_neg hi]
    simp only [pfs0_npdm_loop, hstep]
    exact ih sec (fun j hj => h j (List.mem_cons_of_mem _ hj))

theorem range_split (n k : Nat) (hk : k < n) :
    List.range n = List.range k ++ k :: List.range' (k + 1) (n - k - 1) := by
  obtain ⟨m, rfl⟩ : ∃ m, n = k + (m + 1) := ⟨n - k - 1, by omega⟩
  have e : k + (m + 1) - k - 1 = m := by omega
  rw [e, List.range_eq_range', List.range_eq_range', Nat.add_comm k (m + 1),
    (List.range'_append_1 0 k (m + 1)).symm, Nat.zero_add, List.range'_succ]

/-- The step of the loop on a file named "main.npdm" that lies inside the image: the file
is read in full, and the section is marked exactly when the magic read is "META". -/
theorem pfs0_npdm_step_reads (rfuel : Nat) (heap : Nat → Nat) (header : pfs0_header_t)
    (sec : section_fs_t) (k : Nat) (Inv : nca_section_ctx_t → Prop) (img : List Nat)
    (himg : reads_image rfuel Inv img) (hinv : Inv sec.ctx) (hlen : img.length < 2 ^ 64)
    (hname : (header.entries k).name = MAIN_NPDM)
    (hsize : (header.entries k).size < sec.pfs0_ctx.superblock.pfs0_size)
    (hin : sec.pfs0_ctx.superblock.pfs0_offset + header.header_size + (header.entries k).offset
      + (header.entries k).size ≤ img.length) :
    ∃ c1, Inv c1 ∧ pfs0_npdm_step rfuel heap header sec k
      = .ok { sec with
          ctx := c1
          pfs0_ctx := { sec.pfs0_ctx with
            npdm := fread img (sec.pfs0_ctx.superblock.pfs0_offset + header.header_size
              + (header.entries k).offset) (header.entries k).size
            is_exefs :=
              if npdm_magic (memcpy heap 0 (fread img
                  (sec.pfs0_ctx.superblock.pfs0_offset + header.header_size
                    + (header.entries k).offset) (header.entries k).size)) = MAGIC_META
              then true else sec.pfs0_ctx.is_exefs } } := by
  have hu : u64 (sec.pfs0_ctx.superblock.pfs0_offset + header.header_size
      + (header.entries k).offset)
      = sec.pfs0_ctx.superblock.pfs0_offset + header.header_size + (header.entries k).offset :=
    u64_of_lt (by omega)
  obtain ⟨c1, hc1, hread⟩ := himg sec.ctx heap
    (sec.pfs0_ctx.superblock.pfs0_offset + header.header_size + (header.entries k).offset)
    (header.entries k).size hinv hin
  refine ⟨c1, hc1, ?_⟩
  unfold pfs0_npdm_step
  rw [if_pos hname, if_neg (by omega), hu, hread]
  simp only [ne_eq, not_true_eq_false, if_false]
  rw [buffer_bytes_memcpy_len _ _ _ (fread_length _ _ _ hin)]

theorem one_block_rounds (n : Nat) (h : 0 < n) : (n + n - 1) / n = 1 := by
  have e : n + n - 1 = (n - 1) + 1 * n := by omega
  rw [e, Nat.add_mul_div_right _ _ h, Nat.div_eq_of_lt (by omega)]

/-- The files of a PFS0 header, one of them alone named "main.npdm" and inside the image:
the loop over the files reads that file in full and marks the section exactly when its
magic is "META". -/
theorem pfs0_npdm_loop_spec (rfuel : Nat) (heap : Nat → Nat) (header : pfs0_header_t)
    (sec : section_fs_t) (k : Nat) (Inv : nca_section_ctx_t → Prop) (img : List Nat)
    (himg : reads_image rfuel Inv img) (hinv : Inv sec.ctx) (hlen : img.length < 2 ^ 64)
    (hk : k < header.num_files)
    (hname : (header.entries k).name = MAIN_NPDM)
    (huniq : ∀ i, i < header.num_files → i ≠ k → (header.entries i).name ≠ MAIN_NPDM)
    (hsize : (header.entries k).size < sec.pfs0_ctx.superblock.pfs0_size)
    (hin : sec.pfs0_ctx.superblock.pfs0_offset + header.header_size + (header.entries k).offset
      + (header.entries k).size ≤ img.length) :
    ∃ c1, pfs0_npdm_loop rfuel heap header (List.range header.num_files) sec
      = .ok { sec with
          ctx := c1
          pfs0_ctx := { sec.pfs0_ctx with
            npdm := fread img (sec.pfs0_ctx.superblock.pfs0_offset + header.header_size
              + (header.entries k).offset) (header.entries k).size
            is_exefs :=
              if npdm_magic (memcpy heap 0 (fread img
                  (sec.pfs0_ctx.superblock.pfs0_offset + header.header_size
                    + (header.entries k).offset) (header.entries k).size)) = MAGIC_META
              then true else sec.pfs0_ctx.is_exefs } } := by
  obtain ⟨c1, -, hstep⟩ := pfs0_npdm_step_reads rfuel heap header sec k Inv img himg hinv hlen
    hname hsize hin
  refine ⟨c1, ?_⟩
  rw [range_split _ _ hk, pfs0_npdm_loop_append,
    pfs0_npdm_loop_skip rfuel heap header (List.range k) sec
      (fun i hi => huniq i (by have := List.mem_range.mp hi; omega)
        (by have := List.mem_range.mp hi; omega))]
  simp only [pfs0_npdm_loop, hstep]
  exact pfs0_npdm_loop_skip rfuel heap header _ _
    (fun i hi => huniq i (by have := List.mem_range'_1.mp hi; omega)
      (by have := List.mem_range'_1.mp hi; omega))

/-- C25 (as amended). For every PFS0 section whose reads succeed, with a valid superblock
hash, whose header holds one file named "main.npdm", smaller than the PFS0 and inside the
section: `nca_process_pfs0_section` returns and has loaded the NPDM in full, whatever its
magic is, but it marks the section as ExeFS only when the magic of the NPDM is "META" (the
flag `is_exefs` starts cleared); the NPDM signature is then verified if and only if the
section was marked, that is, if and only if the magic is "META", over the 0x200 bytes of the
NCA header from the magic and under the modulus of the ACID of the NPDM; otherwise the
validity of the signature stays as it was. -/
theorem pfs0_npdm_marked_iff_meta (sha256 : List Nat → List Nat) (fuel rfuel : Nat)
    (heap : Nat → Nat) (verify : Bool) (raw_size : Nat) (parse : List Nat → pfs0_header_t)
    (sec : section_fs_t) (Inv : nca_section_ctx_t → Prop) (img : List Nat)
    (hsz : Nat) (H : pfs0_header_t) (k : Nat)
    (himg : reads_image rfuel Inv img) (hinv : Inv sec.ctx)
    (hvalid : hash_table_matches sha256 sec.pfs0_ctx.superblock.master_hash
      (fread img sec.pfs0_ctx.superblock.hash_table_offset
        sec.pfs0_ctx.superblock.hash_table_size) sec.pfs0_ctx.superblock.hash_table_size 0)
    (hts : 0 < sec.pfs0_ctx.superblock.hash_table_size)
    (htin : sec.pfs0_ctx.superblock.hash_table_offset + sec.pfs0_ctx.superblock.hash_table_size
      ≤ img.length)
    (hbs : 0 < sec.pfs0_ctx.superblock.block_size)
    (hpin : sec.pfs0_ctx.superblock.pfs0_offset + sec.pfs0_ctx.superblock.pfs0_size
      ≤ img.length)
    (htab : sec.pfs0_ctx.superblock.hash_table_offset
      + hash_table_size sec.pfs0_ctx.superblock.pfs0_size sec.pfs0_ctx.superblock.block_size
      ≤ img.length)
    (hbig : img.length + sec.pfs0_ctx.superblock.hash_table_size
      + sec.pfs0_ctx.superblock.block_size < 2 ^ 64)
    (hfuel : 1 < fuel ∧ (sec.pfs0_ctx.superblock.pfs0_size
      + sec.pfs0_ctx.superblock.block_size - 1) / sec.pfs0_ctx.superblock.block_size < fuel)
    (hraw : sec.pfs0_ctx.superblock.pfs0_offset + raw_size ≤ img.length)
    (hhsz : (parse (fread img sec.pfs0_ctx.superblock.pfs0_offset raw_size)).header_size = hsz)
    (hfull : sec.pfs0_ctx.superblock.pfs0_offset + hsz ≤ img.length)
    (hH : parse (fread img sec.pfs0_ctx.superblock.pfs0_offset hsz) = H)
    (hk : k < H.num_files)
    (hname : (H.entries k).name = MAIN_NPDM)
    (huniq : ∀ i, i < H.num_files → i ≠ k → (H.entries i).name ≠ MAIN_NPDM)
    (hsize : (H.entries k).size < sec.pfs0_ctx.superblock.pfs0_size)
    (hin : sec.pfs0_ctx.superblock.pfs0_offset + H.header_size + (H.entries k).offset
      + (H.entries k).size ≤ img.length)
    (hex : sec.pfs0_ctx.is_exefs = false) :
    ∃ sec1, nca_process_pfs0_section sha256 fuel rfuel heap verify raw_size parse sec = .ok sec1
      ∧ sec1.superblock_hash_validity = validity_t.VALIDITY_VALID
      ∧ sec1.pfs0_ctx.npdm = fread img (sec.pfs0_ctx.superblock.pfs0_offset + H.header_size
          + (H.entries k).offset) (H.entries k).size
      ∧ (sec1.pfs0_ctx.is_exefs = true ↔ npdm_magic (memcpy heap 0 sec1.pfs0_ctx.npdm) = MAGIC_META)
      ∧ ∀ (rsa : List Nat → List Nat → List Nat → Bool) (acid_modulus : List Nat → List Nat)
          (header npdm_key_sig : List Nat) (v0 : validity_t),
          nca_process_pfs0_case rsa acid_modulus header npdm_key_sig
            (nca_process_pfs0_section sha256 fuel rfuel heap verify raw_size parse) v0 sec
          = .ok (sec1,
              if npdm_magic (memcpy heap 0 sec1.pfs0_ctx.npdm) = MAGIC_META then
                (if rsa (fread header 0x200 0x200) npdm_key_sig
                    (acid_modulus sec1.pfs0_ctx.npdm) = true
                  then validity_t.VALIDITY_VALID else validity_t.VALIDITY_INVALID)
              else v0) := by
  /- the superblock check -/
  obtain ⟨v, c1, hrun1, hinv1, hv1⟩ := external_check_of_image sha256 fuel rfuel heap sec.ctx
    sec.pfs0_ctx.superblock.master_hash sec.pfs0_ctx.superblock.hash_table_offset
    sec.pfs0_ctx.superblock.hash_table_size sec.pfs0_ctx.superblock.hash_table_size 0 Inv img
    himg hinv hts htin (by omega) (by rw [one_block_rounds _ hts]; exact hfuel.1)
  have hvv : v = validity_t.VALIDITY_VALID := hv1.2.mpr hvalid
  subst hvv
  /- the check of the hash table, with the verify flag -/
  have hver : ∃ hv c2, pfs0_verify_step sha256 fuel rfuel heap verify sec c1 = .ok (hv, c2)
      ∧ Inv c2 := by
    unfold pfs0_verify_step
    cases verify
    · exact ⟨_, c1, rfl, hinv1⟩
    · obtain ⟨hv, c2, hrun2, hinv2, -⟩ := table_check_of_image sha256 fuel rfuel heap heap c1
        sec.pfs0_ctx.superblock.hash_table_offset sec.pfs0_ctx.superblock.pfs0_offset
        sec.pfs0_ctx.superblock.pfs0_size sec.pfs0_ctx.superblock.block_size 0 Inv img himg
        hinv1 hbs hpin htab (by omega) hfuel.2
      exact ⟨hv, c2, hrun2, hinv2⟩
  obtain ⟨hv, c2, hrun2, hinv2⟩ := hver
  /- the two reads of the header -/
  obtain ⟨c3, hinv3, hread3⟩ := himg c2 heap sec.pfs0_ctx.superblock.pfs0_offset raw_size
    hinv2 hraw
  obtain ⟨c4, hinv4, hread4⟩ := himg c3 heap sec.pfs0_ctx.superblock.pfs0_offset hsz
    hinv3 hfull
  have hb3 : buffer_bytes (memcpy heap 0 (fread img sec.pfs0_ctx.superblock.pfs0_offset
      raw_size)) 0 raw_size = fread img sec.pfs0_ctx.superblock.pfs0_offset raw_size :=
    buffer_bytes_memcpy_len _ _ _ (fread_length _ _ _ hraw)
  have hb4 : buffer_bytes (memcpy heap 0 (fread img sec.pfs0_ctx.superblock.pfs0_offset
      hsz)) 0 hsz = fread img sec.pfs0_ctx.superblock.pfs0_offset hsz :=
    buffer_bytes_memcpy_len _ _ _ (fread_length _ _ _ hfull)
  /- the loop over the files -/
  obtain ⟨c5, hloop⟩ := pfs0_npdm_loop_spec rfuel heap H
    { sec with
      ctx := c4, superblock_hash_validity := validity_t.VALIDITY_VALID
      pfs0_ctx := { sec.pfs0_ctx with hash_table_validity := hv, header := some H } }
    k Inv img himg hinv4 (by omega) hk hname huniq hsize hin
  have hrun : nca_process_pfs0_section sha256 fuel rfuel heap verify raw_size parse sec
      = .ok { sec with
          ctx := c5, superblock_hash_validity := validity_t.VALIDITY_VALID
          pfs0_ctx := { sec.pfs0_ctx with
            hash_table_validity := hv, header := some H
            npdm := fread img (sec.pfs0_ctx.superblock.pfs0_offset + H.header_size
              + (H.entries k).offset) (H.entries k).size
            is_exefs :=
              if npdm_magic (memcpy heap 0 (fread img
                  (sec.pfs0_ctx.superblock.pfs0_offset + H.header_size
                    + (H.entries k).offset) (H.entries k).size)) = MAGIC_META
              then true else sec.pfs0_ctx.is_exefs } } := by
    unfold nca_process_pfs0_section
    rw [hrun1]
    simp only [hrun2, ne_eq, not_true_eq_false, if_false, hread3, hb3, hhsz, hread4, hb4, hH]
    exact hloop
  refine ⟨_, hrun, rfl, rfl, ?_, ?_⟩
  · simp only [hex]
    constructor
    · intro h
      by_contra hne
      rw [if_neg hne] at h
      exact absurd h (by decide)
    · intro h
      rw [if_pos h]
  · intro rsa acid_modulus header npdm_key_sig v0
    unfold nca_process_pfs0_case
    rw [hrun]
    simp only [hex]
    by_cases hm : npdm_magic (memcpy heap 0 (fread img
        (sec.pfs0_ctx.superblock.pfs0_offset + H.header_size + (H.entries k).offset)
        (H.entries k).size)) = MAGIC_META
    · simp only [hm, if_true]
      cases rsa (fread header 0x200 0x200) npdm_key_sig
        (acid_modulus (fread img (sec.pfs0_ctx.superblock.pfs0_offset + H.header_size
          + (H.entries k).offset) (H.entries k).size)) <;> rfl
    · simp only [hm, if_false]
      rfl

theorem example_npdm_section_state (magic : List Nat) :
    plain_state (List.replicate 0x1000 0 ++ example_npdm_image magic) 0x1000
      (example_npdm_section magic).ctx :=
  ⟨rfl, fun h => nca_section_type.noConfusion h, rfl, rfl⟩

/-- C25 on the example section whose file "main.npdm" starts with "META": the processing
returns with a valid superblock hash, and the section is marked. -/
theorem pfs0_npdm_marked_iff_meta_witness :
    ∃ sec1, nca_process_pfs0_section example_sha 4 4 (fun _ => 0) false 0x10 example_pfs0_parse
        (example_npdm_section MAGIC_META) = .ok sec1
      ∧ sec1.superblock_hash_validity = validity_t.VALIDITY_VALID
      ∧ (sec1.pfs0_ctx.is_exefs = true
        ↔ npdm_magic (memcpy (fun _ => 0) 0 sec1.pfs0_ctx.npdm) = MAGIC_META) := by
  have himg := plain_reads_image 3 (List.replicate 0x1000 0 ++ example_npdm_image MAGIC_META)
    0x1000 (by decide!) (by decide!)
  have hst := example_npdm_section_state MAGIC_META
  have a1 := pfs0_npdm_marked_iff_meta example_sha 4 (3 + 1) (fun _ => 0) false 0x10
    example_pfs0_parse (example_npdm_section MAGIC_META)
    (plain_state (List.replicate 0x1000 0 ++ example_npdm_image MAGIC_META) 0x1000)
    ((List.replicate 0x1000 0 ++ example_npdm_image MAGIC_META).drop 0x1000)
    0x38
    (example_pfs0_parse (fread ((List.replicate 0x1000 0
      ++ example_npdm_image MAGIC_META).drop 0x1000) 0x40 0x38))
    0
  have a2 := a1 himg hst (by unfold hash_table_matches; decide!)
  have a3 := a2 (by decide) (by decide!) (by decide) (by decide!) (by decide!) (by decide!)
  have a4 := a3 (by decide!) (by decide!) (by decide!) (by decide!) rfl
  obtain ⟨sec1, h1, h2, -, h4, -⟩ :=
    a4 (by decide!) (by decide!) (by decide!) (by decide!) (by decide!) rfl
  exact ⟨sec1, h1, h2, h4⟩

/-- C25, the claim as stated fails: the example section has a valid superblock hash and the
file "main.npdm", of 0x10 bytes in a PFS0 of 0x48, but the file starts with "ATEM": the NPDM
is loaded in full, the section is not marked as ExeFS, and the signature stays unchecked.
With "META" in its place the section is marked and the signature is verified. -/
theorem npdm_without_meta_is_not_exefs :
    exefs_of (example_npdm_run [0x41, 0x54, 0x45, 0x4D])
      = some (false,
          [0x41, 0x54, 0x45, 0x4D, 0x22, 0x22, 0x22, 0x22, 0x22, 0x22, 0x22, 0x22,
            0x22, 0x22, 0x22, 0x22],
          validity_t.VALIDITY_UNCHECKED)
    ∧ exefs_of (example_npdm_run MAGIC_META)
      = some (true,
          [0x4D, 0x45, 0x54, 0x41, 0x22, 0x22, 0x22, 0x22, 0x22, 0x22, 0x22, 0x22,
            0x22, 0x22, 0x22, 0x22],
          validity_t.VALIDITY_VALID) := by
  decide!

/-! ## C26: a patch read that reaches past the next subsection boundary -/

/-- C26 (the code at the failing input). The example BKTR section (encrypted, no base, so
reads are patch reads) has subsections starting at 0, 0x100 and 0x200 and the sentinel at
0x2000: the offsets increase strictly, and the section holds 0x2400 bytes. With the cursor
at patch offset 0x80, `nca_bktr_section_physical_fread` is asked for 0x180 bytes, the range
`[0x80, 0x200)` that crosses the boundary 0x100. The entry looked up for the split is the
one that contains `p + n = 0x200` (index 2), not the entry that follows the current
subsection (index 1), so the first part of the split is `0x200 - 0x80 = 0x180` bytes, the
whole request: the recursive read is not for fewer bytes, and the call does not return
whatever the depth allowed to the recursion. The same holds for 0x200 bytes, a range over
two boundaries. A read of 0x100 bytes at 0x80, which ends inside the next subsection,
returns. -/
theorem bktr_split_at_entry_of_end_never_returns :
    (example_subsection_block.entries.map (fun e => e.offset) = [0, 0x100, 0x200, 0x2000])
    ∧ (example_bktr_ctx base_file_t.absent 0).size = 0x2400
    ∧ bktr_get_subsection example_subsection_block 0x80 = some 0
    ∧ bktr_get_subsection example_subsection_block (u64 (0x80 + 0x180)) = some 2
    ∧ sub64 (example_subsection_block.entries.getD 2 default).offset 0x80 = 0x180
    ∧ (∀ fuel ctx buffer bofs, stuck_ctx ctx →
        nca_bktr_section_physical_fread (nca_section_fread fuel) ctx buffer bofs 0x180
          = .error Fault.fuel)
    ∧ (∀ fuel ctx buffer bofs, stuck_ctx ctx →
        nca_bktr_section_physical_fread (nca_section_fread fuel) ctx buffer bofs 0x200
          = .error Fault.fuel)
    ∧ (∃ ctx, nca_section_fseek (example_bktr_ctx base_file_t.absent 0) 0x80 = .ok ctx
        ∧ stuck_ctx ctx)
    ∧ ret_of (seek_then_read 4 (example_bktr_ctx base_file_t.absent 0) 0x80 (fun _ => 0xCC)
        0x100) = some 0x100 := by
  refine ⟨by decide, by decide!, by decide, by decide, by decide, ?_, ?_, ?_, by decide!⟩
  · intro fuel ctx buffer bofs h
    simp [nca_bktr_section_physical_fread, h.dec, h.sub, h.seek, stuck_h0, stuck_h1]
    rw [stuck_h2, stuck_read]
    exact ⟨rfl, h.crypt, h.sub, h.base, h.seek⟩
  · intro fuel ctx buffer bofs h
    simp [nca_bktr_section_physical_fread, h.dec, h.sub, h.seek, stuck_h0, stuck_h3]
    rw [stuck_h2, stuck_read]
    exact ⟨rfl, h.crypt, h.sub, h.base, h.seek⟩
  · obtain ⟨ctx, h1, h2⟩ := stuck_seek
    exact ⟨ctx, h1, h2⟩

/-! ## C27: two reads against one read on a CTR section -/

/-- C27 (the code at the failing input). In the example CTR section (offset 0x1000, a
multiple of 16), seek to 0x17 and read 4 bytes, then 4 bytes: `(0x17 mod 16) + 4 < 16`, so
the first read is the short read inside one block, which ends with
`nca_section_fseek(ctx, ctx->cur_seek - ctx->offset)`, a seek to the start of the block.
Both reads return 4 and the first 4 bytes are the ones a single read of 8 bytes gives, but
after the first read `sector_ofs` is 0, not 0xB: the second read returns the 4 bytes at
logical offset 0x10 (the block start) and not those at 0x1B, so the 8 bytes differ from the
8 bytes of the single read. -/
theorem ctr_short_read_rewinds_cursor :
    ret_of (seek_then_read 4 example_ctr_ctx 0x17 (fun _ => 0xCC) 4) = some 4
    ∧ ret_of (seek_read_read 4 example_ctr_ctx 0x17 (fun _ => 0xCC) 4 4) = some 4
    ∧ ret_of (seek_then_read 4 example_ctr_ctx 0x17 (fun _ => 0xCC) 8) = some 8
    ∧ bytes_of (seek_read_read 4 example_ctr_ctx 0x17 (fun _ => 0xCC) 4 4) 4
      = bytes_of (seek_then_read 4 example_ctr_ctx 0x17 (fun _ => 0xCC) 8) 4
    ∧ sector_ofs_of (seek_then_read 4 example_ctr_ctx 0x17 (fun _ => 0xCC) 4) = some 0
    ∧ bytes_at (seek_read_read 4 example_ctr_ctx 0x17 (fun _ => 0xCC) 4 4) 4 4
      = bytes_of (seek_then_read 4 example_ctr_ctx 0x10 (fun _ => 0xCC) 4) 4
    ∧ bytes_at (seek_read_read 4 example_ctr_ctx 0x17 (fun _ => 0xCC) 4 4) 4 4
      ≠ bytes_at (seek_then_read 4 example_ctr_ctx 0x17 (fun _ => 0xCC) 8) 4 4
    ∧ bytes_of (seek_read_read 4 example_ctr_ctx 0x17 (fun _ => 0xCC) 4 4) 8
      ≠ bytes_of (seek_then_read 4 example_ctr_ctx 0x17 (fun _ => 0xCC) 8) 8 := by
  decide!

/-! ## C28: the entries `nca_save_pfs0_file` rejects -/

/-- C28 (as amended). `nca_save_pfs0_file` ends with a fatal error, before anything is
printed or written, if and only if `i >= num_files`, or the size of the entry is greater
than or equal to the size of the section, or the name of the entry is too long for the path
(`strlen(name) >= MAX_PATH - strlen(dirpath) - 1`). So an entry whose size equals the
section size is rejected, and an entry below `num_files` with a smaller size and a name that
fits is accepted whatever its offset is: the function then calls `nca_save_section_file`
for `size` bytes from the logical offset `pfs0_offset + header_size + offset` (modulo
2^64), to the path of the directory extended by the name. -/
theorem pfs0_file_rejected_iff (max_path size : Nat) (sb : pfs0_superblock_t)
    (header : pfs0_header_t) (i : Nat) (dirpath : filepath_t) :
    (nca_save_pfs0_file max_path size sb header i dirpath = .error Fault.exit_failure
      ↔ (i ≥ header.num_files ∨ (header.entries i).size ≥ size
        ∨ (header.entries i).name.length
            ≥ sub64 (sub64 max_path dirpath.char_path.length) 1))
    ∧ (nca_save_pfs0_file max_path size sb header i dirpath
        = .ok (save_event_t.save_file
            (filepath_append dirpath.char_path (header.entries i).name)
            (u64 (sb.pfs0_offset + header.header_size + (header.entries i).offset))
            (header.entries i).size)
      ↔ ¬ (i ≥ header.num_files ∨ (header.entries i).size ≥ size
        ∨ (header.entries i).name.length
            ≥ sub64 (sub64 max_path dirpath.char_path.length) 1))
    ∧ ((header.entries i).size = size →
        nca_save_pfs0_file max_path size sb header i dirpath = .error Fault.exit_failure) := by
  unfold nca_save_pfs0_file
  refine ⟨?_, ?_, ?_⟩
  · split_ifs with h1 h2 h3 <;> simp_all
  · split_ifs with h1 h2 h3 <;> simp_all
  · intro h
    split_ifs with h1 h2 h3
    · rfl
    · rfl
    · rfl
    · exact absurd (Nat.le_of_eq h.symm) h2

/-- C28, the claim as stated fails: entry 2 of the example header is below `num_files` and
its size 0x200 is smaller than the section size 0x400, but its name has 300 characters and
`MAX_PATH` is 260: the entry is rejected. Entry 0, with a short name, is accepted. -/
theorem pfs0_file_with_long_name_rejected :
    2 < example_pfs0_header.num_files
    ∧ (example_pfs0_header.entries 2).size < 0x400
    ∧ nca_save_pfs0_file 260 0x400 example_pfs0_superblock example_pfs0_header 2
        example_dirpath = .error Fault.exit_failure
    ∧ nca_save_pfs0_file 260 0x400 example_pfs0_superblock example_pfs0_header 0
        example_dirpath = .ok (save_event_t.save_file [0x6F, 0x75, 0x74, 0x2F, 0x61] 0xA0 0x10) :=
  ⟨by decide, by decide,
    by rw [nca_save_pfs0_file, if_neg (by decide), if_neg (by decide), if_pos (by decide!)],
    rfl⟩

theorem nibble_high : ∀ v, v < 16 → (0 ||| char_to_int ((v <<< 4) % 0x100)) % 0x100 = 16 * v := by
  decide

theorem nibble_low : ∀ v0, v0 < 16 → ∀ v1, v1 < 16 →
    (16 * v0 ||| char_to_int v1) % 0x100 = 16 * v0 + v1 := by
  decide

theorem parse_hex_key_fold (hex tail : List Nat) :
    ∀ n, n ≤ 32 →
      ((List.range n).foldl (parse_hex_key_step hex) (List.replicate 16 0 ++ tail)).length
        = 16 + tail.length
      ∧ (∀ j, j < 16 →
          ((List.range n).foldl (parse_hex_key_step hex) (List.replicate 16 0 ++ tail)).getD j 0
            = if 2 * j + 1 < n then
                16 * hex_value (hex.getD (2 * j) 0) + hex_value (hex.getD (2 * j + 1) 0)
              else if 2 * j < n then 16 * hex_value (hex.getD (2 * j) 0)
              else 0)
      ∧ ((List.range n).foldl (parse_hex_key_step hex) (List.replicate 16 0 ++ tail)).drop 16
        = tail := by
  intro n
  induction n with
  | zero =>
    intro _
    simp only [List.range_zero, List.foldl_nil]
    refine ⟨by rw [List.length_append, List.length_replicate], ?_,
      List.drop_left' (List.length_replicate _ _)⟩
    intro j hj
    rw [List.getD_eq_getElem?_getD,
      List.getElem?_append_left (by rw [List.length_replicate]; exact hj),
      List.getElem?_replicate, if_pos hj, if_neg (by omega), if_neg (by omega)]
    rfl
  | succ n ih =>
    intro hn
    obtain ⟨hlen, hget, hdrop⟩ := ih (by omega)
    rw [List.range_succ, List.foldl_append, List.foldl_cons, List.foldl_nil]
    generalize (List.range n).foldl (parse_hex_key_step hex) (List.replicate 16 0 ++ tail) = k
      at hlen hget hdrop
    have hidx : n >>> 1 = n / 2 := by rw [Nat.shiftRight_eq_div_pow, Nat.pow_one]
    have hpar : n &&& 1 = n % 2 := Nat.and_one_is_mod n
    have hlt : n / 2 < 16 := by omega
    have c2 : ¬ (n < n) := Nat.lt_irrefl n
    have c4 : n < n + 1 := Nat.lt_succ_self n
    unfold parse_hex_key_step
    simp only [hidx, hpar, hextoi_eq]
    refine ⟨by rw [List.length_set]; exact hlen, ?_, ?_⟩
    · intro j hj
      by_cases hjn : j = n / 2
      · subst hjn
        have hold := hget _ hlt
        rw [List.getD_eq_getElem?_getD, List.getElem?_set_self (by omega), Option.getD_some]
        by_cases hev : n % 2 = 0
        · have e1 : 2 * (n / 2) = n := by omega
          have c1 : ¬ (n + 1 < n) := by omega
          have c3 : ¬ (n + 1 < n + 1) := Nat.lt_irrefl _
          rw [if_pos hev, hold, e1]
          simp only [c1, c2, c3, c4, if_false, if_true]
          exact nibble_high _ (hex_value_lt _)
        · have e1 : 2 * (n / 2) + 1 = n := by omega
          have d : 2 * (n / 2) < n := by omega
          rw [if_neg hev, hold, e1]
          simp only [c2, c4, d, if_false, if_true]
          exact nibble_low _ (hex_value_lt _) _ (hex_value_lt _)
      · have hold := hget j hj
        have ha : (2 * j + 1 < n + 1) ↔ (2 * j + 1 < n) := by omega
        have hb : (2 * j < n + 1) ↔ (2 * j < n) := by omega
        rw [List.getD_eq_getElem?_getD, List.getElem?_set_ne (fun h => hjn h.symm),
          ← List.getD_eq_getElem?_getD, hold]
        simp only [ha, hb]
    · rw [List.drop_set_of_lt _ _ hlt]
      exact hdrop

theorem key_of_hex_length (hex : List Nat) : (key_of_hex hex).length = 16 := by
  simp [key_of_hex]

theorem key_of_hex_getD (hex : List Nat) (i : Nat) (hi : i < 16) :
    (key_of_hex hex).getD i 0
      = 16 * hex_value (hex.getD (2 * i) 0) + hex_value (hex.getD (2 * i + 1) 0) := by
  simp [key_of_hex, List.getD_eq_getElem?_getD, List.getElem?_map, List.getElem?_range hi]

theorem parse_hex_key_ok (key hex : List Nat) (hl : hex.length = 32)
    (hd : ∀ c, c ∈ hex → is_hex_digit c) :
    parse_hex_key key hex = .ok (key_of_hex hex ++ key.drop 16) := by
  obtain ⟨hlen, hget, hdrop⟩ := parse_hex_key_fold hex (key.drop 16) 32 (by omega)
  have hk : (List.range 32).foldl (parse_hex_key_step hex)
      (List.replicate 16 0 ++ key.drop 16) = key_of_hex hex ++ key.drop 16 := by
    generalize (List.range 32).foldl (parse_hex_key_step hex)
      (List.replicate 16 0 ++ key.drop 16) = k at hlen hget hdrop
    have ht : k.take 16 = key_of_hex hex := by
      apply list_eq_of_getD
      · rw [key_of_hex_length, List.length_take]; omega
      · intro i hi
        rw [List.length_take] at hi
        have hi16 : i < 16 := by omega
        have h1 := hget i hi16
        rw [if_pos (by omega)] at h1
        rw [key_of_hex_getD _ _ hi16, ← h1]
        simp only [List.getD_eq_getElem?_getD, List.getElem?_take, hi16, if_true]
    calc k = k.take 16 ++ k.drop 16 := (List.take_append_drop 16 k).symm
      _ = key_of_hex hex ++ key.drop 16 := by rw [ht, hdrop]
  unfold parse_hex_key
  rw [if_neg (by rw [hl]; exact fun h => h rfl), (all_hex_iff hex hl).mpr hd, hk]
  rfl

theorem hex_value_upper (c : Nat) : hex_value (hex_upper c) = hex_value c := by
  unfold hex_value hex_upper
  split_ifs <;> omega

theorem hex_value_lower (c : Nat) : hex_value (hex_lower c) = hex_value c := by
  unfold hex_value hex_lower
  split_ifs <;> omega

theorem is_hex_digit_upper (c : Nat) (h : is_hex_digit c) : is_hex_digit (hex_upper c) := by
  unfold is_hex_digit hex_upper at *
  split_ifs <;> omega

theorem is_hex_digit_lower (c : Nat) (h : is_hex_digit c) : is_hex_digit (hex_lower c) := by
  unfold is_hex_digit hex_lower at *
  split_ifs <;> omega

theorem key_of_hex_map (f : Nat → Nat) (hex : List Nat) (hl : hex.length = 32)
    (hf : ∀ c, hex_value (f c) = hex_value c) :
    key_of_hex (hex.map f) = key_of_hex hex := by
  unfold key_of_hex
  apply List.map_congr_left
  intro i hi
  have hi16 : i < 16 := List.mem_range.mp hi
  have g : ∀ j, j < 32 → (hex.map f).getD j 0 = f (hex.getD j 0) := by
    intro j hj
    have hj1 : j < hex.length := by omega
    simp [List.getD_eq_getElem?_getD, List.getElem?_map, List.getElem?_eq_getElem hj1]
  rw [g _ (by omega), g _ (by omega), hf, hf]

/-- C29. For every string of exactly 32 hexadecimal digits, `parse_hex_key` writes the 16
bytes `key[i] = 16 * v(hex[2i]) + v(hex[2i+1])`, `v` being the digit value with `a`-`f` and
`A`-`F` both 10 to 15, and leaves what follows the 16 bytes as it was; the upper-case and the
lower-case spelling of the string give the same key. The arithmetic of the code is followed
modulo 2^8 with the sign extension of the `char` operand, so the equation covers a high
digit of 8 to f, whose shifted nibble is a negative `char`. -/
theorem parse_hex_key_value (key hex : List Nat) (hl : hex.length = 32)
    (hd : ∀ c, c ∈ hex → is_hex_digit c) :
    parse_hex_key key hex = .ok (key_of_hex hex ++ key.drop 16)
    ∧ (∀ i, i < 16 → (key_of_hex hex ++ key.drop 16).getD i 0
        = 16 * hex_value (hex.getD (2 * i) 0) + hex_value (hex.getD (2 * i + 1) 0))
    ∧ (key_of_hex hex).length = 16
    ∧ parse_hex_key key (hex.map hex_upper) = parse_hex_key key hex
    ∧ parse_hex_key key (hex.map hex_lower) = parse_hex_key key hex := by
  have hmem : ∀ (f : Nat → Nat), (∀ c, is_hex_digit c → is_hex_digit (f c)) →
      ∀ c, c ∈ hex.map f → is_hex_digit c := by
    intro f hf c hc
    obtain ⟨a, ha, rfl⟩ := List.mem_map.mp hc
    exact hf a (hd a ha)
  refine ⟨parse_hex_key_ok key hex hl hd, ?_, key_of_hex_length hex, ?_, ?_⟩
  · intro i hi
    rw [List.getD_eq_getElem?_getD,
      List.getElem?_append_left (by rw [key_of_hex_length]; exact hi),
      ← List.getD_eq_getElem?_getD, key_of_hex_getD _ _ hi]
  · rw [parse_hex_key_ok key hex hl hd,
      parse_hex_key_ok key (hex.map hex_upper) (by rw [List.length_map]; exact hl)
        (hmem hex_upper is_hex_digit_upper),
      key_of_hex_map hex_upper hex hl hex_value_upper]
  · rw [parse_hex_key_ok key hex hl hd,
      parse_hex_key_ok key (hex.map hex_lower) (by rw [List.length_map]; exact hl)
        (hmem hex_lower is_hex_digit_lower),
      key_of_hex_map hex_lower hex hl hex_value_lower]

/-- Witness for C29: the key `FEDCBA98765432100123456789abcdef`, whose first bytes have a
high digit of 8 to F. -/
theorem parse_hex_key_value_witness :
    parse_hex_key (List.replicate 16 0xCC) example_hex_key
        = .ok (key_of_hex example_hex_key ++ (List.replicate 16 0xCC).drop 16)
    ∧ (∀ i, i < 16 → (key_of_hex example_hex_key ++ (List.replicate 16 0xCC).drop 16).getD i 0
        = 16 * hex_value (example_hex_key.getD (2 * i) 0)
          + hex_value (example_hex_key.getD (2 * i + 1) 0))
    ∧ (key_of_hex example_hex_key).length = 16
    ∧ parse_hex_key (List.replicate 16 0xCC) (example_hex_key.map hex_upper)
        = parse_hex_key (List.replicate 16 0xCC) example_hex_key
    ∧ parse_hex_key (List.replicate 16 0xCC) (example_hex_key.map hex_lower)
        = parse_hex_key (List.replicate 16 0xCC) example_hex_key :=
  parse_hex_key_value (List.replicate 16 0xCC) example_hex_key (by decide) (by decide)

/-! ## C30: the streaming copy -/

theorem plain_fread (rfuel : Nat) (c : nca_section_ctx_t) (buffer : Nat → Nat) (bofs n : Nat)
    (hdec : c.is_decrypted = true) (hty : c.type ≠ nca_section_type.BKTR) :
    nca_section_fread (rfuel + 1) c buffer bofs n
      = .ok ⟨(fread c.file c.file_pos n).length, memcpy buffer bofs (fread c.file c.file_pos n),
          { c with file_pos := c.file_pos + (fread c.file c.file_pos n).length }⟩ := by
  rw [nca_section_fread]
  simp only [hdec, hty, ne_eq, not_false_eq_true, and_self, if_true]

theorem plain_fread_one (c : nca_section_ctx_t) (buffer : Nat → Nat) (bofs n : Nat)
    (hdec : c.is_decrypted = true) (hty : c.type ≠ nca_section_type.BKTR) :
    nca_section_fread 1 c buffer bofs n
      = .ok ⟨(fread c.file c.file_pos n).length, memcpy buffer bofs (fread c.file c.file_pos n),
          { c with file_pos := c.file_pos + (fread c.file c.file_pos n).length }⟩ :=
  plain_fread 0 c buffer bofs n hdec hty

theorem fread_length_le (file : List Nat) (pos count : Nat) :
    (fread file pos count).length = min count (file.length - pos) := by
  simp [fread]

theorem save_loop_done {σ : Type} (transfer : σ → Nat → Except Fault σ) (end_ofs fuel : Nat)
    (s : σ) (ofs read_size : Nat) (chunks : List Nat) (h : ¬ ofs < end_ofs) :
    save_loop transfer end_ofs (fuel + 1) s ofs read_size chunks = .ok (s, chunks) := by
  rw [save_loop, if_neg h]

theorem save_loop_round {σ : Type} (transfer : σ → Nat → Except Fault σ) (end_ofs fuel : Nat)
    (s s1 : σ) (ofs read_size n : Nat) (chunks : List Nat) (h : ofs < end_ofs)
    (hn : (if u64 (ofs + read_size) ≥ end_ofs then sub64 end_ofs ofs else read_size) = n)
    (ht : transfer s n = .ok s1) :
    save_loop transfer end_ofs (fuel + 1) s ofs read_size chunks
      = save_loop transfer end_ofs fuel s1 (u64 (ofs + n)) n (chunks ++ [n]) := by
  rw [save_loop, if_pos h]
  simp only [hn, ht]

theorem save_loop_fails {σ : Type} (transfer : σ → Nat → Except Fault σ) (end_ofs fuel : Nat)
    (s : σ) (ofs read_size n : Nat) (chunks : List Nat) (e : Fault) (h : ofs < end_ofs)
    (hn : (if u64 (ofs + read_size) ≥ end_ofs then sub64 end_ofs ofs else read_size) = n)
    (ht : transfer s n = .error e) :
    save_loop transfer end_ofs (fuel + 1) s ofs read_size chunks = .error e := by
  rw [save_loop, if_pos h]
  simp only [hn, ht]

theorem big_plain_fields :
    example_big_plain_ctx.is_decrypted = true
    ∧ example_big_plain_ctx.type ≠ nca_section_type.BKTR
    ∧ example_big_plain_ctx.offset = 0x1000
    ∧ example_big_plain_ctx.file = List.replicate 0x501000 0 := by
  refine ⟨rfl, by decide, by decide, rfl⟩

theorem wrapped_copy (c : nca_section_ctx_t) (hdec : c.is_decrypted = true)
    (hty : c.type ≠ nca_section_type.BKTR) (hoff : c.offset = 0x1000)
    (hlen : c.file.length = 0x501000) :
    (∃ s1 : section_copy_t, s1.out.length = 0x400000
      ∧ ∀ fuel, nca_save_section_file (fuel + 1) 1 c (2 ^ 64 - 16) 8
          = save_loop (section_transfer 1) (2 ^ 64 - 8) fuel s1 0x3FFFF0 0x400000 [0x400000])
    ∧ (∀ fuel, chunks_of (nca_save_section_file fuel 1 c (2 ^ 64 - 16) 8) = none)
    ∧ ret_of (seek_then_read 1 c (2 ^ 64 - 16) (fun _ => 0xCC) 8) = some 8 := by
  have hseek : nca_section_fseek c (2 ^ 64 - 16)
      = .ok { c with file_pos := 0xFF0, cur_seek := 0xFF0 } := by
    unfold nca_section_fseek
    rw [if_pos hdec, hoff]
    rfl
  have hend : u64 (2 ^ 64 - 16 + 8) = 2 ^ 64 - 8 := by decide
  have hl1 : (fread c.file 0xFF0 0x400000).length = 0x400000 :=
    fread_length _ _ _ (by rw [hlen]; decide)
  have hl2 : (fread c.file (0xFF0 + 0x400000) 0x400000).length ≠ 0x400000 := by
    rw [fread_length_le, hlen]; decide
  have ht1 : section_transfer 1
      (⟨{ c with file_pos := 0xFF0, cur_seek := 0xFF0 }, fun _ => 0xCC, []⟩ : section_copy_t)
      0x400000
      = .ok ⟨{ c with file_pos := 0xFF0 + 0x400000, cur_seek := 0xFF0 },
          memcpy (fun _ => 0xCC) 0 (fread c.file 0xFF0 0x400000),
          [] ++ buffer_bytes (memcpy (fun _ => 0xCC) 0 (fread c.file 0xFF0 0x400000)) 0
            0x400000⟩ := by
    unfold section_transfer
    rw [plain_fread_one { c with file_pos := 0xFF0, cur_seek := 0xFF0 } _ _ _ hdec hty]
    simp only [hl1, ne_eq, not_true_eq_false, if_false]
  have ht2 : section_transfer 1
      (⟨{ c with file_pos := 0xFF0 + 0x400000, cur_seek := 0xFF0 },
        memcpy (fun _ => 0xCC) 0 (fread c.file 0xFF0 0x400000),
        [] ++ buffer_bytes (memcpy (fun _ => 0xCC) 0 (fread c.file 0xFF0 0x400000)) 0
          0x400000⟩ : section_copy_t) 0x400000
      = .error Fault.exit_failure := by
    unfold section_transfer
    rw [plain_fread_one { c with file_pos := 0xFF0 + 0x400000, cur_seek := 0xFF0 } _ _ _
      hdec hty]
    simp only [ne_eq, hl2, not_false_eq_true, if_true]
  have hrun : ∀ fuel, nca_save_section_file (fuel + 1) 1 c (2 ^ 64 - 16) 8
      = save_loop (section_transfer 1) (2 ^ 64 - 8) fuel
          (⟨{ c with file_pos := 0xFF0 + 0x400000, cur_seek := 0xFF0 },
            memcpy (fun _ => 0xCC) 0 (fread c.file 0xFF0 0x400000),
            [] ++ buffer_bytes (memcpy (fun _ => 0xCC) 0 (fread c.file 0xFF0 0x400000)) 0
              0x400000⟩ : section_copy_t)
          0x3FFFF0 0x400000 [0x400000] := by
    intro fuel
    unfold nca_save_section_file
    rw [hseek, hend]
    exact save_loop_round _ _ _ _ _ _ _ 0x400000 _ (by decide) (by decide) ht1
  refine ⟨⟨_, ?_, hrun⟩, ?_, ?_⟩
  · rw [List.nil_append, buffer_bytes_length]
  rotate_left
  · unfold seek_then_read
    rw [hseek]
    simp only []
    rw [plain_fread_one { c with file_pos := 0xFF0, cur_seek := 0xFF0 } _ _ _ hdec hty]
    simp only [ret_of]
    rw [fread_length _ _ _ (by rw [hlen]; decide)]
  · intro fuel
    cases fuel with
    | zero =>
      unfold nca_save_section_file
      rw [hseek]
      rfl
    | succ f =>
      rw [hrun]
      cases f with
      | zero => rfl
      | succ g =>
        rw [save_loop_fails _ _ _ _ _ _ 0x400000 _ _ (by decide) (by decide) ht2]
        rfl

/-- C30 (the code at the failing input). A plaintext section at offset 0x1000 of a file of
0x501000 bytes is asked for a copy of `total_size = 8` bytes from `ofs = 2^64 - 16`, so
`ofs + total_size < 2^64`, and the 8 bytes can be read (the seek wraps to file position
0xFF0). In the first round `ofs + read_size` wraps to 0x3FFFF0, which is below `end_ofs`,
so `read_size` stays 0x400000: the first chunk read and written has 0x400000 bytes, more
than `total_size`, and the loop goes on from `ofs = 0x3FFFF0`. The next round asks for
0x400000 bytes again, which the file does not hold, and the process exits: whatever the
number of rounds allowed, the copy does not return. -/
theorem copy_near_the_top_overshoots :
    2 ^ 64 - 16 + 8 < 2 ^ 64
    ∧ ret_of (seek_then_read 1 example_big_plain_ctx (2 ^ 64 - 16) (fun _ => 0xCC) 8) = some 8
    ∧ u64 (2 ^ 64 - 16 + 0x400000) = 0x3FFFF0
    ∧ (∃ s1 : section_copy_t, s1.out.length = 0x400000
      ∧ ∀ fuel, nca_save_section_file (fuel + 1) 1 example_big_plain_ctx (2 ^ 64 - 16) 8
          = save_loop (section_transfer 1) (2 ^ 64 - 8) fuel s1 0x3FFFF0 0x400000 [0x400000])
    ∧ ∀ fuel, chunks_of (nca_save_section_file fuel 1 example_big_plain_ctx (2 ^ 64 - 16) 8)
        = none := by
  obtain ⟨h1, h2, h3, h4⟩ := big_plain_fields
  have hw := wrapped_copy example_big_plain_ctx h1 h2 h3
    (by rw [h4, List.length_replicate])
  exact ⟨by decide, hw.2.2, by decide, hw.1, hw.2.1⟩

theorem chunk_sizes_zero : chunk_sizes 0 = [] := by
  simp [chunk_sizes]

theorem chunk_sizes_small (t : Nat) (h0 : 0 < t) (h : t ≤ 0x400000) : chunk_sizes t = [t] := by
  unfold chunk_sizes
  by_cases ht : t = 0x400000
  · subst ht
    rfl
  · have h1 : t / 0x400000 = 0 := Nat.div_eq_of_lt (by omega)
    have h2 : t % 0x400000 = t := Nat.mod_eq_of_lt (by omega)
    rw [h1, h2, if_neg (by omega)]
    rfl

theorem chunk_sizes_step (t : Nat) (h : 0x400000 < t) :
    chunk_sizes t = 0x400000 :: chunk_sizes (t - 0x400000) := by
  unfold chunk_sizes
  have h1 : t / 0x400000 = (t - 0x400000) / 0x400000 + 1 := by omega
  have h2 : t % 0x400000 = (t - 0x400000) % 0x400000 := by omega
  rw [h1, h2, List.replicate_succ, List.cons_append]

theorem chunk_sizes_sum (t : Nat) : (chunk_sizes t).sum = t := by
  unfold chunk_sizes
  rw [List.sum_append, List.sum_replicate, smul_eq_mul]
  split_ifs with h
  · rw [List.sum_nil]; omega
  · rw [List.sum_singleton]; omega

theorem chunk_sizes_bound (t c : Nat) (hc : c ∈ chunk_sizes t) : 0 < c ∧ c ≤ 0x400000 := by
  unfold chunk_sizes at hc
  rcases List.mem_append.mp hc with h | h
  · rw [(List.mem_replicate.mp h).2]; omega
  · split_ifs at h with h0
    · exact absurd h (List.not_mem_nil _)
    · rw [List.mem_singleton.mp h]; omega

theorem chunk_sizes_full (t c : Nat) (hc : c ∈ (chunk_sizes t).dropLast) : c = 0x400000 := by
  unfold chunk_sizes at hc
  split_ifs at hc with h0
  · rw [List.append_nil] at hc
    exact (List.mem_replicate.mp (List.mem_of_mem_dropLast hc)).2
  · rw [List.dropLast_append_of_ne_nil _ (by simp), List.dropLast_single, List.append_nil] at hc
    exact (List.mem_replicate.mp hc).2

theorem save_loop_spec {σ : Type} (transfer : σ → Nat → Except Fault σ)
    (Inv : Nat → σ → Prop) (end_ofs : Nat) (hend : end_ofs + 0x400000 ≤ 2 ^ 64)
    (hok : ∀ s ofs n, Inv ofs s → 0 < n → n ≤ 0x400000 → ofs + n ≤ end_ofs →
      ∃ s1, transfer s n = .ok s1 ∧ Inv (ofs + n) s1) :
    ∀ k fuel s ofs chunks, Inv ofs s → ofs ≤ end_ofs →
      (end_ofs - ofs + 0x3FFFFF) / 0x400000 = k → k < fuel →
      ∃ s1, save_loop transfer end_ofs fuel s ofs 0x400000 chunks
          = .ok (s1, chunks ++ chunk_sizes (end_ofs - ofs))
        ∧ Inv end_ofs s1 := by
  intro k
  induction k with
  | zero =>
    intro fuel s ofs chunks hinv hle hk hfuel
    obtain ⟨f, rfl⟩ : ∃ f, fuel = f + 1 := ⟨fuel - 1, by omega⟩
    have he : ofs = end_ofs := by omega
    subst he
    refine ⟨s, ?_, hinv⟩
    rw [save_loop_done _ _ _ _ _ _ _ (Nat.lt_irrefl _), Nat.sub_self, chunk_sizes_zero,
      List.append_nil]
  | succ k ih =>
    intro fuel s ofs chunks hinv hle hk hfuel
    obtain ⟨f, rfl⟩ : ∃ f, fuel = f + 1 := ⟨fuel - 1, by omega⟩
    have hlt : ofs < end_ofs := by omega
    have hu : u64 (ofs + 0x400000) = ofs + 0x400000 := u64_of_lt (by omega)
    by_cases hlast : ofs + 0x400000 ≥ end_ofs
    · have hsub : sub64 end_ofs ofs = end_ofs - ofs := sub64_of_le hle (by omega)
      obtain ⟨s1, ht, hinv1⟩ := hok s ofs (end_ofs - ofs) hinv (by omega) (by omega) (by omega)
      have hnext : u64 (ofs + (end_ofs - ofs)) = end_ofs := by
        rw [u64_of_lt (by omega)]; omega
      have hinv2 : Inv end_ofs s1 := by
        have e : ofs + (end_ofs - ofs) = end_ofs := by omega
        rw [e] at hinv1; exact hinv1
      obtain ⟨g, rfl⟩ : ∃ g, f = g + 1 := ⟨f - 1, by omega⟩
      refine ⟨s1, ?_, hinv2⟩
      rw [save_loop_round transfer end_ofs _ s s1 ofs 0x400000 (end_ofs - ofs) chunks hlt
        (by rw [hu, if_pos hlast, hsub]) ht, hnext,
        save_loop_done _ _ _ _ _ _ _ (Nat.lt_irrefl _),
        chunk_sizes_small _ (by omega) (by omega)]
    · obtain ⟨s1, ht, hinv1⟩ := hok s ofs 0x400000 hinv (by omega) (by omega) (by omega)
      have hk1 : (end_ofs - (ofs + 0x400000) + 0x3FFFFF) / 0x400000 = k := by
        have e : end_ofs - ofs + 0x3FFFFF = (end_ofs - (ofs + 0x400000) + 0x3FFFFF) + 0x400000 := by
          omega
        rw [e, Nat.add_div_right _ (by decide)] at hk
        omega
      obtain ⟨s2, hrun, hinv2⟩ := ih f s1 (ofs + 0x400000) (chunks ++ [0x400000]) hinv1
        (by omega) hk1 (by omega)
      have e2 : end_ofs - ofs - 0x400000 = end_ofs - (ofs + 0x400000) := by omega
      refine ⟨s2, ?_, hinv2⟩
      rw [save_loop_round transfer end_ofs _ s s1 ofs 0x400000 0x400000 chunks hlt
        (by rw [hu, if_neg hlast]) ht, hu, hrun, chunk_sizes_step (end_ofs - ofs) (by omega),
        List.append_assoc, List.singleton_append, e2]

theorem save_file_section_spec (fuel : Nat) (f_in : List Nat) (ofs total_size : Nat)
    (hend : ofs + total_size + 0x400000 ≤ 2 ^ 64) (hfile : ofs + total_size ≤ f_in.length)
    (hfuel : (total_size + 0x3FFFFF) / 0x400000 < fuel) :
    ∃ s1, save_file_section fuel f_in ofs total_size = .ok (s1, chunk_sizes total_size)
      ∧ s1.out = fread f_in ofs total_size := by
  have hu : u64 (ofs + total_size) = ofs + total_size := u64_of_lt (by omega)
  obtain ⟨s1, hrun, hinv⟩ := save_loop_spec file_transfer
    (fun o s => s.f_in = f_in ∧ s.pos = o ∧ ofs ≤ o ∧ s.out = fread f_in ofs (o - ofs))
    (ofs + total_size) (by omega)
    (by
      rintro s o n ⟨h1, h2, h3, h4⟩ hn0 hn hle
      have hl : (fread s.f_in s.pos n).length = n := by
        rw [h1, h2]; exact fread_length _ _ _ (by omega)
      refine ⟨{ s with pos := s.pos + n, out := s.out ++ fread s.f_in s.pos n },
        by unfold file_transfer; rw [if_neg (by rw [hl]; exact fun h => h rfl)],
        h1, by simp only [h2], by omega, ?_⟩
      simp only [h4, h1, h2]
      unfold fread
      have e : o + n - ofs = (o - ofs) + n := by omega
      rw [e, List.take_add, List.drop_drop]
      congr 3
      omega)
    _ fuel { f_in := f_in, pos := ofs, out := [] } ofs [] ⟨rfl, rfl, Nat.le_refl _, by simp [fread]⟩
    (by omega) rfl (by
      have e : ofs + total_size - ofs = total_size := by omega
      rw [e]; exact hfuel)
  have e : ofs + total_size - ofs = total_size := by omega
  rw [e, List.nil_append] at hrun
  rw [e] at hinv
  refine ⟨s1, ?_, hinv.2.2.2⟩
  unfold save_file_section
  rw [hu]
  exact hrun

end Hactool
